import Mathlib

/-!
# P1P2Serial, H-link parameter conversion

A shallow embedding of `P1P2_Daikin_ParameterConversion_HLINK.h`
(the `SAVEPACKETS` build, ESP8266 variant of `KEY`), followed by theorems
about the observation cache, the decoders and the dispatch function.

Conventions of the embedding

* a `byte` is a `Nat`; where C truncates to 8, 16 or 32 bits the model
  reduces modulo `2^w` explicitly;
* the two cache arrays are functions from slot index to byte; the C code
  guards every access with `pi2 >= sizeValSeen`, and the guard is part of the
  model;
* `payload` is the memory reachable from the `byte*` pointer, a function from
  a non-negative offset to a byte; a read at a negative offset has no defined
  result;
* a result of `none` means that the C code has no defined result at that
  input: an out-of-bounds read of `nr_bytes` / `bytestart`, a read before
  the start of `payload`, or a loop that does not terminate;
* text buffers (`char*`) are lists of characters;
* a `float` or `double` value is the rational number it stands for, and every
  rounding that the C expression makes is a call of a rounding of `FloatOps`.
-/

namespace P1P2

/-! ## Constants and tables -/

def PCKTP_START : Nat := 0x08
def PCKTP_END : Nat := 0x0F
def PCKTP_ARR_SZ : Nat := PCKTP_END - PCKTP_START + 6
def sizeValSeen : Nat := 302

/-- Rows of `nr_bytes[2][PCKTP_ARR_SZ]`. -/
def nr_bytes_rows : List (List Nat) :=
  [ [0, 0, 0, 0, 0, 20, 20, 20, 8, 15, 21, 36, 42],
    [0, 20, 20, 20, 0, 20, 20, 20, 0, 0, 0, 0, 0] ]

/-- Rows of `bytestart[2][PCKTP_ARR_SZ]`. -/
def bytestart_rows : List (List Nat) :=
  [ [0, 0, 0, 0, 0, 0, 20, 40, 60, 68, 83, 104, 140],
    [182, 182, 202, 222, 242, 242, 262, 282, 302, 302, 302, 302, 302] ]

/-- Read of a two-dimensional table; `none` when an index is out of bounds. -/
def tableRead (rows : List (List Nat)) (pts pti : Nat) : Option Nat :=
  match rows[pts]? with
  | none => none
  | some row => row[pti]?

/-- The read `nr_bytes[pts][pti]`. -/
def nr_bytes (pts pti : Nat) : Option Nat := tableRead nr_bytes_rows pts pti

/-- The read `bytestart[pts][pti]`. -/
def bytestart (pts pti : Nat) : Option Nat := tableRead bytestart_rows pts pti

/-! ## Global state -/

/-- The process-wide variables the conversion code reads and writes.
`outputFilter`, `outputMode` and `outputUnknown` are set by the caller and
only read here. `MQTT_KEY_LEN` and `MQTT_VALUE_LEN` are the buffer sizes, constants
of a header that is not among the sources at hand; they are carried along
unchanged and `MQTT_KEY_LEN` is at least 1 in every build. -/
structure State where
  payloadByteVal : Nat → Nat
  payloadByteSeen : Nat → Nat
  maxOutputFilter : Nat
  outputFilter : Nat
  outputMode : Nat
  outputUnknown : Bool
  RSSIcnt : Nat
  uom : Nat
  stateclass : Nat
  MQTT_KEY_LEN : Nat
  MQTT_VALUE_LEN : Nat

/-- Assignment `a[i] = v` on an array seen as a function. -/
def arrSet (a : Nat → Nat) (i v : Nat) : Nat → Nat :=
  fun j => if j = i then v else a j

/-- The cache as it is at process start: both arrays zero. -/
def emptyCache (s : State) : State :=
  { s with payloadByteVal := fun _ => 0, payloadByteSeen := fun _ => 0 }

/-! ## Observation cache, byte path -/

/-- The `switch (packetSrc)` of `newPayloadBytesVal`. -/
def bytesPts (packetSrc : Nat) : Nat :=
  if packetSrc = 0x00 then 0x00
  else if packetSrc = 0x40 then 0x01
  else if packetSrc = 0x89 then 0x00
  else if packetSrc = 0x21 then 0x00
  else if packetSrc = 0x41 then 0x00
  else 0x00

/-- The `switch (packetType)` of `newPayloadBytesVal`. -/
def bytesPti (packetType : Nat) : Nat :=
  if 0x0C ≤ packetType ∧ packetType ≤ 0x0F then packetType - PCKTP_START
  else if packetType = 0x0B then 0x08
  else if packetType = 0x12 then 0x09
  else if packetType = 0x18 then 0x0A
  else if packetType = 0x27 then 0x0B
  else if packetType = 0x2D then 0x0C
  else 0xFF

/-- How the slot loop of `newPayloadBytesVal` ends: by the `return 0` of the
`pi2 >= sizeValSeen` guard, or by running off its upper bound with the
local variables `newByte` and `pubHA`. -/
inductive LoopExit where
  | returned0 : LoopExit
  | done (newByte pubHA : Bool) : LoopExit
  deriving DecidableEq, Repr

/-- The loop `for (byte i = ...; i <= payloadIndex; i++)` of
`newPayloadBytesVal`, entered with counter `i`. `fuel` bounds the number of
evaluations of the loop condition; the counter is a byte and wraps. -/
def bytesLoop (bs payloadIndex : Nat) (payload : Nat → Nat) (haConfig : Nat)
    (saveSeen : Bool) : Nat → Nat → Bool → Bool → State → Option (LoopExit × State)
  | 0, _, _, _, _ => none
  | fuel + 1, i, newByte, pubHA, s =>
    if i ≤ payloadIndex then
      let pi2 := (bs + i) % 65536
      if pi2 ≥ sizeValSeen then
        some (LoopExit.returned0, s)
      else if s.payloadByteSeen pi2 ≠ 0 then
        if s.payloadByteVal pi2 ≠ payload i then
          let newByte1 := decide (s.outputFilter ≤ s.maxOutputFilter)
          let s1 := if saveSeen then
            { s with payloadByteVal := arrSet s.payloadByteVal pi2 (payload i) } else s
          bytesLoop bs payloadIndex payload haConfig saveSeen fuel ((i + 1) % 256) newByte1 pubHA s1
        else
          bytesLoop bs payloadIndex payload haConfig saveSeen fuel ((i + 1) % 256) newByte pubHA s
      else
        if saveSeen then
          bytesLoop bs payloadIndex payload haConfig saveSeen fuel ((i + 1) % 256) true
            (decide (haConfig ≠ 0))
            { s with payloadByteSeen := arrSet s.payloadByteSeen pi2 0xFF,
                     payloadByteVal := arrSet s.payloadByteVal pi2 (payload i) }
        else
          bytesLoop bs payloadIndex payload haConfig saveSeen fuel ((i + 1) % 256) true pubHA s
    else
      some (LoopExit.done newByte pubHA, s)

/-- Result of an observation: the returned `bool`, the globals afterwards, and
whether `client_publish_mqtt` was called with the discovery descriptor. -/
structure Observed where
  ret : Bool
  st : State
  published : Bool

/-- The value `(haConfig || (outputMode & 0x10000)) && newByte`. -/
def reportable (s : State) (haConfig : Nat) (newByte : Bool) : Bool :=
  (decide (haConfig ≠ 0) || decide (s.outputMode &&& 0x10000 ≠ 0)) && newByte

/-- The function `newPayloadBytesVal`. The `mqtt_key` argument only feeds the
discovery descriptor and is left out. The loop gets 256 units of fuel, one
for each value of its byte counter. -/
def newPayloadBytesVal (s : State) (packetSrc packetType payloadIndex : Nat)
    (payload : Nat → Nat) (haConfig : Nat) (length : Nat) (saveSeen : Bool) :
    Option Observed :=
  let newByte := decide (s.outputFilter = 0)
  let pts := bytesPts packetSrc
  let pti := bytesPti packetType
  if pti = 0xFF then
    some ⟨reportable s haConfig true, s, false⟩
  else
    match nr_bytes pts pti, bytestart pts pti with
    | some nb, some bs =>
      if payloadIndex > nb then
        some ⟨reportable s haConfig true, s, false⟩
      else if payloadIndex + 1 < length then
        some ⟨false, s, false⟩
      else
        match bytesLoop bs payloadIndex payload haConfig saveSeen 256
            ((payloadIndex + 1 - length) % 256) newByte false s with
        | none => none
        | some (LoopExit.returned0, s1) => some ⟨false, s1, false⟩
        | some (LoopExit.done newByte1 pubHA, s1) =>
          some ⟨reportable s1 haConfig newByte1, s1, pubHA⟩
    | _, _ => none

/-! ## Observation cache, bit path -/

/-- The local `pts` of `newPayloadBitVal`. -/
def bitPts (packetSrc : Nat) : Nat := packetSrc >>> 6

/-- The local `pti` of `newPayloadBitVal`, a byte. -/
def bitPti (packetType : Nat) : Nat :=
  if packetType = 0x31 then (PCKTP_END - PCKTP_START) + 1
  else (packetType + 256 - PCKTP_START) % 256

/-- The local `pi2` of `newPayloadBitVal` after its `pi2 >= sizeValSeen` guard,
which replaces an index beyond the arrays by 0 and goes on. -/
def bitSlot (bs payloadIndex : Nat) : Nat :=
  if (bs + payloadIndex) % 65536 ≥ sizeValSeen then 0 else (bs + payloadIndex) % 65536

/-- The local `bitMask` of `newPayloadBitVal`, a byte. -/
def bitMaskOf (bitNr : Nat) : Nat := (1 <<< bitNr) % 256

/-- The last branch of `newPayloadBitVal`, from `byte bitMask = 1 << bitNr` to the
`return`: the observation of bit `bitNr` of the byte `b = payload[payloadIndex]`
in slot `pi2`. -/
def bitObserve (s : State) (pi2 b haConfig bitNr : Nat) : Observed :=
  let newBit := decide (s.outputFilter = 0)
  let bitMask := bitMaskOf bitNr
  let val1 := (s.payloadByteVal pi2 &&& (0xFF ^^^ bitMask)) ||| (b &&& bitMask)
  let r : Bool × State × Bool :=
    if s.payloadByteSeen pi2 &&& bitMask ≠ 0 then
      if (s.payloadByteVal pi2 ^^^ b) &&& bitMask ≠ 0 then
        (decide (s.outputFilter ≤ s.maxOutputFilter),
         { s with payloadByteVal := arrSet s.payloadByteVal pi2 val1 },
         false)
      else (newBit, s, false)
    else
      (true,
       { s with payloadByteVal := arrSet s.payloadByteVal pi2 val1,
                payloadByteSeen := arrSet s.payloadByteSeen pi2
                  (s.payloadByteSeen pi2 ||| bitMask) },
       decide (haConfig ≠ 0))
  let newBit1 := if s.outputFilter > s.maxOutputFilter then false else r.1
  ⟨reportable s haConfig newBit1, r.2.1, r.2.2⟩

/-- The function `newPayloadBitVal`. The `mqtt_key` argument only feeds the
discovery descriptor and is left out. -/
def newPayloadBitVal (s : State) (packetSrc packetType payloadIndex : Nat)
    (payload : Nat → Nat) (haConfig : Nat) (bitNr : Nat) : Option Observed :=
  let pts := bitPts packetSrc
  let pti := bitPti packetType
  if bitNr > 7 then
    some ⟨reportable s haConfig true, s, false⟩
  else if packetType < PCKTP_START then
    some ⟨reportable s haConfig true, s, false⟩
  else if packetType > PCKTP_END ∧ packetType ≠ 0x31 then
    some ⟨reportable s haConfig true, s, false⟩
  else
    match nr_bytes pts pti with
    | none => none
    | some nb =>
      if payloadIndex > nb then
        some ⟨reportable s haConfig true, s, false⟩
      else
        match bytestart pts pti with
        | none => none
        | some bs => some (bitObserve s (bitSlot bs payloadIndex) (payload payloadIndex)
            haConfig bitNr)

/-! ## Text -/

/-- Output of `snprintf(buf, size, ...)` for the formatted text `text`: nothing
is written for `size = 0`, otherwise the text cut to `size - 1` characters. -/
def snprintf (buf : List Char) (size : Nat) (text : List Char) : List Char :=
  if size = 0 then buf else text.take (size - 1)

/-- Conversion `%u`. -/
def fmt_u (n : Nat) : List Char := Nat.toDigits 10 n

/-- Conversion `%i`. -/
def fmt_i (z : Int) : List Char :=
  if z < 0 then '-' :: Nat.toDigits 10 z.natAbs else Nat.toDigits 10 z.toNat

/-- One upper-case hexadecimal digit. -/
def hexDigit (n : Nat) : Char :=
  if n < 10 then Char.ofNat (48 + n) else Char.ofNat (55 + n)

/-- Conversion `%02X` of a byte. -/
def fmt_02X (n : Nat) : List Char := [hexDigit (n / 16 % 16), hexDigit (n % 16)]

/-- The cast `(int8_t) b`. -/
def int8 (b : Nat) : Int := if b % 256 < 128 then (b % 256 : Nat) else ((b % 256 : Nat) : Int) - 256

/-! ## Key buffer, categories and call context -/

/-- The key buffer `mqtt_key`. `bits2keyvalue` fills it with `mqttKeyPrefix` and
hands `mqtt_key + MQTT_KEY_PREFIXLEN` on; the macros `CAT_*` and `SRC` write one
character each into the prefix, `KEY` and `snprintf` write the part after the
prefix. The positions inside the prefix come from a header that is not among
the sources at hand, so the buffer is kept as these three parts. -/
structure Key where
  cat : Char
  src : Char
  name : List Char
  deriving DecidableEq, Repr

/-- Everything the body of `bytesbits2keyvalue` works on: the globals, the two
output buffers and the local `haConfig`. `catLog` is bookkeeping for the
theorems, not a C variable: the letters of the `CAT_*` macros executed so
far in this call, latest first. -/
structure Ctx where
  st : State
  key : Key
  value : List Char
  haConfig : Nat
  catLog : List Char

/-- What a call hands back: the returned byte, the two output buffers, the
globals, and whether a discovery descriptor was published. -/
structure Outcome where
  status : Nat
  key : Key
  value : List Char
  st : State
  published : Bool
  catLog : List Char

def CAT_SETTING (c : Ctx) : Ctx :=
  { c with key := { c.key with cat := 'S' }, catLog := 'S' :: c.catLog }

def CAT_TEMP (c : Ctx) : Ctx :=
  { c with key := { c.key with cat := 'T' }, st := { c.st with maxOutputFilter := 1 },
           catLog := 'T' :: c.catLog }

def CAT_MEASUREMENT (c : Ctx) : Ctx :=
  { c with key := { c.key with cat := 'M' }, st := { c.st with maxOutputFilter := 1 },
           catLog := 'M' :: c.catLog }

def CAT_COUNTER (c : Ctx) : Ctx :=
  { c with key := { c.key with cat := 'C' }, catLog := 'C' :: c.catLog }

def CAT_PSEUDO2 (c : Ctx) : Ctx :=
  { c with key := { c.key with cat := 'B' }, catLog := 'B' :: c.catLog }

def CAT_PSEUDO (c : Ctx) : Ctx :=
  { c with key := if c.key.cat ≠ 'B' then { c.key with cat := 'A' } else c.key,
           catLog := 'A' :: c.catLog }

def CAT_TARGET (c : Ctx) : Ctx :=
  { c with key := { c.key with cat := 'D' }, catLog := 'D' :: c.catLog }

def CAT_DAILYSTATS (c : Ctx) : Ctx :=
  { c with key := { c.key with cat := 'R' }, catLog := 'R' :: c.catLog }

def CAT_SCHEDULE (c : Ctx) : Ctx :=
  { c with key := { c.key with cat := 'E' }, catLog := 'E' :: c.catLog }

def CAT_UNKNOWN (c : Ctx) : Ctx :=
  { c with key := { c.key with cat := 'U' }, catLog := 'U' :: c.catLog }

/-- The macro `SRC(x)`. -/
def SRC (x : Nat) (c : Ctx) : Ctx :=
  { c with key := { c.key with src := Char.ofNat (48 + x) } }

/-- The macro `KEY(K)`: `strncpy` of at most `MQTT_KEY_LEN` characters, then a
terminator at position `MQTT_KEY_LEN - 1`. -/
def KEY (K : String) (c : Ctx) : Ctx :=
  { c with key := { c.key with name := K.toList.take (c.st.MQTT_KEY_LEN - 1) } }

def HACONFIG (c : Ctx) : Ctx :=
  { c with haConfig := 1, st := { c.st with uom := 0, stateclass := 0 } }

/-- The macros `HATEMP` ... `HAPERCENT`, which differ in the two numbers. -/
def HAset (uom stateclass : Nat) (c : Ctx) : Ctx :=
  { c with st := { c.st with uom := uom, stateclass := stateclass } }

def HATEMP : Ctx → Ctx := HAset 1 1
def HAPOWER : Ctx → Ctx := HAset 2 1
def HAFLOW : Ctx → Ctx := HAset 3 0
def HAKWH : Ctx → Ctx := HAset 4 2
def HAHOURS : Ctx → Ctx := HAset 5 0
def HASECONDS : Ctx → Ctx := HAset 6 0
def HAMILLISECONDS : Ctx → Ctx := HAset 7 0
def HABYTES : Ctx → Ctx := HAset 8 1
def HAEVENTS : Ctx → Ctx := HAset 9 2
def HACURRENT : Ctx → Ctx := HAset 10 1
def HAFREQ : Ctx → Ctx := HAset 11 1
def HAPERCENT : Ctx → Ctx := HAset 12 1

/-- Leaving with `return status`, the value buffer holding `value`. -/
def Ctx.leave (c : Ctx) (status : Nat) (value : List Char) (st : State) (published : Bool) :
    Outcome :=
  ⟨status, c.key, value, st, published, c.catLog⟩

/-! ## Decoders -/

/-- The read `b[off]` through `b = &payload[payloadIndex]`; there is no defined
result before the start of the payload. -/
def rdPayload (payload : Nat → Nat) (payloadIndex : Nat) (off : Int) : Option Nat :=
  if 0 ≤ (payloadIndex : Int) + off then some (payload ((payloadIndex : Int) + off).toNat)
  else none

def FN_u16_LE (payload : Nat → Nat) (payloadIndex : Nat) : Option Nat :=
  match rdPayload payload payloadIndex (-1), rdPayload payload payloadIndex 0 with
  | some b1, some b0 => some (((b1 <<< 8) ||| b0) % 2 ^ 16)
  | _, _ => none

def FN_u24_LE (payload : Nat → Nat) (payloadIndex : Nat) : Option Nat :=
  match rdPayload payload payloadIndex (-2), rdPayload payload payloadIndex (-1),
    rdPayload payload payloadIndex 0 with
  | some b2, some b1, some b0 => some (((b2 <<< 16) ||| (b1 <<< 8) ||| b0) % 2 ^ 32)
  | _, _, _ => none

def FN_u32_LE (payload : Nat → Nat) (payloadIndex : Nat) : Option Nat :=
  match rdPayload payload payloadIndex (-3), rdPayload payload payloadIndex (-2),
    rdPayload payload payloadIndex (-1), rdPayload payload payloadIndex 0 with
  | some b3, some b2, some b1, some b0 =>
    some ((((b3 <<< 24) % 2 ^ 32) ||| (b2 <<< 16) ||| (b1 <<< 8) ||| b0) % 2 ^ 32)
  | _, _, _, _ => none

/-- Common shape of the decoders: consult the cache at `width` bytes, return 0
when it reports nothing, otherwise format `text` into `mqtt_value` and return 1. -/
def decodeWith (c : Ctx) (packetSrc packetType payloadIndex : Nat) (payload : Nat → Nat)
    (width : Nat) (text : Option (List Char)) : Option Outcome :=
  match newPayloadBytesVal c.st packetSrc packetType payloadIndex payload c.haConfig width true with
  | none => none
  | some o =>
    if o.ret = false then some (c.leave 0 c.value o.st o.published)
    else
      match text with
      | none => none
      | some t => some (c.leave 1 (snprintf c.value o.st.MQTT_VALUE_LEN t) o.st o.published)

def value_u8 (c : Ctx) (packetSrc packetType payloadIndex : Nat) (payload : Nat → Nat) :
    Option Outcome :=
  decodeWith c packetSrc packetType payloadIndex payload 1 (some (fmt_u (payload payloadIndex)))

def value_u16_LE (c : Ctx) (packetSrc packetType payloadIndex : Nat) (payload : Nat → Nat) :
    Option Outcome :=
  decodeWith c packetSrc packetType payloadIndex payload 2
    ((FN_u16_LE payload payloadIndex).map fmt_u)

def value_u24_LE (c : Ctx) (packetSrc packetType payloadIndex : Nat) (payload : Nat → Nat) :
    Option Outcome :=
  decodeWith c packetSrc packetType payloadIndex payload 3
    ((FN_u24_LE payload payloadIndex).map fmt_u)

def value_s8 (c : Ctx) (packetSrc packetType payloadIndex : Nat) (payload : Nat → Nat) :
    Option Outcome :=
  decodeWith c packetSrc packetType payloadIndex payload 1
    (some (fmt_i (int8 (payload payloadIndex))))

def FN_flag8 (b n : Nat) : Bool := (b >>> n) &&& 0x01 ≠ 0

/-- Conversion `%i` of a `bool`. -/
def fmt_flag (b : Bool) : List Char := fmt_i (if b then 1 else 0)

def value_flag8 (c : Ctx) (packetSrc packetType payloadIndex : Nat) (payload : Nat → Nat)
    (bitNr : Nat) : Option Outcome :=
  match newPayloadBitVal c.st packetSrc packetType payloadIndex payload c.haConfig bitNr with
  | none => none
  | some o =>
    if o.ret = false then some (c.leave 0 c.value o.st o.published)
    else some (c.leave 1
      (snprintf c.value o.st.MQTT_VALUE_LEN (fmt_flag (FN_flag8 (payload payloadIndex) bitNr)))
      o.st o.published)

def unknownBit (c : Ctx) (packetSrc packetType payloadIndex : Nat) (payload : Nat → Nat)
    (bitNr : Nat) : Option Outcome :=
  if c.st.outputUnknown = false then some (c.leave 0 c.value c.st false)
  else
    match newPayloadBitVal c.st packetSrc packetType payloadIndex payload c.haConfig bitNr with
    | none => none
    | some o =>
      if o.ret = false then some (c.leave 0 c.value o.st o.published)
      else
        let name := snprintf c.key.name o.st.MQTT_KEY_LEN
          ("PacketSrc_0x".toList ++ fmt_02X packetSrc ++ "_Type_0x".toList ++ fmt_02X packetType
            ++ "_Byte_".toList ++ fmt_i payloadIndex ++ "_Bit_".toList ++ fmt_i bitNr)
        some ⟨1, { c.key with name := name },
          snprintf c.value o.st.MQTT_VALUE_LEN (fmt_flag (FN_flag8 (payload payloadIndex) bitNr)),
          o.st, o.published, c.catLog⟩

def unknownByte (c : Ctx) (packetSrc packetType payloadIndex : Nat) (payload : Nat → Nat) :
    Option Outcome :=
  if c.st.outputUnknown = false then some (c.leave 0 c.value c.st false)
  else
    match newPayloadBytesVal c.st packetSrc packetType payloadIndex payload c.haConfig 1 true with
    | none => none
    | some o =>
      if o.ret = false then some (c.leave 0 c.value o.st o.published)
      else
        let name := snprintf c.key.name o.st.MQTT_KEY_LEN
          ("PacketSrc_0x".toList ++ fmt_02X packetSrc ++ "_Type_0x".toList ++ fmt_02X packetType
            ++ "_Byte_".toList ++ fmt_i payloadIndex)
        some ⟨1, { c.key with name := name },
          snprintf c.value o.st.MQTT_VALUE_LEN
            ("\"0x".toList ++ fmt_02X (payload payloadIndex) ++ "\"".toList),
          o.st, o.published, c.catLog⟩

/-! ## Dispatch -/

/-- The arguments of `bytesbits2keyvalue` that the macros pick up by name. -/
structure Args where
  packetSrc : Nat
  packetType : Nat
  payloadIndex : Nat
  payload : Nat → Nat
  bitNr : Nat

def VALUE_u8 (a : Args) (c : Ctx) : Option Outcome :=
  value_u8 c a.packetSrc a.packetType a.payloadIndex a.payload

def VALUE_s8 (a : Args) (c : Ctx) : Option Outcome :=
  value_s8 c a.packetSrc a.packetType a.payloadIndex a.payload

def VALUE_flag8 (a : Args) (c : Ctx) : Option Outcome :=
  value_flag8 c a.packetSrc a.packetType a.payloadIndex a.payload a.bitNr

def UNKNOWN_BIT (a : Args) (c : Ctx) : Option Outcome :=
  unknownBit (CAT_UNKNOWN c) a.packetSrc a.packetType a.payloadIndex a.payload a.bitNr

def UNKNOWN_BYTE (a : Args) (c : Ctx) : Option Outcome :=
  unknownByte (CAT_UNKNOWN c) a.packetSrc a.packetType a.payloadIndex a.payload

/-- The macro `BITBASIS`: `newPayloadBytesVal(..., 1, 0) << 3`. -/
def BITBASIS (a : Args) (c : Ctx) : Option Outcome :=
  match newPayloadBytesVal c.st a.packetSrc a.packetType a.payloadIndex a.payload c.haConfig 1
      false with
  | none => none
  | some o => some (c.leave ((if o.ret then 1 else 0) <<< 3) c.value o.st o.published)

/-- The statement `return 0;` inside the dispatch. -/
def RETURN0 (c : Ctx) : Option Outcome := some (c.leave 0 c.value c.st false)

/-- Source `0x89`, type `0x2D`, after `CAT_MEASUREMENT`. -/
def case_89_2D (a : Args) (c : Ctx) : Option Outcome :=
  match a.payloadIndex with
  | 0x07 => VALUE_s8 a (HATEMP (CAT_TEMP (KEY "IUAirInletTemperature" c)))
  | 0x08 => VALUE_s8 a (HATEMP (CAT_TEMP (KEY "IUAirOutletTemperature" c)))
  | 0x09 => VALUE_s8 a (HATEMP (CAT_TEMP (KEY "IULiquidPipeTemperature" c)))
  | 0x0A => VALUE_s8 a (HATEMP (CAT_TEMP (KEY "IURemoteSensorAirTemperature" c)))
  | 0x0B => VALUE_s8 a (HATEMP (CAT_TEMP (KEY "OutdoorAirTemperature" c)))
  | 0x0C => VALUE_s8 a (HATEMP (CAT_TEMP (KEY "IUGasPipeTemperature" c)))
  | 0x0D => VALUE_s8 a (HATEMP (CAT_TEMP (KEY "OUHeatExchangerTemperature1" c)))
  | 0x0E => VALUE_s8 a (HATEMP (CAT_TEMP (KEY "OUHeatExchangerTemperature2" c)))
  | 0x0F => VALUE_s8 a (HATEMP (CAT_TEMP (KEY "CompressorTemperature" c)))
  | 0x10 => VALUE_u8 a (CAT_MEASUREMENT (KEY "HighPressure" c))
  | 0x11 => VALUE_u8 a (CAT_MEASUREMENT (KEY "LowPressure_x10" c))
  | 0x12 => VALUE_u8 a (HAFREQ (CAT_MEASUREMENT (KEY "TargetCompressorFrequency" c)))
  | 0x13 => VALUE_u8 a (HAFREQ (CAT_MEASUREMENT (KEY "CompressorFrequency" c)))
  | 0x14 => VALUE_u8 a (HAPERCENT (CAT_MEASUREMENT (KEY "IUExpansionValve" c)))
  | 0x15 => VALUE_u8 a (HAPERCENT (CAT_MEASUREMENT (KEY "OUExpansionValve" c)))
  | 0x18 => VALUE_u8 a (HACURRENT (CAT_MEASUREMENT (KEY "CompressorCurrent" c)))
  | 0x21 =>
    match a.bitNr with
    | 8 => BITBASIS a c
    | 0 => VALUE_flag8 a (KEY "892D-21-0" c)
    | 1 => VALUE_flag8 a (KEY "892D-21-1-OUnitOn" c)
    | 2 => VALUE_flag8 a (KEY "892D-21-2" c)
    | 3 => VALUE_flag8 a (KEY "892D-21-3-CompressorOn" c)
    | 4 => VALUE_flag8 a (KEY "892D-21-4" c)
    | 5 => VALUE_flag8 a (KEY "892D-21-5" c)
    | 6 => VALUE_flag8 a (KEY "892D-21-6" c)
    | 7 => VALUE_flag8 a (KEY "892D-21-7-OUStarting" c)
    | _ => UNKNOWN_BIT a c
  | 0x22 =>
    match a.bitNr with
    | 8 => BITBASIS a c
    | 0 => VALUE_flag8 a (KEY "892D-22-0" c)
    | 1 => VALUE_flag8 a (KEY "892D-22-1" c)
    | 2 => VALUE_flag8 a (KEY "892D-22-2" c)
    | 3 => VALUE_flag8 a (KEY "892D-22-3" c)
    | 4 => VALUE_flag8 a (KEY "892D-22-4" c)
    | 5 => VALUE_flag8 a (KEY "892D-22-5" c)
    | 6 => VALUE_flag8 a (KEY "892D-22-6" c)
    | 7 => VALUE_flag8 a (KEY "892D-22-7" c)
    | _ => UNKNOWN_BIT a c
  | 0x29 => RETURN0 c
  | _ => UNKNOWN_BYTE a c

/-- Source `0x89`, type `0x27`, after `CAT_MEASUREMENT`. -/
def case_89_27 (a : Args) (c : Ctx) : Option Outcome :=
  match a.payloadIndex with
  | 0x07 =>
    match a.bitNr with
    | 8 => BITBASIS a c
    | 0 => VALUE_flag8 a (KEY "8927-07-0-OUnitOn" c)
    | 1 => VALUE_flag8 a (KEY "8927-07-1-DEFROST" c)
    | 2 => VALUE_flag8 a (KEY "8927-07-2" c)
    | 3 => VALUE_flag8 a (KEY "8927-07-3" c)
    | 4 => VALUE_flag8 a (KEY "8927-07-4" c)
    | 5 => VALUE_flag8 a (KEY "8927-07-5-VentilMode" c)
    | 6 => VALUE_flag8 a (KEY "8927-07-6-HeatMode" c)
    | 7 => VALUE_flag8 a (KEY "8927-07-7" c)
    | _ => UNKNOWN_BIT a c
  | 0x08 =>
    match a.bitNr with
    | 8 => BITBASIS a c
    | 0 => VALUE_flag8 a (KEY "8927-08-0" c)
    | 1 => VALUE_flag8 a (KEY "8927-08-1" c)
    | 2 => VALUE_flag8 a (KEY "8927-08-2" c)
    | 3 => VALUE_flag8 a (KEY "8927-08-3" c)
    | 4 => VALUE_flag8 a (KEY "8927-08-4" c)
    | 5 => VALUE_flag8 a (KEY "8927-08-5" c)
    | 6 => VALUE_flag8 a (KEY "8927-08-6" c)
    | 7 => VALUE_flag8 a (KEY "8927-08-7" c)
    | _ => UNKNOWN_BIT a c
  | 0x09 => VALUE_u8 a (HATEMP (CAT_TEMP (KEY "TemperatureSetpoint" c)))
  | 0x16 => VALUE_u8 a (KEY "8927--16-unsure" c)
  | 0x1C =>
    match a.bitNr with
    | 8 => BITBASIS a c
    | 0 => VALUE_flag8 a (KEY "8927-1C-0" c)
    | 1 => VALUE_flag8 a (KEY "8927-1C-1-PREHEAT" c)
    | 2 => VALUE_flag8 a (KEY "8927-1C-2" c)
    | 3 => VALUE_flag8 a (KEY "8927-1C-3" c)
    | 4 => VALUE_flag8 a (KEY "8927-1C-4" c)
    | 5 => VALUE_flag8 a (KEY "8927-1C-5" c)
    | 6 => VALUE_flag8 a (KEY "8927-1C-6" c)
    | 7 => VALUE_flag8 a (KEY "8927-1C-7" c)
    | _ => UNKNOWN_BIT a c
  | 0x23 => RETURN0 c
  | _ => UNKNOWN_BYTE a c

/-- Source `0x21`, type `0x12`, after `CAT_SETTING`. At index `0x09` the macro
`HATEMP` stands behind the returning `VALUE_u8` and is never executed. -/
def case_21_12 (a : Args) (c : Ctx) : Option Outcome :=
  match a.payloadIndex with
  | 0x07 =>
    match a.bitNr with
    | 8 => BITBASIS a c
    | 0 => VALUE_flag8 a (KEY "ACMode0UnitOn" c)
    | 1 => VALUE_flag8 a (KEY "ACMode1UnitOn" c)
    | 2 => VALUE_flag8 a (KEY "ACMode2" c)
    | 3 => VALUE_flag8 a (KEY "ACMode3" c)
    | 4 => VALUE_flag8 a (KEY "ACMode4" c)
    | 5 => VALUE_flag8 a (KEY "ACMode5Ventil" c)
    | 6 => VALUE_flag8 a (KEY "ACMode6Heat" c)
    | 7 => VALUE_flag8 a (KEY "ACMode7" c)
    | _ => UNKNOWN_BIT a c
  | 0x08 =>
    match a.bitNr with
    | 8 => BITBASIS a c
    | 1 => VALUE_flag8 a (KEY "VentilHighOn" c)
    | 2 => VALUE_flag8 a (KEY "VentilMedOn" c)
    | 3 => VALUE_flag8 a (KEY "VentilLowOn" c)
    | _ => UNKNOWN_BIT a c
  | 0x09 => VALUE_u8 a (CAT_TEMP (KEY "TemperatureSetpoint" c))
  | 0x0B => VALUE_u8 a (KEY "Unknown-2112--0B" c)
  | 0x0E => RETURN0 c
  | _ => UNKNOWN_BYTE a c

/-- Source `0x41`, type `0x18`, after `CAT_SETTING`. -/
def case_41_18 (a : Args) (c : Ctx) : Option Outcome :=
  match a.payloadIndex with
  | 0x00 => VALUE_u8 a (KEY "Unknown-AZ00" c)
  | 0x01 => VALUE_u8 a (KEY "Unknown-AZ01" c)
  | 0x02 => VALUE_u8 a (KEY "Unknown-AZ02" c)
  | 0x03 => VALUE_u8 a (KEY "Unknown-AZ03" c)
  | 0x04 => VALUE_u8 a (KEY "Unknown-AZ04" c)
  | 0x05 => VALUE_u8 a (KEY "Unknown-AZ05" c)
  | 0x06 => VALUE_u8 a (KEY "Unknown-AZ06" c)
  | 0x07 =>
    match a.bitNr with
    | 8 => BITBASIS a c
    | 0 => VALUE_flag8 a (KEY "SetACMode0UnitOn" c)
    | 1 => VALUE_flag8 a (KEY "SetACMode1UnitOn" c)
    | 2 => VALUE_flag8 a (KEY "SetACMode2" c)
    | 3 => VALUE_flag8 a (KEY "SetACMode3" c)
    | 4 => VALUE_flag8 a (KEY "SetACMode4" c)
    | 5 => VALUE_flag8 a (KEY "SetACMode5Ventil" c)
    | 6 => VALUE_flag8 a (KEY "SetACMode6Heat" c)
    | 7 => VALUE_flag8 a (KEY "SetACMode7" c)
    | _ => UNKNOWN_BIT a c
  | 0x08 =>
    match a.bitNr with
    | 8 => BITBASIS a c
    | 1 => VALUE_flag8 a (KEY "SetVentilHighOn" c)
    | 2 => VALUE_flag8 a (KEY "SetVentilMedOn" c)
    | 3 => VALUE_flag8 a (KEY "SetVentilLowOn" c)
    | _ => UNKNOWN_BIT a c
  | 0x09 => VALUE_u8 a (HATEMP (CAT_TEMP (KEY "SetTemperatureSetpoint" c)))
  | 0x0A => VALUE_u8 a (KEY "Unknown-AZ0A" c)
  | 0x0B => VALUE_u8 a (KEY "Unknown-AZ0B" c)
  | 0x0C => VALUE_u8 a (KEY "Unknown-AZ0C" c)
  | 0x0D => VALUE_u8 a (KEY "Unknown-AZ0D" c)
  | 0x0E => VALUE_u8 a (KEY "Unknown-AZ0E" c)
  | 0x0F => VALUE_u8 a (KEY "Unknown-AZ0F" c)
  | 0x10 => VALUE_u8 a (KEY "Unknown-AZ10" c)
  | 0x11 => VALUE_u8 a (KEY "Unknown-AZ11" c)
  | 0x12 => VALUE_u8 a (KEY "Unknown-AZ12" c)
  | 0x13 => VALUE_u8 a (KEY "Unknown-AZ13" c)
  | 0x14 => RETURN0 c
  | _ => UNKNOWN_BYTE a c

/-- The second `switch (packetType)` of `bytesbits2keyvalue`, whose cases are
the file `P1P2_pseudo.h`. That file is not among the sources at hand, so the
switch, together with the `return 0` behind it, is a parameter of the model. -/
abbrev PseudoSwitch := Args → Ctx → Option Outcome

/-- The local `src` of `bytesbits2keyvalue`. -/
def srcDigit (packetSrc : Nat) : Nat :=
  if packetSrc = 0x21 then 2
  else if packetSrc = 0x89 then 8
  else if packetSrc = 0x41 then 4
  else if packetSrc = 0x00 then 0
  else if packetSrc = 0x40 then 1
  else 9

/-- The statements of `bytesbits2keyvalue` in front of the first switch. -/
def preamble (s : State) (key : Key) (value : List Char) (packetSrc : Nat) : Ctx :=
  let c0 : Ctx := { st := { s with maxOutputFilter := 9 }, key := key, value := value,
                    haConfig := 0, catLog := [] }
  HACONFIG (SRC (srcDigit packetSrc) (CAT_UNKNOWN c0))

/-- The function `bytesbits2keyvalue`; `key` and `value` are the contents of the
buffers behind `mqtt_key` and `mqtt_value` at the call. -/
def bytesbits2keyvalue (pseudo : PseudoSwitch) (s : State) (key : Key) (value : List Char)
    (a : Args) : Option Outcome :=
  let c := preamble s key value a.packetSrc
  if a.packetSrc = 0x89 then
    if a.packetType = 0x2D then case_89_2D a (CAT_MEASUREMENT c)
    else if a.packetType = 0x27 then case_89_27 a (CAT_MEASUREMENT c)
    else RETURN0 c
  else if a.packetSrc = 0x21 then
    if a.packetType = 0x12 then case_21_12 a (CAT_SETTING c)
    else RETURN0 c
  else if a.packetSrc = 0x41 then
    if a.packetType = 0x18 then case_41_18 a (CAT_SETTING c)
    else RETURN0 c
  else pseudo a c

/-- The function `bits2keyvalue`. What `strcpy(mqtt_key, mqttKeyPrefix)` leaves
in the key buffer depends on `mqttKeyPrefix` and `MQTT_KEY_PREFIXLEN`, which are
not among the sources at hand; the buffer after the `strcpy` is the parameter
`mqttKeyPrefix`. -/
def bits2keyvalue (pseudo : PseudoSwitch) (mqttKeyPrefix : Key) (s : State)
    (value : List Char) (packetSrc packetType payloadIndex : Nat) (payload : Nat → Nat)
    (j : Nat) : Option Outcome :=
  bytesbits2keyvalue pseudo s mqttKeyPrefix value
    ⟨packetSrc, packetType, payloadIndex, payload, j⟩

/-- The function `bytes2keyvalue`. -/
def bytes2keyvalue (pseudo : PseudoSwitch) (mqttKeyPrefix : Key) (s : State)
    (value : List Char) (packetSrc packetType payloadIndex : Nat) (payload : Nat → Nat) :
    Option Outcome :=
  bits2keyvalue pseudo mqttKeyPrefix s value packetSrc packetType payloadIndex payload 8

/-! ## Decoders outside the dispatch table -/

/-- The text `"0x` followed by the bytes in `%02X` and a closing quote. -/
def fmt_hex (bytes : List Nat) : List Char :=
  "\"0x".toList ++ (bytes.map fmt_02X).flatten ++ "\"".toList

/-- The payload bytes `payload[payloadIndex - back] .. payload[payloadIndex]`, lowest
position first, as the hex decoders read them. -/
def rdWindow (payload : Nat → Nat) (payloadIndex : Nat) : Nat → Option (List Nat)
  | 0 => (rdPayload payload payloadIndex 0).map (fun b => [b])
  | back + 1 =>
    match rdPayload payload payloadIndex (-((back + 1 : Nat) : Int)),
      rdWindow payload payloadIndex back with
    | some b, some rest => some (b :: rest)
    | _, _ => none

def value_u8hex (c : Ctx) (packetSrc packetType payloadIndex : Nat) (payload : Nat → Nat) :
    Option Outcome :=
  decodeWith c packetSrc packetType payloadIndex payload 1
    ((rdWindow payload payloadIndex 0).map fmt_hex)

def value_u16hex_LE (c : Ctx) (packetSrc packetType payloadIndex : Nat) (payload : Nat → Nat) :
    Option Outcome :=
  decodeWith c packetSrc packetType payloadIndex payload 2
    ((rdWindow payload payloadIndex 1).map fmt_hex)

def value_u24hex_LE (c : Ctx) (packetSrc packetType payloadIndex : Nat) (payload : Nat → Nat) :
    Option Outcome :=
  decodeWith c packetSrc packetType payloadIndex payload 3
    ((rdWindow payload payloadIndex 2).map fmt_hex)

def value_u32hex_LE (c : Ctx) (packetSrc packetType payloadIndex : Nat) (payload : Nat → Nat) :
    Option Outcome :=
  decodeWith c packetSrc packetType payloadIndex payload 4
    ((rdWindow payload payloadIndex 3).map fmt_hex)

def value_u8_add2k (c : Ctx) (packetSrc packetType payloadIndex : Nat) (payload : Nat → Nat) :
    Option Outcome :=
  decodeWith c packetSrc packetType payloadIndex payload 1
    (some (fmt_u (payload payloadIndex + 2000)))

/-- The conversion of an `int` to the return type `int8_t`. -/
def toInt8 (z : Int) : Int := (z + 128) % 256 - 128

/-- The function `FN_s4abs1c`, applied to the byte `b[0]`. -/
def FN_s4abs1c (b : Nat) : Int :=
  let c := int8 (b &&& 0x0F)
  if b &&& 0x10 ≠ 0 then toInt8 (-c) else c

def value_s4abs1c (c : Ctx) (packetSrc packetType payloadIndex : Nat) (payload : Nat → Nat) :
    Option Outcome :=
  decodeWith c packetSrc packetType payloadIndex payload 1
    (some (fmt_i (FN_s4abs1c (payload payloadIndex))))

/-- The function `value_trg`, which consults nothing. -/
def value_trg (c : Ctx) (packetSrc packetType : Nat) : Option Outcome :=
  some (c.leave 1
    (snprintf c.value c.st.MQTT_VALUE_LEN
      ("\"Empty_Payload_".toList ++ fmt_02X packetSrc ++ "00".toList ++ fmt_02X packetType
        ++ "\"".toList))
    c.st false)

/-- The function `value_s8_ratelimited`; `RSSIcnt` is a byte. -/
def value_s8_ratelimited (c : Ctx) (packetSrc packetType payloadIndex : Nat)
    (payload : Nat → Nat) : Option Outcome :=
  let c1 : Ctx := { c with st := { c.st with RSSIcnt := (c.st.RSSIcnt + 1) % 256 } }
  if c1.st.RSSIcnt ≠ 0 then some (c1.leave 0 c1.value c1.st false)
  else value_s8 c1 packetSrc packetType payloadIndex payload

/-- The mask loop of `value_u32_LE_uptime`,
`while (payload[payloadIndex - 1] > bitMaskUptime) { bitMaskUptime <<= 1; bitMaskUptime |= 1; }`,
for the byte `b = payload[payloadIndex - 1]`, entered with mask `m`. `fuel` bounds the
number of evaluations of the loop condition; the mask is a byte. -/
def uptimeMaskLoop (b : Nat) : Nat → Nat → Option Nat
  | 0, _ => none
  | fuel + 1, m =>
    if b > m then uptimeMaskLoop b fuel ((((m <<< 1) % 256) ||| 1) % 256) else some m

/-- The local `bitMaskUptime` of `value_u32_LE_uptime` when the payload is
modified. The loop gets 256 units of fuel, one for each value of the mask. -/
def uptimeMask (payload : Nat → Nat) (payloadIndex : Nat) : Option Nat :=
  match rdPayload payload payloadIndex (-3) with
  | none => none
  | some b3 =>
    if b3 = 0 then
      match rdPayload payload payloadIndex (-2) with
      | none => none
      | some b2 =>
        if b2 = 0 then
          match rdPayload payload payloadIndex (-1) with
          | none => none
          | some b1 => uptimeMaskLoop b1 256 0x01
        else some 0xFF
    else some 0xFF

/-- The payload after `payload[payloadIndex] &= ~(bitMaskUptime >> 1)`. -/
def uptimeCleared (payload : Nat → Nat) (payloadIndex m : Nat) : Nat → Nat :=
  arrSet payload payloadIndex (payload payloadIndex &&& (0xFF ^^^ (m >>> 1)))

/-- The function `value_u32_LE_uptime`. It writes to the payload; the result
carries the payload as the call leaves it. -/
def value_u32_LE_uptime (c : Ctx) (packetSrc packetType payloadIndex : Nat)
    (payload : Nat → Nat) : Option (Outcome × (Nat → Nat)) :=
  match uptimeMask payload payloadIndex with
  | none => none
  | some m =>
    match decodeWith c packetSrc packetType payloadIndex (uptimeCleared payload payloadIndex m) 4
        ((FN_u32_LE (uptimeCleared payload payloadIndex m) payloadIndex).map fmt_u) with
    | none => none
    | some o => some (o, uptimeCleared payload payloadIndex m)

/-! ## Floating point -/

/-- The two roundings of the platform: of a real number to `double` and to
`float`. The decoders below spell out every rounding the C expression makes;
the theorems either assume `FloatOps.correctlyRounded`, or compute in exact
arithmetic (`exactArithmetic`). -/
structure FloatOps where
  toDouble : ℚ → ℚ
  toFloat : ℚ → ℚ

/-- Rounding to the nearest integer, ties to even. -/
def roundHalfEven (q : ℚ) : Int :=
  let f := Rat.floor q
  let r := q - f
  if r < 1 / 2 then f else if 1 / 2 < r then f + 1 else if f % 2 = 0 then f else f + 1

/-- Conversion `%1.<d>f` of the value `q`: sign, integer part, and `d` decimals
rounded to nearest, ties to even. -/
def fmt_f (d : Nat) (q : ℚ) : List Char :=
  let n := (roundHalfEven (|q| * 10 ^ d)).toNat
  let frac := Nat.toDigits 10 (n % 10 ^ d)
  (if q < 0 then ['-'] else []) ++ Nat.toDigits 10 (n / 10 ^ d) ++
    (if d = 0 then [] else '.' :: (List.replicate (d - frac.length) '0' ++ frac))

/-- The function `FN_f8s8`: `((float)(int8_t) b[-1]) + ((float) b[0]) / 10` in `float`. -/
def FN_f8s8 (r : FloatOps) (payload : Nat → Nat) (payloadIndex : Nat) : Option ℚ :=
  match rdPayload payload payloadIndex (-1), rdPayload payload payloadIndex 0 with
  | some b1, some b0 => some (r.toFloat ((int8 b1 : ℚ) + r.toFloat ((b0 : ℚ) / 10)))
  | _, _ => none

/-- The function `value_f8s8`, in the variant that prints with `%1.3f`. -/
def value_f8s8 (r : FloatOps) (c : Ctx) (packetSrc packetType payloadIndex : Nat)
    (payload : Nat → Nat) : Option Outcome :=
  decodeWith c packetSrc packetType payloadIndex payload 2
    ((FN_f8s8 r payload payloadIndex).map (fmt_f 3))

/-- The last line of `value_f`, `value_s` and `value_timeString`:
`return (outputFilter > maxOutputFilter ? 0 : 1)`. -/
def filterStatus (s : State) : Nat := if s.outputFilter > s.maxOutputFilter then 0 else 1

/-- Common body of `value_f` and `value_s` for the formatted text `text`. The
argument `length` is an `int` in C, taken as non-negative here, and reaches
`newPayloadBytesVal` as a byte. With `length = 0` the cache is consulted at width
1 and what it returns is dropped. -/
def valueSupplied (c : Ctx) (packetSrc packetType payloadIndex : Nat) (payload : Nat → Nat)
    (text : List Char) (length : Nat) : Option Outcome :=
  if length ≠ 0 then
    match newPayloadBytesVal c.st packetSrc packetType payloadIndex payload c.haConfig
        (length % 256) true with
    | none => none
    | some o =>
      if o.ret = false then some (c.leave 0 c.value o.st o.published)
      else some (c.leave (filterStatus o.st) (snprintf c.value o.st.MQTT_VALUE_LEN text) o.st
        o.published)
  else
    match newPayloadBytesVal c.st packetSrc packetType payloadIndex payload c.haConfig 1 true with
    | none => none
    | some o =>
      some (c.leave (filterStatus o.st) (snprintf c.value o.st.MQTT_VALUE_LEN text) o.st
        o.published)

/-- The function `value_f`, in the variant that prints with `%1.3f`; `v` is the
value of the `float` argument. -/
def value_f (c : Ctx) (packetSrc packetType payloadIndex : Nat) (payload : Nat → Nat) (v : ℚ)
    (length : Nat) : Option Outcome :=
  valueSupplied c packetSrc packetType payloadIndex payload (fmt_f 3 v) length

/-- The function `value_s`. -/
def value_s (c : Ctx) (packetSrc packetType payloadIndex : Nat) (payload : Nat → Nat) (v : Int)
    (length : Nat) : Option Outcome :=
  valueSupplied c packetSrc packetType payloadIndex payload (fmt_i v) length

/-- The function `value_timeString`. -/
def value_timeString (c : Ctx) (timestring : List Char) : Option Outcome :=
  some (c.leave (filterStatus c.st)
    (snprintf c.value c.st.MQTT_VALUE_LEN ("\"".toList ++ timestring ++ "\"".toList)) c.st false)

/-! ## Auxiliary definitions for the statements -/

/-- The cache after the bytes `payload[lo .. hi]` have been saved in the slots
`bs + lo .. bs + hi`: every slot of the range holds the payload byte, and a
slot of the range that was unseen has the seen value `0xFF`. -/
def saveRange (s : State) (bs lo hi : Nat) (payload : Nat → Nat) : State :=
  { s with
    payloadByteVal := fun k =>
      if bs + lo ≤ k ∧ k ≤ bs + hi then payload (k - bs) else s.payloadByteVal k,
    payloadByteSeen := fun k =>
      if bs + lo ≤ k ∧ k ≤ bs + hi ∧ s.payloadByteSeen k = 0 then 0xFF
      else s.payloadByteSeen k }

/-- The result of the call number `k + 1` when the observation `f` is called
again and again, each call starting from the globals the previous one left. -/
def repeated (f : State → Option Observed) : Nat → State → Option Observed
  | 0, s => f s
  | k + 1, s =>
    match f s with
    | none => none
    | some o => repeated f k o.st

/-- A payload buffer holding the bytes of `l`, zero behind them. -/
def payloadOf (l : List Nat) : Nat → Nat := fun i => l.getD i 0

/-- The globals at process start (both cache arrays zero, `RSSIcnt = 0xFF`), with
`outputFilter = 1` and buffers of 100 characters. -/
def startState : State :=
  { payloadByteVal := fun _ => 0, payloadByteSeen := fun _ => 0, maxOutputFilter := 0,
    outputFilter := 1, outputMode := 0, outputUnknown := false, RSSIcnt := 0xFF, uom := 0,
    stateclass := 0, MQTT_KEY_LEN := 100, MQTT_VALUE_LEN := 100 }

/-- The globals at process start with `outputFilter = 2` and a ceiling of 1 in
force. -/
def filteredState : State := { startState with outputFilter := 2, maxOutputFilter := 1 }

/-- A second switch without cases: `default: break;` and then `return 0;`. -/
def noPseudo : PseudoSwitch := fun _ c => RETURN0 c

/-- The key buffer after `strcpy(mqtt_key, mqttKeyPrefix)` for a prefix that has
`'*'` at the two positions and nothing behind it. -/
def plainPrefix : Key := ⟨'*', '*', []⟩

/-- The globals other than the two cache arrays agree in `s` and `t`. -/
def sameSettings (s t : State) : Prop :=
  t.maxOutputFilter = s.maxOutputFilter ∧ t.outputFilter = s.outputFilter ∧
  t.outputMode = s.outputMode ∧ t.outputUnknown = s.outputUnknown ∧ t.RSSIcnt = s.RSSIcnt ∧
  t.uom = s.uom ∧ t.stateclass = s.stateclass ∧ t.MQTT_KEY_LEN = s.MQTT_KEY_LEN ∧
  t.MQTT_VALUE_LEN = s.MQTT_VALUE_LEN

/-- The ceiling that belongs to a log of executed `CAT_*` macros: 1 when
`CAT_TEMP` or `CAT_MEASUREMENT` is among them, otherwise the default 9. -/
def ceilingOf (catLog : List Char) : Nat :=
  if 'T' ∈ catLog ∨ 'M' ∈ catLog then 1 else 9

/-- The value of a byte sequence listed from the lowest payload position
upwards when the first byte is the most significant. -/
def mostSignificantFirst (bytes : List Nat) : Nat :=
  bytes.foldl (fun acc b => 256 * acc + b) 0

/-- The ceiling in the globals of `c` is the one that belongs to the `CAT_*`
macros executed so far. -/
def Ctx.ceilingInForce (c : Ctx) : Prop := c.st.maxOutputFilter = ceilingOf c.catLog

/-- The ceiling in the globals that a call leaves is the one that belongs to
the `CAT_*` macros it executed. -/
def Outcome.ceilingInForce (o : Outcome) : Prop := o.st.maxOutputFilter = ceilingOf o.catLog

/-- What one invocation of a decoder gets from its caller: the two buffers,
`haConfig`, and the packet. -/
structure Invocation where
  key : Key
  value : List Char
  haConfig : Nat
  packetSrc : Nat
  packetType : Nat
  payloadIndex : Nat
  payload : Nat → Nat

/-- The context of an invocation that finds the globals `s`. -/
def Invocation.ctx (v : Invocation) (s : State) : Ctx :=
  { st := s, key := v.key, value := v.value, haConfig := v.haConfig, catLog := [] }

/-- A sequence of invocations of `value_s8_ratelimited`, each starting from the
globals the previous one left: for every invocation the globals it found and
what it handed back. -/
def rateLimitedRun : List Invocation → State → Option (List (State × Outcome))
  | [], _ => some []
  | v :: rest, s =>
    match value_s8_ratelimited (v.ctx s) v.packetSrc v.packetType v.payloadIndex v.payload with
    | none => none
    | some o =>
      match rateLimitedRun rest o.st with
      | none => none
      | some tr => some ((s, o) :: tr)

/-- A context with `haConfig` set whose globals are those at process start except
that slot 147 is seen with value 0x14 and the ceiling is 9. -/
def seenCtx : Ctx :=
  { st := { startState with payloadByteSeen := arrSet startState.payloadByteSeen 147 0xFF,
                            payloadByteVal := arrSet startState.payloadByteVal 147 0x14,
                            maxOutputFilter := 9 },
    key := plainPrefix, value := [], haConfig := 1, catLog := [] }

/-- Every bit that is set in a seen mask of `s` is set in the same mask of `t`. -/
def seenGrows (s t : State) : Prop :=
  ∀ k n, (s.payloadByteSeen k).testBit n = true → (t.payloadByteSeen k).testBit n = true

/-- One call of the observation cache with its arguments: `newPayloadBytesVal`
or `newPayloadBitVal`. -/
inductive CacheCall where
  | bytes (packetSrc packetType payloadIndex : Nat) (payload : Nat → Nat)
      (haConfig length : Nat) (saveSeen : Bool) : CacheCall
  | bit (packetSrc packetType payloadIndex : Nat) (payload : Nat → Nat)
      (haConfig bitNr : Nat) : CacheCall

/-- The call made on the globals `s`. -/
def CacheCall.run (s : State) : CacheCall → Option Observed
  | CacheCall.bytes src type idx payload ha len sv =>
    newPayloadBytesVal s src type idx payload ha len sv
  | CacheCall.bit src type idx payload ha n => newPayloadBitVal s src type idx payload ha n

/-- The globals after a sequence of calls, each call starting from the globals
the previous one left. -/
def afterCalls : List CacheCall → State → Option State
  | [], s => some s
  | c :: rest, s =>
    match c.run s with
    | none => none
    | some o => afterCalls rest o.st

/-- The address of a field as the cache is called for it: the path, source,
type and index, and the width in bytes or the bit number. -/
structure FieldAddress where
  bitPath : Bool
  packetSrc : Nat
  packetType : Nat
  payloadIndex : Nat
  widthOrBit : Nat
  deriving DecidableEq, Repr

/-- The field address a call is made for. -/
def CacheCall.address : CacheCall → FieldAddress
  | CacheCall.bytes src type idx _ _ len _ => ⟨false, src, type, idx, len⟩
  | CacheCall.bit src type idx _ _ n => ⟨true, src, type, idx, n⟩

/-- The output events of a sequence of calls: the addresses for which
`client_publish_mqtt` was called with the discovery descriptor, in the order of
the calls. -/
def discoveries : List CacheCall → State → Option (List FieldAddress)
  | [], _ => some []
  | c :: rest, s =>
    match c.run s with
    | none => none
    | some o =>
      match discoveries rest o.st with
      | none => none
      | some ds => some (if o.published then c.address :: ds else ds)

/-- No later call for the address `a` publishes: on the byte path every slot of
the range is seen, on the bit path the bit of the seen mask is set. -/
def settled (s : State) (a : FieldAddress) : Prop :=
  if a.bitPath then
    ∀ bs, bytestart (bitPts a.packetSrc) (bitPti a.packetType) = some bs →
      (s.payloadByteSeen (bitSlot bs a.payloadIndex)).testBit a.widthOrBit = true
  else
    ∀ bs, bytestart (bytesPts a.packetSrc) (bytesPti a.packetType) = some bs →
      ∀ j, a.payloadIndex + 1 - a.widthOrBit ≤ j → j ≤ a.payloadIndex →
        s.payloadByteSeen (bs + j) ≠ 0

/-- The positions (source, type, index) of the dispatch table that hold
`return 0; // do not report checksum`. -/
def checksumPositions : List (Nat × Nat × Nat) :=
  [(0x89, 0x2D, 0x29), (0x89, 0x27, 0x23), (0x21, 0x12, 0x0E), (0x41, 0x18, 0x14)]

/-- The positions (source, type, index) of the dispatch table whose entry is a
`switch (bitNr)` with `case 8 : BITBASIS`. -/
def bitBasisPositions : List (Nat × Nat × Nat) :=
  [(0x89, 0x2D, 0x21), (0x89, 0x2D, 0x22), (0x89, 0x27, 0x07), (0x89, 0x27, 0x08),
   (0x89, 0x27, 0x1C), (0x21, 0x12, 0x07), (0x21, 0x12, 0x08), (0x41, 0x18, 0x07),
   (0x41, 0x18, 0x08)]

/-- The call `e` returns, with a status out of `l`. -/
def statusIn (e : Option Outcome) (l : List Nat) : Prop :=
  ∃ o, e = some o ∧ o.status ∈ l

/-- The bits of a bit-basis position that the dispatch table names with
`KEY(...); VALUE_flag8`: bits 1 to 3 at index 0x08 of (0x21, 0x12) and of (0x41, 0x18),
bits 0 to 7 at the other positions. -/
def namedBit (packetSrc packetType payloadIndex bitNr : Nat) : Bool :=
  if (packetSrc, packetType, payloadIndex) = (0x21, 0x12, 0x08) ∨
      (packetSrc, packetType, payloadIndex) = (0x41, 0x18, 0x08) then
    decide (1 ≤ bitNr ∧ bitNr ≤ 3)
  else
    decide ((packetSrc, packetType, payloadIndex) ∈ bitBasisPositions ∧ bitNr ≤ 7)

/-- One call of `bytesbits2keyvalue` as the caller makes it: the content of the
two buffers, the arguments, and the value of the global `outputFilter` that the
caller has set by then. -/
structure Request where
  key : Key
  value : List Char
  args : Args
  outputFilter : Nat

/-- A sequence of calls of `bytesbits2keyvalue`, each starting from the globals
the previous one left, with `outputFilter` as the caller has set it: for every
call what it handed back. -/
def dispatchRun (pseudo : PseudoSwitch) : List Request → State → Option (List (Request × Outcome))
  | [], _ => some []
  | q :: rest, s =>
    match bytesbits2keyvalue pseudo { s with outputFilter := q.outputFilter } q.key q.value
        q.args with
    | none => none
    | some o =>
      match dispatchRun pseudo rest o.st with
      | none => none
      | some tr => some ((q, o) :: tr)

/-- No slot of a bit-basis position of the dispatch table is seen. -/
def bitBasisUnseen (s : State) : Prop :=
  ∀ p ∈ bitBasisPositions, ∀ bs, bytestart (bytesPts p.1) (bytesPti p.2.1) = some bs →
    s.payloadByteSeen (bs + p.2.2) = 0

/-- The context `c` of a leaf of the dispatch, for a call that was made on the
globals `s` with `value` in the value buffer: both cache arrays, the settings
that the caller owns, the buffer sizes and the value buffer are still those of
the call, and `haConfig` is set. -/
def Ctx.entered (c : Ctx) (s : State) (value : List Char) : Prop :=
  c.st.payloadByteSeen = s.payloadByteSeen ∧ c.st.payloadByteVal = s.payloadByteVal ∧
  c.st.outputFilter = s.outputFilter ∧ c.st.outputMode = s.outputMode ∧
  c.st.outputUnknown = s.outputUnknown ∧ c.st.MQTT_KEY_LEN = s.MQTT_KEY_LEN ∧
  c.st.MQTT_VALUE_LEN = s.MQTT_VALUE_LEN ∧ c.value = value ∧ c.haConfig = 1

/-- The pairs (source, type) for which the dispatch table has a layout. -/
def dispatchPairs : List (Nat × Nat) := [(0x89, 0x2D), (0x89, 0x27), (0x21, 0x12), (0x41, 0x18)]

/-- The call `e` is the leaf of the dispatch that belongs to the arguments `a`,
made in the context `c2`: at a position that is not on bit basis a `return 0` or,
for a pair with a layout, a byte decoder; at a position on bit basis
`BITBASIS` for `bitNr = 8`, `VALUE_flag8` for a named bit and `UNKNOWN_BIT` for
any other `bitNr`. -/
def leafAt (a : Args) (c2 : Ctx) (e : Option Outcome) : Prop :=
  ((a.packetSrc, a.packetType, a.payloadIndex) ∉ bitBasisPositions ∧ e = RETURN0 c2) ∨
  ((a.packetSrc, a.packetType) ∈ dispatchPairs ∧
    (((a.packetSrc, a.packetType, a.payloadIndex) ∉ bitBasisPositions ∧
        (e = VALUE_u8 a c2 ∨ e = VALUE_s8 a c2 ∨ e = UNKNOWN_BYTE a c2)) ∨
     ((a.packetSrc, a.packetType, a.payloadIndex) ∈ bitBasisPositions ∧
        ((a.bitNr = 8 ∧ e = BITBASIS a c2) ∨
         (namedBit a.packetSrc a.packetType a.payloadIndex a.bitNr = true ∧
            e = VALUE_flag8 a c2) ∨
         (namedBit a.packetSrc a.packetType a.payloadIndex a.bitNr = false ∧ a.bitNr ≠ 8 ∧
            e = UNKNOWN_BIT a c2)))))

/-- The pairs (source, type) whose case begins with `CAT_MEASUREMENT`. -/
def measurementPairs : List (Nat × Nat) := [(0x89, 0x2D), (0x89, 0x27)]

/-- The ceiling and the category letter that a call leaves, compared with
those of the context `c` in which its case was entered: either `CAT_TEMP` or
`CAT_MEASUREMENT` was the last category macro (ceiling 1, letter `T` or `M`), or
the ceiling is still that of `c` and the letter is that of `c` or the `U` of
`CAT_UNKNOWN`. -/
def tagKept (c : Ctx) (o : Outcome) : Prop :=
  (o.st.maxOutputFilter = 1 ∧ (o.key.cat = 'T' ∨ o.key.cat = 'M')) ∨
  (o.st.maxOutputFilter = c.st.maxOutputFilter ∧ (o.key.cat = c.key.cat ∨ o.key.cat = 'U'))

/-- The globals at process start with `outputUnknown` set. -/
def unknownState : State := { startState with outputUnknown := true }

/-- The globals of `unknownState` with `outputFilter = 2`, after the byte 0x54 was
seen at source 0x89, type 0x2D, index 6 (slot 146). -/
def unknownSeenState : State :=
  { unknownState with payloadByteSeen := arrSet unknownState.payloadByteSeen 146 0xFF,
                      payloadByteVal := arrSet unknownState.payloadByteVal 146 0x54,
                      outputFilter := 2 }

/-! ## Lemmas on the cache arrays -/

@[simp] theorem arrSet_same (a : Nat → Nat) (i v : Nat) : arrSet a i v i = v := by
  simp [arrSet]

theorem arrSet_other (a : Nat → Nat) (i v j : Nat) (h : j ≠ i) : arrSet a i v j = a j := by
  simp [arrSet, h]

theorem State.ext_cache (s t : State)
    (hv : ∀ k, s.payloadByteVal k = t.payloadByteVal k)
    (hs : ∀ k, s.payloadByteSeen k = t.payloadByteSeen k)
    (h1 : s.maxOutputFilter = t.maxOutputFilter) (h2 : s.outputFilter = t.outputFilter)
    (h3 : s.outputMode = t.outputMode) (h4 : s.outputUnknown = t.outputUnknown)
    (h5 : s.RSSIcnt = t.RSSIcnt) (h6 : s.uom = t.uom) (h7 : s.stateclass = t.stateclass)
    (h8 : s.MQTT_KEY_LEN = t.MQTT_KEY_LEN) (h9 : s.MQTT_VALUE_LEN = t.MQTT_VALUE_LEN) :
    s = t := by
  cases s; cases t
  simp only [State.mk.injEq]
  simp only at hv hs h1 h2 h3 h4 h5 h6 h7 h8 h9
  exact ⟨funext hv, funext hs, h1, h2, h3, h4, h5, h6, h7, h8, h9⟩

theorem saveRange_empty (s : State) (bs lo hi : Nat) (payload : Nat → Nat) (h : hi < lo) :
    saveRange s bs lo hi payload = s := by
  apply State.ext_cache <;> intros <;> simp [saveRange] <;> intros <;> omega

/-! ## Lemmas on the slot loop -/

theorem bytesLoop_exit (bs pI : Nat) (payload : Nat → Nat) (ha : Nat) (sv : Bool)
    (fuel i : Nat) (nb pub : Bool) (s : State) (h : pI < i) :
    bytesLoop bs pI payload ha sv (fuel + 1) i nb pub s = some (LoopExit.done nb pub, s) := by
  simp [bytesLoop, Nat.not_le.mpr h]

/-- Saving slot `bs + i` and then the rest of the range is saving the range. -/
theorem saveRange_step (s s1 : State) (bs i pI : Nat) (payload : Nat → Nat) (hi : i ≤ pI)
    (hv : s1.payloadByteVal (bs + i) = payload i)
    (hs : s1.payloadByteSeen (bs + i)
      = if s.payloadByteSeen (bs + i) = 0 then 0xFF else s.payloadByteSeen (bs + i))
    (hvo : ∀ k, k ≠ bs + i → s1.payloadByteVal k = s.payloadByteVal k)
    (hso : ∀ k, k ≠ bs + i → s1.payloadByteSeen k = s.payloadByteSeen k)
    (h1 : s1.maxOutputFilter = s.maxOutputFilter) (h2 : s1.outputFilter = s.outputFilter)
    (h3 : s1.outputMode = s.outputMode) (h4 : s1.outputUnknown = s.outputUnknown)
    (h5 : s1.RSSIcnt = s.RSSIcnt) (h6 : s1.uom = s.uom) (h7 : s1.stateclass = s.stateclass)
    (h8 : s1.MQTT_KEY_LEN = s.MQTT_KEY_LEN) (h9 : s1.MQTT_VALUE_LEN = s.MQTT_VALUE_LEN) :
    saveRange s1 bs (i + 1) pI payload = saveRange s bs i pI payload := by
  apply State.ext_cache
  · intro k
    show (if bs + (i + 1) ≤ k ∧ k ≤ bs + pI then payload (k - bs) else s1.payloadByteVal k)
      = (if bs + i ≤ k ∧ k ≤ bs + pI then payload (k - bs) else s.payloadByteVal k)
    by_cases hk : k = bs + i
    · subst hk
      rw [if_neg (by omega), if_pos (by omega), hv, Nat.add_sub_cancel_left]
    · by_cases hr : bs + i ≤ k ∧ k ≤ bs + pI
      · rw [if_pos hr, if_pos (by omega)]
      · rw [if_neg hr, if_neg (by omega), hvo k hk]
  · intro k
    show (if bs + (i + 1) ≤ k ∧ k ≤ bs + pI ∧ s1.payloadByteSeen k = 0 then 0xFF
        else s1.payloadByteSeen k)
      = (if bs + i ≤ k ∧ k ≤ bs + pI ∧ s.payloadByteSeen k = 0 then 0xFF
        else s.payloadByteSeen k)
    by_cases hk : k = bs + i
    · subst hk
      rw [if_neg (by omega), hs]
      by_cases h0 : s.payloadByteSeen (bs + i) = 0
      · rw [if_pos h0, if_pos ⟨Nat.le_refl _, by omega, h0⟩]
      · rw [if_neg h0, if_neg (fun h => h0 h.2.2)]
    · rw [hso k hk]
      by_cases hr : bs + i ≤ k ∧ k ≤ bs + pI ∧ s.payloadByteSeen k = 0
      · rw [if_pos hr, if_pos ⟨by omega, hr.2.1, hr.2.2⟩]
      · rw [if_neg hr, if_neg (fun h => hr ⟨by omega, h.2.1, h.2.2⟩)]
  all_goals first | exact h1 | exact h2 | exact h3 | exact h4 | exact h5 | exact h6 | exact h7 | exact h8 | exact h9

/-- With `saveSeen` set and every slot of the range inside the arrays, the loop
runs to its end and leaves the range saved. -/
theorem bytesLoop_save (bs pI : Nat) (payload : Nat → Nat) (ha : Nat)
    (hpI : pI < 255) (hin : bs + pI < sizeValSeen) :
    ∀ (n fuel i : Nat) (nb pub : Bool) (s : State), i + n = pI + 1 → n < fuel →
      ∃ nb1 pub1, bytesLoop bs pI payload ha true fuel i nb pub s
        = some (LoopExit.done nb1 pub1, saveRange s bs i pI payload) := by
  intro n
  induction n with
  | zero =>
    intro fuel i nb pub s hi hf
    obtain ⟨f, rfl⟩ : ∃ f, fuel = f + 1 := ⟨fuel - 1, by omega⟩
    refine ⟨nb, pub, ?_⟩
    rw [bytesLoop_exit _ _ _ _ _ _ _ _ _ _ (by omega), saveRange_empty _ _ _ _ _ (by omega)]
  | succ n ih =>
    intro fuel i nb pub s hi hf
    obtain ⟨f, rfl⟩ : ∃ f, fuel = f + 1 := ⟨fuel - 1, by omega⟩
    have hile : i ≤ pI := by omega
    have hmod : (bs + i) % 65536 = bs + i := by
      apply Nat.mod_eq_of_lt; simp only [sizeValSeen] at hin; omega
    have hlt : ¬ (bs + i ≥ sizeValSeen) := by simp only [sizeValSeen] at hin ⊢; omega
    have hnext : (i + 1) % 256 = i + 1 := by apply Nat.mod_eq_of_lt; omega
    rw [bytesLoop]
    simp only [hile, if_true, hmod, hlt, if_false, hnext]
    by_cases hseen : s.payloadByteSeen (bs + i) ≠ 0
    · rw [if_pos hseen]
      by_cases hval : s.payloadByteVal (bs + i) ≠ payload i
      · rw [if_pos hval]
        obtain ⟨nb1, pub1, h⟩ := ih f (i + 1) (decide (s.outputFilter ≤ s.maxOutputFilter)) pub
          { s with payloadByteVal := arrSet s.payloadByteVal (bs + i) (payload i) }
          (by omega) (by omega)
        refine ⟨nb1, pub1, ?_⟩
        rw [h, saveRange_step s
          { s with payloadByteVal := arrSet s.payloadByteVal (bs + i) (payload i) }
          bs i pI payload hile (by simp) (by simp [hseen])
          (fun k hk => by simp [arrSet, hk]) (fun k _ => rfl) rfl rfl rfl rfl rfl rfl rfl rfl rfl]
      · rw [if_neg hval]
        have hval1 : s.payloadByteVal (bs + i) = payload i := by simpa using hval
        obtain ⟨nb1, pub1, h⟩ := ih f (i + 1) nb pub s (by omega) (by omega)
        refine ⟨nb1, pub1, ?_⟩
        rw [h, saveRange_step s s bs i pI payload hile hval1 (by simp [hseen])
          (fun k _ => rfl) (fun k _ => rfl) rfl rfl rfl rfl rfl rfl rfl rfl rfl]
    · rw [if_neg hseen]
      have hseen1 : s.payloadByteSeen (bs + i) = 0 := by simpa using hseen
      obtain ⟨nb1, pub1, h⟩ := ih f (i + 1) true (decide (ha ≠ 0))
        { s with payloadByteSeen := arrSet s.payloadByteSeen (bs + i) 0xFF,
                 payloadByteVal := arrSet s.payloadByteVal (bs + i) (payload i) }
        (by omega) (by omega)
      refine ⟨nb1, pub1, ?_⟩
      rw [h, saveRange_step s
        { s with payloadByteSeen := arrSet s.payloadByteSeen (bs + i) 0xFF,
                 payloadByteVal := arrSet s.payloadByteVal (bs + i) (payload i) }
        bs i pI payload hile (by simp) (by simp [hseen1])
        (fun k hk => by simp [arrSet, hk]) (fun k hk => by simp [arrSet, hk])
        rfl rfl rfl rfl rfl rfl rfl rfl rfl]

/-- On a range whose slots are all seen and hold the incoming bytes the loop
changes nothing, neither the cache nor `newByte` nor `pubHA`. -/
theorem bytesLoop_stable (bs pI : Nat) (payload : Nat → Nat) (ha : Nat) (sv : Bool)
    (hpI : pI < 255) (hin : bs + pI < sizeValSeen) (nb pub : Bool) (s : State) :
    ∀ (n fuel i : Nat), i + n = pI + 1 → n < fuel →
      (∀ j, i ≤ j → j ≤ pI → s.payloadByteSeen (bs + j) ≠ 0 ∧ s.payloadByteVal (bs + j) = payload j) →
      bytesLoop bs pI payload ha sv fuel i nb pub s = some (LoopExit.done nb pub, s) := by
  intro n
  induction n with
  | zero =>
    intro fuel i hi hf _
    obtain ⟨f, rfl⟩ : ∃ f, fuel = f + 1 := ⟨fuel - 1, by omega⟩
    exact bytesLoop_exit _ _ _ _ _ _ _ _ _ _ (by omega)
  | succ n ih =>
    intro fuel i hi hf hall
    obtain ⟨f, rfl⟩ : ∃ f, fuel = f + 1 := ⟨fuel - 1, by omega⟩
    have hile : i ≤ pI := by omega
    have hmod : (bs + i) % 65536 = bs + i := by
      apply Nat.mod_eq_of_lt; simp only [sizeValSeen] at hin; omega
    have hlt : ¬ (bs + i ≥ sizeValSeen) := by simp only [sizeValSeen] at hin ⊢; omega
    have hnext : (i + 1) % 256 = i + 1 := by apply Nat.mod_eq_of_lt; omega
    obtain ⟨hseen, hval⟩ := hall i (Nat.le_refl _) hile
    rw [bytesLoop]
    simp only [hile, if_true, hmod, hlt, if_false, hnext]
    rw [if_pos hseen, if_neg (by simpa using hval)]
    exact ih f (i + 1) (by omega) (by omega) (fun j h1 h2 => hall j (by omega) h2)

/-- The loop over a single slot, written out. -/
theorem bytesLoop_single (bs pI : Nat) (payload : Nat → Nat) (ha : Nat) (sv : Bool)
    (hpI : pI < 255) (hin : bs + pI < sizeValSeen) (fuel : Nat) (hf : 2 ≤ fuel)
    (nb pub : Bool) (s : State) :
    bytesLoop bs pI payload ha sv fuel pI nb pub s =
      if s.payloadByteSeen (bs + pI) ≠ 0 then
        if s.payloadByteVal (bs + pI) ≠ payload pI then
          some (LoopExit.done (decide (s.outputFilter ≤ s.maxOutputFilter)) pub,
            if sv then { s with payloadByteVal := arrSet s.payloadByteVal (bs + pI) (payload pI) }
            else s)
        else some (LoopExit.done nb pub, s)
      else if sv then
        some (LoopExit.done true (decide (ha ≠ 0)),
          { s with payloadByteSeen := arrSet s.payloadByteSeen (bs + pI) 0xFF,
                   payloadByteVal := arrSet s.payloadByteVal (bs + pI) (payload pI) })
      else some (LoopExit.done true pub, s) := by
  obtain ⟨f, rfl⟩ : ∃ f, fuel = f + 2 := ⟨fuel - 2, by omega⟩
  have hmod : (bs + pI) % 65536 = bs + pI := by
    apply Nat.mod_eq_of_lt; simp only [sizeValSeen] at hin; omega
  have hlt : ¬ (bs + pI ≥ sizeValSeen) := by simp only [sizeValSeen] at hin ⊢; omega
  have hnext : (pI + 1) % 256 = pI + 1 := by apply Nat.mod_eq_of_lt; omega
  rw [bytesLoop]
  simp only [Nat.le_refl, if_true, hmod, hlt, if_false, hnext,
    bytesLoop_exit _ _ _ _ _ _ _ _ _ _ (Nat.lt_succ_self pI)]

/-! ## Lemmas on the tables -/

theorem tableRead_some (rows : List (List Nat)) (pts pti v : Nat)
    (h : tableRead rows pts pti = some v) :
    ∃ row, rows[pts]? = some row ∧ row[pti]? = some v := by
  unfold tableRead at h
  cases hr : rows[pts]? with
  | none => rw [hr] at h; cases h
  | some row => rw [hr] at h; exact ⟨row, rfl, h⟩

/-- No layout is longer than 42 bytes. -/
theorem nr_bytes_le (pts pti nb : Nat) (h : nr_bytes pts pti = some nb) : nb ≤ 42 := by
  have hpts : pts < 2 := by
    by_contra hc
    obtain ⟨p, rfl⟩ : ∃ p, pts = p + 2 := ⟨pts - 2, by omega⟩
    simp [nr_bytes, tableRead, nr_bytes_rows] at h
  have hpti : pti < 13 := by
    by_contra hc
    obtain ⟨p, rfl⟩ : ∃ p, pti = p + 13 := ⟨pti - 13, by omega⟩
    interval_cases pts <;> simp [nr_bytes, tableRead, nr_bytes_rows] at h
  interval_cases pts <;> interval_cases pti <;>
    simp [nr_bytes, tableRead, nr_bytes_rows] at h <;> omega

/-- The byte path reads both tables inside their bounds. -/
theorem bytes_tables_defined (packetSrc packetType : Nat) (h : bytesPti packetType ≠ 0xFF) :
    ∃ nb bs, nr_bytes (bytesPts packetSrc) (bytesPti packetType) = some nb ∧
      bytestart (bytesPts packetSrc) (bytesPti packetType) = some bs := by
  have hpts : bytesPts packetSrc = 0 ∨ bytesPts packetSrc = 1 := by
    unfold bytesPts; split_ifs <;> simp
  have hpti : 4 ≤ bytesPti packetType ∧ bytesPti packetType ≤ 12 := by
    unfold bytesPti at h ⊢; simp only [PCKTP_START]; split_ifs at h ⊢ <;> omega
  obtain ⟨h4, h12⟩ := hpti
  rcases hpts with hp | hp <;> rw [hp] <;>
    interval_cases (bytesPti packetType) <;>
    simp [nr_bytes, bytestart, tableRead, nr_bytes_rows, bytestart_rows]

/-! ## Lemmas on single bits -/


theorem bitMaskOf_eq (n : Nat) (h : n ≤ 7) : bitMaskOf n = 2 ^ n := by
  unfold bitMaskOf
  rw [Nat.one_shiftLeft]
  apply Nat.mod_eq_of_lt
  calc 2 ^ n ≤ 2 ^ 7 := Nat.pow_le_pow_right (by decide) h
    _ < 256 := by decide

theorem and_two_pow_ne_zero (x n : Nat) : (x &&& 2 ^ n ≠ 0) ↔ x.testBit n = true := by
  rw [Nat.and_comm, Nat.two_pow_and]
  cases h : x.testBit n <;> simp

theorem testBit_255 (m : Nat) : (255 : Nat).testBit m = decide (m < 8) := by
  have : (255 : Nat) = 2 ^ 8 - 1 := by decide
  rw [this, Nat.testBit_two_pow_sub_one]

/-- Bit `m` of the byte stored by the bit path. -/
theorem testBit_stored (v b n m : Nat) (hn : n < 8) :
    ((v &&& (0xFF ^^^ 2 ^ n)) ||| (b &&& 2 ^ n)).testBit m
      = if m = n then b.testBit n else (v.testBit m && decide (m < 8)) := by
  simp only [Nat.testBit_or, Nat.testBit_and, Nat.testBit_xor, Nat.testBit_two_pow, testBit_255]
  by_cases h : m = n
  · subst h; simp [hn]
  · have h2 : ¬ n = m := fun e => h e.symm
    simp [h, h2]

theorem testBit_or_two_pow (x n m : Nat) :
    (x ||| 2 ^ n).testBit m = if m = n then true else x.testBit m := by
  simp only [Nat.testBit_or, Nat.testBit_two_pow]
  by_cases h : m = n
  · subst h; simp
  · have h2 : ¬ n = m := fun e => h e.symm
    simp [h, h2]

theorem xor_and_two_pow_ne_zero (x y n : Nat) :
    ((x ^^^ y) &&& 2 ^ n ≠ 0) ↔ x.testBit n ≠ y.testBit n := by
  rw [and_two_pow_ne_zero, Nat.testBit_xor]
  cases x.testBit n <;> cases y.testBit n <;> simp

/-! ## Lemmas on the two observations -/

/-- An in-range call with `saveSeen` set returns and leaves the range saved. -/
theorem newPayloadBytesVal_save (s : State) (packetSrc packetType payloadIndex : Nat)
    (payload : Nat → Nat) (haConfig length nb bs : Nat)
    (hpti : bytesPti packetType ≠ 0xFF)
    (hnb : nr_bytes (bytesPts packetSrc) (bytesPti packetType) = some nb)
    (hbs : bytestart (bytesPts packetSrc) (bytesPti packetType) = some bs)
    (hidx : payloadIndex ≤ nb) (hlen : length ≤ payloadIndex + 1)
    (hin : bs + payloadIndex < sizeValSeen) :
    ∃ o, newPayloadBytesVal s packetSrc packetType payloadIndex payload haConfig length true
        = some o ∧
      o.st = saveRange s bs (payloadIndex + 1 - length) payloadIndex payload := by
  have h42 := nr_bytes_le _ _ _ hnb
  have hmod : (payloadIndex + 1 - length) % 256 = payloadIndex + 1 - length := by
    apply Nat.mod_eq_of_lt; omega
  obtain ⟨nb1, pub1, hloop⟩ := bytesLoop_save bs payloadIndex payload haConfig (by omega) hin
    length 256 (payloadIndex + 1 - length) (decide (s.outputFilter = 0)) false s
    (by omega) (by omega)
  have hcall : newPayloadBytesVal s packetSrc packetType payloadIndex payload haConfig length true
      = some ⟨reportable (saveRange s bs (payloadIndex + 1 - length) payloadIndex payload)
          haConfig nb1, saveRange s bs (payloadIndex + 1 - length) payloadIndex payload, pub1⟩ := by
    unfold newPayloadBytesVal
    simp only [hpti, if_false, hnb, hbs, hmod, hloop]
    rw [if_neg (by omega), if_neg (by omega)]
  exact ⟨_, hcall, rfl⟩

/-- An in-range call on a range whose slots are all seen and hold the incoming
bytes reports a change only for `outputFilter = 0` and leaves the globals as
they are. -/
theorem newPayloadBytesVal_stable (s : State) (packetSrc packetType payloadIndex : Nat)
    (payload : Nat → Nat) (haConfig length nb bs : Nat) (saveSeen : Bool)
    (hpti : bytesPti packetType ≠ 0xFF)
    (hnb : nr_bytes (bytesPts packetSrc) (bytesPti packetType) = some nb)
    (hbs : bytestart (bytesPts packetSrc) (bytesPti packetType) = some bs)
    (hidx : payloadIndex ≤ nb) (hlen : length ≤ payloadIndex + 1)
    (hin : bs + payloadIndex < sizeValSeen)
    (hall : ∀ j, payloadIndex + 1 - length ≤ j → j ≤ payloadIndex →
      s.payloadByteSeen (bs + j) ≠ 0 ∧ s.payloadByteVal (bs + j) = payload j) :
    newPayloadBytesVal s packetSrc packetType payloadIndex payload haConfig length saveSeen
      = some ⟨reportable s haConfig (decide (s.outputFilter = 0)), s, false⟩ := by
  have h42 := nr_bytes_le _ _ _ hnb
  have hmod : (payloadIndex + 1 - length) % 256 = payloadIndex + 1 - length := by
    apply Nat.mod_eq_of_lt; omega
  have hloop := bytesLoop_stable bs payloadIndex payload haConfig saveSeen (by omega) hin
    (decide (s.outputFilter = 0)) false s length 256 (payloadIndex + 1 - length)
    (by omega) (by omega) hall
  unfold newPayloadBytesVal
  simp only [hpti, if_false, hnb, hbs, hmod, hloop]
  rw [if_neg (by omega), if_neg (by omega)]

/-- The slots of a saved range are seen and hold the incoming bytes. -/
theorem saveRange_saved (s : State) (bs lo hi : Nat) (payload : Nat → Nat) (j : Nat)
    (h1 : lo ≤ j) (h2 : j ≤ hi) :
    (saveRange s bs lo hi payload).payloadByteSeen (bs + j) ≠ 0 ∧
    (saveRange s bs lo hi payload).payloadByteVal (bs + j) = payload j := by
  constructor
  · show (if bs + lo ≤ bs + j ∧ bs + j ≤ bs + hi ∧ s.payloadByteSeen (bs + j) = 0 then 0xFF
      else s.payloadByteSeen (bs + j)) ≠ 0
    by_cases h0 : s.payloadByteSeen (bs + j) = 0
    · rw [if_pos ⟨by omega, by omega, h0⟩]; decide
    · rw [if_neg (fun h => h0 h.2.2)]; exact h0
  · show (if bs + lo ≤ bs + j ∧ bs + j ≤ bs + hi then payload (bs + j - bs)
      else s.payloadByteVal (bs + j)) = payload j
    rw [if_pos ⟨by omega, by omega⟩, Nat.add_sub_cancel_left]

/-- When the observation `f` leaves the globals `t` as they are, so does every
repetition of it, with the same result. -/
theorem repeated_fixed (f : State → Option Observed) (t : State) (r : Bool) (p : Bool)
    (h : f t = some ⟨r, t, p⟩) : ∀ k, repeated f k t = some ⟨r, t, p⟩ := by
  intro k
  induction k with
  | zero => exact h
  | succ k ih => simp only [repeated, h]; exact ih

/-- The observation of a bit that is seen and stored with the incoming value. -/
theorem bitObserve_stable (s : State) (pi2 b haConfig bitNr : Nat) (hn : bitNr ≤ 7)
    (hseen : (s.payloadByteSeen pi2).testBit bitNr = true)
    (hval : (s.payloadByteVal pi2).testBit bitNr = b.testBit bitNr) :
    bitObserve s pi2 b haConfig bitNr =
      ⟨reportable s haConfig
        (if s.outputFilter > s.maxOutputFilter then false else decide (s.outputFilter = 0)),
       s, false⟩ := by
  unfold bitObserve
  simp only [bitMaskOf_eq bitNr hn]
  rw [if_pos ((and_two_pow_ne_zero _ _).mpr hseen),
    if_neg (fun h => (xor_and_two_pow_ne_zero _ _ _).mp h hval)]

/-- What the observation of a bit leaves behind: the bit is seen and stored with
the incoming value, and the filter settings are untouched. -/
theorem bitObserve_post (s : State) (pi2 b haConfig bitNr : Nat) (hn : bitNr ≤ 7) :
    ((bitObserve s pi2 b haConfig bitNr).st.payloadByteSeen pi2).testBit bitNr = true ∧
    ((bitObserve s pi2 b haConfig bitNr).st.payloadByteVal pi2).testBit bitNr = b.testBit bitNr ∧
    (bitObserve s pi2 b haConfig bitNr).st.outputFilter = s.outputFilter ∧
    (bitObserve s pi2 b haConfig bitNr).st.maxOutputFilter = s.maxOutputFilter ∧
    (bitObserve s pi2 b haConfig bitNr).st.outputMode = s.outputMode := by
  unfold bitObserve
  simp only [bitMaskOf_eq bitNr hn]
  by_cases hseen : s.payloadByteSeen pi2 &&& 2 ^ bitNr ≠ 0
  · rw [if_pos hseen]
    have hs := (and_two_pow_ne_zero _ _).mp hseen
    by_cases hval : (s.payloadByteVal pi2 ^^^ b) &&& 2 ^ bitNr ≠ 0
    · rw [if_pos hval]
      simp [hs, testBit_stored _ _ _ _ (Nat.lt_succ_of_le hn)]
    · rw [if_neg hval]
      have hv : (s.payloadByteVal pi2).testBit bitNr = b.testBit bitNr := by
        by_contra hc; exact hval ((xor_and_two_pow_ne_zero _ _ _).mpr hc)
      simp [hs, hv]
  · rw [if_neg hseen]
    simp [testBit_stored _ _ _ _ (Nat.lt_succ_of_le hn), testBit_or_two_pow]

/-! ## The first-seen rule -/

/-- C1 (evaluation at the failing input). From the empty cache, the byte at
index 1 of a packet of source 0x00 and type 0x0D is observed on its own; then
the two-byte range at indices 0..1 is observed with `saveSeen` and `haConfig`
set, while `outputFilter = 2` exceeds `maxOutputFilter = 1`. Slot 0 has never
been seen before the second call and both slots are inside the arrays, yet the
second call returns false: the changed byte at index 1 overwrites the
`newByte` that the unseen byte at index 0 had set. The unseen slot is saved
all the same. -/
theorem C1_first_seen_overwritten :
    bytesPti 0x0D = 5 ∧ nr_bytes (bytesPts 0x00) 5 = some 20 ∧
    bytestart (bytesPts 0x00) 5 = some 0 ∧
    (newPayloadBytesVal filteredState 0x00 0x0D 1 (payloadOf [0, 0]) 1 1 true).bind
      (fun o1 =>
        (newPayloadBytesVal o1.st 0x00 0x0D 1 (payloadOf [5, 7]) 1 2 true).map
          (fun o2 => (o1.st.payloadByteSeen 0, o1.st.payloadByteSeen 1,
            o2.ret, o2.st.payloadByteSeen 0, o2.st.payloadByteVal 0)))
      = some (0, 0xFF, false, 0xFF, 5) := by
  decide

/-- C2 (counterexample). The first observation of bit 0 at source 0x00, type
0x0D, index 0 in the empty cache, with `haConfig` set: the address resolves into
the cache and the seen bit is clear, yet the call returns false, because
`outputFilter = 2` exceeds `maxOutputFilter = 1`. -/
theorem C2_first_seen_bit_filtered :
    nr_bytes (bitPts 0x00) (bitPti 0x0D) = some 20 ∧
    bytestart (bitPts 0x00) (bitPti 0x0D) = some 0 ∧
    (filteredState.payloadByteSeen (bitSlot 0 0)).testBit 0 = false ∧
    (newPayloadBitVal filteredState 0x00 0x0D 0 (payloadOf [1]) 1 0).map
      (fun o => o.ret) = some false := by
  decide

/-- C2 (amended). For every address that `newPayloadBitVal` resolves into the
cache (`bitNr <= 7`, type in 0x08..0x0F or 0x31, index within the layout) whose
seen bit `bitNr` is clear, and with `haConfig` set, the call returns true exactly
when `outputFilter <= maxOutputFilter`, for every raw byte; in either case the
discovery descriptor is published, the bit is marked seen and the incoming bit
is stored. -/
theorem C2_first_seen_bit (s : State) (packetSrc packetType payloadIndex : Nat)
    (payload : Nat → Nat) (haConfig bitNr nb bs : Nat)
    (hbit : bitNr ≤ 7)
    (htype : (PCKTP_START ≤ packetType ∧ packetType ≤ PCKTP_END) ∨ packetType = 0x31)
    (hnb : nr_bytes (bitPts packetSrc) (bitPti packetType) = some nb)
    (hbs : bytestart (bitPts packetSrc) (bitPti packetType) = some bs)
    (hidx : payloadIndex ≤ nb) (hha : haConfig ≠ 0)
    (hunseen : (s.payloadByteSeen (bitSlot bs payloadIndex)).testBit bitNr = false) :
    ∃ o, newPayloadBitVal s packetSrc packetType payloadIndex payload haConfig bitNr = some o ∧
      (o.ret = true ↔ s.outputFilter ≤ s.maxOutputFilter) ∧
      o.published = true ∧
      (o.st.payloadByteSeen (bitSlot bs payloadIndex)).testBit bitNr = true ∧
      (o.st.payloadByteVal (bitSlot bs payloadIndex)).testBit bitNr
        = (payload payloadIndex).testBit bitNr := by
  have hcall : newPayloadBitVal s packetSrc packetType payloadIndex payload haConfig bitNr
      = some (bitObserve s (bitSlot bs payloadIndex) (payload payloadIndex) haConfig bitNr) := by
    unfold newPayloadBitVal
    simp only [hnb, hbs]
    rw [if_neg (by omega), if_neg (by simp only [PCKTP_START] at htype ⊢; omega),
      if_neg (by simp only [PCKTP_START, PCKTP_END] at htype ⊢; omega), if_neg (by omega)]
  obtain ⟨p1, p2, _, _, _⟩ := bitObserve_post s (bitSlot bs payloadIndex) (payload payloadIndex)
    haConfig bitNr hbit
  refine ⟨_, hcall, ?_, ?_, p1, p2⟩
  · have hz : ¬ (s.payloadByteSeen (bitSlot bs payloadIndex) &&& 2 ^ bitNr ≠ 0) := by
      rw [and_two_pow_ne_zero, hunseen]; simp
    unfold bitObserve
    simp only [bitMaskOf_eq bitNr hbit]
    rw [if_neg hz]
    by_cases hf : s.outputFilter > s.maxOutputFilter
    · simp [reportable, hf]
    · simp [reportable, hf, hha, Nat.le_of_not_gt hf]
  · have hz : ¬ (s.payloadByteSeen (bitSlot bs payloadIndex) &&& 2 ^ bitNr ≠ 0) := by
      rw [and_two_pow_ne_zero, hunseen]; simp
    unfold bitObserve
    simp only [bitMaskOf_eq bitNr hbit]
    rw [if_neg hz]
    simp [hha]

/-- C2 (witness): bit 3 at source 0x00, type 0x0D, index 2 in the empty cache. -/
theorem C2_first_seen_bit_witness :
    ∃ o, newPayloadBitVal startState 0x00 0x0D 2 (payloadOf [0, 0, 0x0C]) 1 3 = some o ∧
      (o.ret = true ↔ startState.outputFilter ≤ startState.maxOutputFilter) ∧
      o.published = true ∧
      (o.st.payloadByteSeen (bitSlot 0 2)).testBit 3 = true ∧
      (o.st.payloadByteVal (bitSlot 0 2)).testBit 3 = (payloadOf [0, 0, 0x0C] 2).testBit 3 :=
  C2_first_seen_bit startState 0x00 0x0D 2 (payloadOf [0, 0, 0x0C]) 1 3 20 0
    (by decide) (by decide) (by decide) (by decide) (by decide) (by decide) (by decide)

/-! ## Idempotence and gating -/

/-- C3. Idempotence of observation. Byte path: for every in-range address
(mapped type, index within the layout, `length <= payloadIndex + 1`, last slot
inside the arrays), after one call of `newPayloadBytesVal` with `saveSeen` set,
every repetition of the call returns false when `maxOutputFilter < outputFilter`,
returns true when `outputFilter = 0` and `haConfig` is set, and leaves the globals,
the cache among them, as the first call left them. Bit path: the same for
`newPayloadBitVal` at every address it resolves into the cache. -/
theorem C3_idempotence (s : State) (packetSrc packetType payloadIndex : Nat)
    (payload : Nat → Nat) (haConfig nb bs : Nat) :
    (∀ length, bytesPti packetType ≠ 0xFF →
      nr_bytes (bytesPts packetSrc) (bytesPti packetType) = some nb →
      bytestart (bytesPts packetSrc) (bytesPti packetType) = some bs →
      payloadIndex ≤ nb → length ≤ payloadIndex + 1 → bs + payloadIndex < sizeValSeen →
      ∃ o1, newPayloadBytesVal s packetSrc packetType payloadIndex payload haConfig length true
          = some o1 ∧
        ∀ k, ∃ o2, repeated (fun t => newPayloadBytesVal t packetSrc packetType payloadIndex
            payload haConfig length true) k o1.st = some o2 ∧
          o2.st = o1.st ∧
          (s.maxOutputFilter < s.outputFilter → o2.ret = false) ∧
          (s.outputFilter = 0 → haConfig ≠ 0 → o2.ret = true)) ∧
    (∀ bitNr, bitNr ≤ 7 →
      (PCKTP_START ≤ packetType ∧ packetType ≤ PCKTP_END) ∨ packetType = 0x31 →
      nr_bytes (bitPts packetSrc) (bitPti packetType) = some nb →
      bytestart (bitPts packetSrc) (bitPti packetType) = some bs →
      payloadIndex ≤ nb →
      ∃ o1, newPayloadBitVal s packetSrc packetType payloadIndex payload haConfig bitNr
          = some o1 ∧
        ∀ k, ∃ o2, repeated (fun t => newPayloadBitVal t packetSrc packetType payloadIndex
            payload haConfig bitNr) k o1.st = some o2 ∧
          o2.st = o1.st ∧
          (s.maxOutputFilter < s.outputFilter → o2.ret = false) ∧
          (s.outputFilter = 0 → haConfig ≠ 0 → o2.ret = true)) := by
  constructor
  · intro length hpti hnb hbs hidx hlen hin
    obtain ⟨o1, h1, hst⟩ := newPayloadBytesVal_save s packetSrc packetType payloadIndex payload
      haConfig length nb bs hpti hnb hbs hidx hlen hin
    refine ⟨o1, h1, fun k => ?_⟩
    have h2 := newPayloadBytesVal_stable o1.st packetSrc packetType payloadIndex payload haConfig
      length nb bs true hpti hnb hbs hidx hlen hin
      (fun j hj1 hj2 => by rw [hst]; exact saveRange_saved s bs _ _ payload j hj1 hj2)
    have hof : o1.st.outputFilter = s.outputFilter := by rw [hst]; rfl
    have hrep := repeated_fixed (fun t => newPayloadBytesVal t packetSrc packetType payloadIndex
      payload haConfig length true) o1.st _ _ h2 k
    refine ⟨_, hrep, rfl, ?_, ?_⟩
    · intro hlt
      have : ¬ s.outputFilter = 0 := by omega
      simp [reportable, hof, this]
    · intro h0 hha
      simp [reportable, hof, h0, hha]
  · intro bitNr hbit htype hnb hbs hidx
    have hcall : ∀ t : State, newPayloadBitVal t packetSrc packetType payloadIndex payload
        haConfig bitNr
        = some (bitObserve t (bitSlot bs payloadIndex) (payload payloadIndex) haConfig bitNr) := by
      intro t
      unfold newPayloadBitVal
      simp only [hnb, hbs]
      rw [if_neg (by omega), if_neg (by simp only [PCKTP_START] at htype ⊢; omega),
        if_neg (by simp only [PCKTP_START, PCKTP_END] at htype ⊢; omega), if_neg (by omega)]
    obtain ⟨p1, p2, p3, p4, _⟩ := bitObserve_post s (bitSlot bs payloadIndex)
      (payload payloadIndex) haConfig bitNr hbit
    refine ⟨_, hcall s, fun k => ?_⟩
    have h2 := hcall (bitObserve s (bitSlot bs payloadIndex) (payload payloadIndex) haConfig
      bitNr).st
    rw [bitObserve_stable _ _ _ _ _ hbit p1 p2] at h2
    have hrep := repeated_fixed (fun t => newPayloadBitVal t packetSrc packetType payloadIndex
      payload haConfig bitNr) _ _ _ h2 k
    refine ⟨_, hrep, rfl, ?_, ?_⟩
    · intro hlt
      simp [reportable, p3, p4, hlt]
    · intro h0 hha
      simp [reportable, p3, p4, h0, hha]

/-- C3 (witness): the two-byte range at indices 6..7 and bit 5 of the byte at
index 7, source 0x00, type 0x0D, from the empty cache. -/
theorem C3_idempotence_witness :
    (∃ o1, newPayloadBytesVal startState 0x00 0x0D 7 (payloadOf [0, 0, 0, 0, 0, 0, 3, 0x14]) 1 2
          true = some o1 ∧
        ∀ k, ∃ o2, repeated (fun t => newPayloadBytesVal t 0x00 0x0D 7
            (payloadOf [0, 0, 0, 0, 0, 0, 3, 0x14]) 1 2 true) k o1.st = some o2 ∧
          o2.st = o1.st ∧
          (startState.maxOutputFilter < startState.outputFilter → o2.ret = false) ∧
          (startState.outputFilter = 0 → 1 ≠ 0 → o2.ret = true)) ∧
    (∃ o1, newPayloadBitVal startState 0x00 0x0D 7 (payloadOf [0, 0, 0, 0, 0, 0, 3, 0x14]) 1 5
          = some o1 ∧
        ∀ k, ∃ o2, repeated (fun t => newPayloadBitVal t 0x00 0x0D 7
            (payloadOf [0, 0, 0, 0, 0, 0, 3, 0x14]) 1 5) k o1.st = some o2 ∧
          o2.st = o1.st ∧
          (startState.maxOutputFilter < startState.outputFilter → o2.ret = false) ∧
          (startState.outputFilter = 0 → 1 ≠ 0 → o2.ret = true)) :=
  ⟨(C3_idempotence startState 0x00 0x0D 7 (payloadOf [0, 0, 0, 0, 0, 0, 3, 0x14]) 1 20 0).1 2
      (by decide) (by decide) (by decide) (by decide) (by decide) (by decide),
   (C3_idempotence startState 0x00 0x0D 7 (payloadOf [0, 0, 0, 0, 0, 0, 3, 0x14]) 1 20 0).2 5
      (by decide) (by decide) (by decide) (by decide) (by decide)⟩

/-- C4. Changed-value gating: for every in-range single-byte address whose slot
is seen and holds a value different from the incoming byte,
`newPayloadBytesVal` with length 1 and `haConfig` set returns true if and only
if `outputFilter <= maxOutputFilter`, and afterwards the slot holds the incoming
byte if and only if `saveSeen` is true. -/
theorem C4_changed_value_gating (s : State) (packetSrc packetType payloadIndex : Nat)
    (payload : Nat → Nat) (haConfig nb bs : Nat) (saveSeen : Bool)
    (hpti : bytesPti packetType ≠ 0xFF)
    (hnb : nr_bytes (bytesPts packetSrc) (bytesPti packetType) = some nb)
    (hbs : bytestart (bytesPts packetSrc) (bytesPti packetType) = some bs)
    (hidx : payloadIndex ≤ nb) (hin : bs + payloadIndex < sizeValSeen) (hha : haConfig ≠ 0)
    (hseen : s.payloadByteSeen (bs + payloadIndex) ≠ 0)
    (hdiff : s.payloadByteVal (bs + payloadIndex) ≠ payload payloadIndex) :
    ∃ o, newPayloadBytesVal s packetSrc packetType payloadIndex payload haConfig 1 saveSeen
        = some o ∧
      (o.ret = true ↔ s.outputFilter ≤ s.maxOutputFilter) ∧
      (o.st.payloadByteVal (bs + payloadIndex) = payload payloadIndex ↔ saveSeen = true) := by
  have h42 := nr_bytes_le _ _ _ hnb
  have hmod : (payloadIndex + 1 - 1) % 256 = payloadIndex := by
    rw [Nat.add_sub_cancel]; apply Nat.mod_eq_of_lt; omega
  have hloop := bytesLoop_single bs payloadIndex payload haConfig saveSeen (by omega) hin 256
    (by decide) (decide (s.outputFilter = 0)) false s
  rw [if_pos hseen, if_pos hdiff] at hloop
  have hcall : ∃ t, newPayloadBytesVal s packetSrc packetType payloadIndex payload haConfig 1
      saveSeen = some ⟨reportable t haConfig (decide (s.outputFilter ≤ s.maxOutputFilter)), t,
        false⟩ ∧
      t.payloadByteVal (bs + payloadIndex)
        = (if saveSeen then payload payloadIndex else s.payloadByteVal (bs + payloadIndex)) := by
    refine ⟨(if saveSeen then
      { s with payloadByteVal := arrSet s.payloadByteVal (bs + payloadIndex) (payload payloadIndex) }
      else s), ?_, ?_⟩
    · unfold newPayloadBytesVal
      simp only [hpti, if_false, hnb, hbs, hmod, hloop]
      rw [if_neg (by omega), if_neg (by omega)]
    · cases saveSeen <;> simp
  obtain ⟨t, hcall, hval⟩ := hcall
  refine ⟨_, hcall, ?_, ?_⟩
  · simp [reportable, hha]
  · show t.payloadByteVal (bs + payloadIndex) = payload payloadIndex ↔ saveSeen = true
    rw [hval]
    cases saveSeen
    · simp [hdiff]
    · simp

/-- C4 (witness): index 7 of source 0x89, type 0x2D, slot 147 seen with value
0x14, incoming byte 0x15. -/
theorem C4_changed_value_gating_witness :
    ∃ o, newPayloadBytesVal
        { startState with payloadByteSeen := arrSet startState.payloadByteSeen 147 0xFF,
                          payloadByteVal := arrSet startState.payloadByteVal 147 0x14 }
        0x89 0x2D 7 (payloadOf [0, 0, 0, 0, 0, 0, 0, 0x15]) 1 1 true = some o ∧
      (o.ret = true ↔ (1 : Nat) ≤ 0) ∧
      (o.st.payloadByteVal (140 + 7) = payloadOf [0, 0, 0, 0, 0, 0, 0, 0x15] 7 ↔ true = true) :=
  C4_changed_value_gating
    { startState with payloadByteSeen := arrSet startState.payloadByteSeen 147 0xFF,
                      payloadByteVal := arrSet startState.payloadByteVal 147 0x14 }
    0x89 0x2D 7 (payloadOf [0, 0, 0, 0, 0, 0, 0, 0x15]) 1 42 140 true
    (by decide) (by decide) (by decide) (by decide) (by decide) (by decide) (by decide)
    (by decide)

/-- An in-range call on a single byte, written out. -/
theorem newPayloadBytesVal_one (s : State) (packetSrc packetType payloadIndex : Nat)
    (payload : Nat → Nat) (haConfig nb bs : Nat) (saveSeen : Bool)
    (hpti : bytesPti packetType ≠ 0xFF)
    (hnb : nr_bytes (bytesPts packetSrc) (bytesPti packetType) = some nb)
    (hbs : bytestart (bytesPts packetSrc) (bytesPti packetType) = some bs)
    (hidx : payloadIndex ≤ nb) (hin : bs + payloadIndex < sizeValSeen) :
    newPayloadBytesVal s packetSrc packetType payloadIndex payload haConfig 1 saveSeen =
      if s.payloadByteSeen (bs + payloadIndex) ≠ 0 then
        if s.payloadByteVal (bs + payloadIndex) ≠ payload payloadIndex then
          some ⟨reportable s haConfig (decide (s.outputFilter ≤ s.maxOutputFilter)),
            if saveSeen then
              { s with
                payloadByteVal := arrSet s.payloadByteVal (bs + payloadIndex) (payload payloadIndex) }
            else s,
            false⟩
        else some ⟨reportable s haConfig (decide (s.outputFilter = 0)), s, false⟩
      else if saveSeen then
        some ⟨reportable s haConfig true,
          { s with payloadByteSeen := arrSet s.payloadByteSeen (bs + payloadIndex) 0xFF,
                   payloadByteVal := arrSet s.payloadByteVal (bs + payloadIndex) (payload payloadIndex) },
          decide (haConfig ≠ 0)⟩
      else some ⟨reportable s haConfig true, s, false⟩ := by
  have h42 := nr_bytes_le _ _ _ hnb
  have hmod : (payloadIndex + 1 - 1) % 256 = payloadIndex := by
    rw [Nat.add_sub_cancel]; apply Nat.mod_eq_of_lt; omega
  have hloop := bytesLoop_single bs payloadIndex payload haConfig saveSeen (by omega) hin 256
    (by decide) (decide (s.outputFilter = 0)) false s
  unfold newPayloadBytesVal
  simp only [hpti, if_false, hnb, hbs, hmod, hloop]
  rw [if_neg (by omega), if_neg (by omega)]
  by_cases h1 : s.payloadByteSeen (bs + payloadIndex) ≠ 0
  · by_cases h2 : s.payloadByteVal (bs + payloadIndex) ≠ payload payloadIndex
    · simp only [if_pos h1, if_pos h2]
      cases saveSeen <;> rfl
    · simp only [if_pos h1, if_neg h2]
  · cases saveSeen
    · simp only [if_neg h1]; rfl
    · simp only [if_neg h1]; rfl

/-! ## The dispatch at one field -/

/-- The decoder call that `bytes2keyvalue` makes at source 0x89, type 0x2D, index
7: `value_s8` with ceiling 1 (from `CAT_TEMP`), category `T`, source digit 8 and
the unit and state class of `HATEMP`. -/
theorem field_89_2D_07 (pseudo : PseudoSwitch) (pre : Key) (s : State) (v : List Char)
    (p : Nat → Nat) :
    bytes2keyvalue pseudo pre s v 0x89 0x2D 7 p =
      decodeWith
        { st := { s with maxOutputFilter := 1, uom := 1, stateclass := 1 },
          key := ⟨'T', '8', "IUAirInletTemperature".toList.take (s.MQTT_KEY_LEN - 1)⟩,
          value := v, haConfig := 1, catLog := ['T', 'M', 'U'] }
        0x89 0x2D 7 p 1 (some (fmt_i (int8 (p 7)))) := by
  rfl

/-- That field, slot 147 unseen. -/
theorem field_89_2D_07_first (pseudo : PseudoSwitch) (pre : Key) (s : State) (v : List Char)
    (p : Nat → Nat) (hseen : s.payloadByteSeen 147 = 0) :
    bytes2keyvalue pseudo pre s v 0x89 0x2D 7 p =
      some ⟨1, ⟨'T', '8', "IUAirInletTemperature".toList.take (s.MQTT_KEY_LEN - 1)⟩,
        snprintf v s.MQTT_VALUE_LEN (fmt_i (int8 (p 7))),
        { s with payloadByteVal := arrSet s.payloadByteVal 147 (p 7),
                 payloadByteSeen := arrSet s.payloadByteSeen 147 0xFF,
                 maxOutputFilter := 1, uom := 1, stateclass := 1 },
        true, ['T', 'M', 'U']⟩ := by
  rw [field_89_2D_07]
  unfold decodeWith
  rw [newPayloadBytesVal_one _ 0x89 0x2D 7 p 1 42 140 true (by decide) (by decide) (by decide)
    (by decide) (by decide)]
  simp [hseen, reportable, Ctx.leave]

/-- That field, slot 147 seen with the incoming byte, `outputFilter` not 0. -/
theorem field_89_2D_07_same (pseudo : PseudoSwitch) (pre : Key) (s : State) (v : List Char)
    (p : Nat → Nat) (hseen : s.payloadByteSeen 147 ≠ 0) (hval : s.payloadByteVal 147 = p 7)
    (hof : s.outputFilter ≠ 0) :
    bytes2keyvalue pseudo pre s v 0x89 0x2D 7 p =
      some ⟨0, ⟨'T', '8', "IUAirInletTemperature".toList.take (s.MQTT_KEY_LEN - 1)⟩, v,
        { s with maxOutputFilter := 1, uom := 1, stateclass := 1 },
        false, ['T', 'M', 'U']⟩ := by
  rw [field_89_2D_07]
  unfold decodeWith
  rw [newPayloadBytesVal_one _ 0x89 0x2D 7 p 1 42 140 true (by decide) (by decide) (by decide)
    (by decide) (by decide)]
  simp [hseen, hval, hof, reportable, Ctx.leave]

/-- That field, slot 147 seen with another byte, `outputFilter` at most 1. -/
theorem field_89_2D_07_changed (pseudo : PseudoSwitch) (pre : Key) (s : State) (v : List Char)
    (p : Nat → Nat) (hseen : s.payloadByteSeen 147 ≠ 0) (hval : s.payloadByteVal 147 ≠ p 7)
    (hof : s.outputFilter ≤ 1) :
    bytes2keyvalue pseudo pre s v 0x89 0x2D 7 p =
      some ⟨1, ⟨'T', '8', "IUAirInletTemperature".toList.take (s.MQTT_KEY_LEN - 1)⟩,
        snprintf v s.MQTT_VALUE_LEN (fmt_i (int8 (p 7))),
        { s with payloadByteVal := arrSet s.payloadByteVal 147 (p 7),
                 maxOutputFilter := 1, uom := 1, stateclass := 1 },
        false, ['T', 'M', 'U']⟩ := by
  rw [field_89_2D_07]
  unfold decodeWith
  rw [newPayloadBytesVal_one _ 0x89 0x2D 7 p 1 42 140 true (by decide) (by decide) (by decide)
    (by decide) (by decide)]
  simp [hseen, hval, hof, reportable, Ctx.leave]

/-- A text of at most `size - 1` characters passes `snprintf` whole. -/
theorem snprintf_fits (buf : List Char) (size : Nat) (text : List Char)
    (h : text.length < size) : snprintf buf size text = text := by
  unfold snprintf
  rw [if_neg (by omega)]
  exact List.take_of_length_le (by omega)

/-- C5. End-to-end scenario. From an empty cache, with `outputFilter = 1` and
buffers that hold the texts (`MQTT_KEY_LEN >= 22`, `MQTT_VALUE_LEN >= 3`):
`bytes2keyvalue` for source 0x89, type 0x2D, index 7 with `payload[7] = 0x14`
returns 1 with key `IUAirInletTemperature`, category `T`, source character `8`
and value `20`; an identical second call returns 0; a third call with
`payload[7] = 0x15` returns 1 with value `21`. This holds for every content of
the other payload bytes, of the value buffer and of the remaining globals. -/
theorem C5_end_to_end (pseudo : PseudoSwitch) (pre : Key) (s : State) (v : List Char)
    (p1 p2 p3 : Nat → Nat)
    (hempty : ∀ k, s.payloadByteSeen k = 0 ∧ s.payloadByteVal k = 0)
    (hof : s.outputFilter = 1) (hklen : 22 ≤ s.MQTT_KEY_LEN) (hvlen : 3 ≤ s.MQTT_VALUE_LEN)
    (h1 : p1 7 = 0x14) (h2 : p2 7 = 0x14) (h3 : p3 7 = 0x15) :
    ∃ o1 o2 o3,
      bytes2keyvalue pseudo pre s v 0x89 0x2D 7 p1 = some o1 ∧
      o1.status = 1 ∧ o1.key = ⟨'T', '8', "IUAirInletTemperature".toList⟩ ∧
      o1.value = "20".toList ∧
      bytes2keyvalue pseudo pre o1.st o1.value 0x89 0x2D 7 p2 = some o2 ∧
      o2.status = 0 ∧
      bytes2keyvalue pseudo pre o2.st o2.value 0x89 0x2D 7 p3 = some o3 ∧
      o3.status = 1 ∧ o3.key = ⟨'T', '8', "IUAirInletTemperature".toList⟩ ∧
      o3.value = "21".toList := by
  have hkey : ∀ n, 22 ≤ n → "IUAirInletTemperature".toList.take (n - 1)
      = "IUAirInletTemperature".toList := by
    intro n hn
    exact List.take_of_length_le (by simp; omega)
  have hdec : ∀ (buf : List Char) (n : Nat) (t : List Char), 3 ≤ n → t.length ≤ 2 →
      snprintf buf n t = t := fun buf n t hn ht => snprintf_fits buf n t (by omega)
  have e1 := field_89_2D_07_first pseudo pre s v p1 (hempty 147).1
  have e2 := field_89_2D_07_same pseudo pre
    { s with payloadByteVal := arrSet s.payloadByteVal 147 (p1 7),
             payloadByteSeen := arrSet s.payloadByteSeen 147 0xFF,
             maxOutputFilter := 1, uom := 1, stateclass := 1 }
    (snprintf v s.MQTT_VALUE_LEN (fmt_i (int8 (p1 7)))) p2
    (by simp) (by simp [h1, h2]) (by simp [hof])
  have e3 := field_89_2D_07_changed pseudo pre
    { s with payloadByteVal := arrSet s.payloadByteVal 147 (p1 7),
             payloadByteSeen := arrSet s.payloadByteSeen 147 0xFF,
             maxOutputFilter := 1, uom := 1, stateclass := 1 }
    (snprintf v s.MQTT_VALUE_LEN (fmt_i (int8 (p1 7)))) p3
    (by simp) (by simp [h1, h3]) (by simp [hof])
  refine ⟨_, _, _, e1, rfl, ?_, ?_, e2, rfl, e3, rfl, ?_, ?_⟩
  · show Key.mk 'T' '8' _ = _
    rw [hkey _ hklen]
  · show snprintf v s.MQTT_VALUE_LEN (fmt_i (int8 (p1 7))) = _
    rw [h1]
    exact hdec _ _ _ hvlen (by decide)
  · show Key.mk 'T' '8' _ = _
    rw [hkey _ hklen]
  · show snprintf _ s.MQTT_VALUE_LEN (fmt_i (int8 (p3 7))) = _
    rw [h3]
    exact hdec _ _ _ hvlen (by decide)

/-- C5 (witness): the scenario from the globals at process start, with payloads
that are zero outside index 7. -/
theorem C5_end_to_end_witness :
    ∃ o1 o2 o3,
      bytes2keyvalue noPseudo plainPrefix startState [] 0x89 0x2D 7
        (payloadOf [0, 0, 0, 0, 0, 0, 0, 0x14]) = some o1 ∧
      o1.status = 1 ∧ o1.key = ⟨'T', '8', "IUAirInletTemperature".toList⟩ ∧
      o1.value = "20".toList ∧
      bytes2keyvalue noPseudo plainPrefix o1.st o1.value 0x89 0x2D 7
        (payloadOf [0, 0, 0, 0, 0, 0, 0, 0x14]) = some o2 ∧
      o2.status = 0 ∧
      bytes2keyvalue noPseudo plainPrefix o2.st o2.value 0x89 0x2D 7
        (payloadOf [0, 0, 0, 0, 0, 0, 0, 0x15]) = some o3 ∧
      o3.status = 1 ∧ o3.key = ⟨'T', '8', "IUAirInletTemperature".toList⟩ ∧
      o3.value = "21".toList :=
  C5_end_to_end noPseudo plainPrefix startState [] (payloadOf [0, 0, 0, 0, 0, 0, 0, 0x14])
    (payloadOf [0, 0, 0, 0, 0, 0, 0, 0x14]) (payloadOf [0, 0, 0, 0, 0, 0, 0, 0x15])
    (fun _ => ⟨rfl, rfl⟩) (by decide) (by decide) (by decide) (by decide) (by decide) (by decide)

/-! ## Bounds and frame of the bit path -/

theorem sameSettings_refl (s : State) : sameSettings s s :=
  ⟨rfl, rfl, rfl, rfl, rfl, rfl, rfl, rfl, rfl⟩

/-- The calls that reach the last branch of `newPayloadBitVal`. -/
theorem newPayloadBitVal_reaches (s : State) (packetSrc packetType payloadIndex : Nat)
    (payload : Nat → Nat) (haConfig bitNr nb bs : Nat)
    (hbit : bitNr ≤ 7)
    (htype : (PCKTP_START ≤ packetType ∧ packetType ≤ PCKTP_END) ∨ packetType = 0x31)
    (hnb : nr_bytes (bitPts packetSrc) (bitPti packetType) = some nb)
    (hbs : bytestart (bitPts packetSrc) (bitPti packetType) = some bs)
    (hidx : payloadIndex ≤ nb) :
    newPayloadBitVal s packetSrc packetType payloadIndex payload haConfig bitNr
      = some (bitObserve s (bitSlot bs payloadIndex) (payload payloadIndex) haConfig bitNr) := by
  unfold newPayloadBitVal
  simp only [hnb, hbs]
  rw [if_neg (by omega), if_neg (by simp only [PCKTP_START] at htype ⊢; omega),
    if_neg (by simp only [PCKTP_START, PCKTP_END] at htype ⊢; omega), if_neg (by omega)]

/-- The decision of the bit path as a function of bit `bitNr` of the seen mask,
of the stored byte and of the incoming byte, and of the settings. -/
theorem bitObserve_ret (s : State) (pi2 b haConfig bitNr : Nat) (hn : bitNr ≤ 7) :
    (bitObserve s pi2 b haConfig bitNr).ret =
      reportable s haConfig
        (if s.outputFilter > s.maxOutputFilter then false
         else if (s.payloadByteSeen pi2).testBit bitNr = true then
           if (s.payloadByteVal pi2).testBit bitNr ≠ b.testBit bitNr then
             decide (s.outputFilter ≤ s.maxOutputFilter)
           else decide (s.outputFilter = 0)
         else true) := by
  unfold bitObserve
  simp only [bitMaskOf_eq bitNr hn]
  by_cases hseen : (s.payloadByteSeen pi2).testBit bitNr = true
  · rw [if_pos ((and_two_pow_ne_zero _ _).mpr hseen)]
    by_cases hval : (s.payloadByteVal pi2).testBit bitNr ≠ b.testBit bitNr
    · rw [if_pos ((xor_and_two_pow_ne_zero _ _ _).mpr hval)]
      simp only [if_pos hseen, if_pos hval]
    · rw [if_neg (fun h => hval ((xor_and_two_pow_ne_zero _ _ _).mp h))]
      simp only [if_pos hseen, if_neg hval]
  · rw [if_neg (fun h => hseen ((and_two_pow_ne_zero _ _).mp h))]
    simp only [if_neg hseen]

/-- What the bit path leaves alone: every other slot, every other bit of the
addressed slot (whose stored value is a byte), and the settings. -/
theorem bitObserve_frame (s : State) (pi2 b haConfig bitNr : Nat) (hn : bitNr ≤ 7)
    (hbyte : s.payloadByteVal pi2 < 256) :
    (∀ q, q ≠ pi2 →
      (bitObserve s pi2 b haConfig bitNr).st.payloadByteVal q = s.payloadByteVal q ∧
      (bitObserve s pi2 b haConfig bitNr).st.payloadByteSeen q = s.payloadByteSeen q) ∧
    (∀ m, m ≠ bitNr →
      ((bitObserve s pi2 b haConfig bitNr).st.payloadByteVal pi2).testBit m
        = (s.payloadByteVal pi2).testBit m ∧
      ((bitObserve s pi2 b haConfig bitNr).st.payloadByteSeen pi2).testBit m
        = (s.payloadByteSeen pi2).testBit m) ∧
    sameSettings s (bitObserve s pi2 b haConfig bitNr).st := by
  have hhigh : ∀ m, (s.payloadByteVal pi2).testBit m = true → m < 8 := by
    intro m hm
    by_contra hc
    have h8 : 8 ≤ m := by omega
    have hpow : 2 ^ 8 ≤ 2 ^ m := Nat.pow_le_pow_right (by decide : 0 < 2) h8
    have : s.payloadByteVal pi2 < 2 ^ m := Nat.lt_of_lt_of_le hbyte hpow
    rw [Nat.testBit_lt_two_pow this] at hm
    cases hm
  have hstored : ∀ m, m ≠ bitNr →
      ((s.payloadByteVal pi2 &&& (0xFF ^^^ 2 ^ bitNr)) ||| (b &&& 2 ^ bitNr)).testBit m
        = (s.payloadByteVal pi2).testBit m := by
    intro m hm
    rw [testBit_stored _ _ _ _ (Nat.lt_succ_of_le hn), if_neg hm]
    cases hv : (s.payloadByteVal pi2).testBit m
    · rfl
    · simp [hhigh m hv]
  unfold bitObserve
  simp only [bitMaskOf_eq bitNr hn]
  by_cases hseen : s.payloadByteSeen pi2 &&& 2 ^ bitNr ≠ 0
  · rw [if_pos hseen]
    by_cases hval : (s.payloadByteVal pi2 ^^^ b) &&& 2 ^ bitNr ≠ 0
    · rw [if_pos hval]
      refine ⟨fun q hq => ⟨arrSet_other _ _ _ _ hq, rfl⟩, fun m hm => ⟨?_, rfl⟩,
        sameSettings_refl s⟩
      show (arrSet s.payloadByteVal pi2 _ pi2).testBit m = _
      rw [arrSet_same]; exact hstored m hm
    · rw [if_neg hval]
      exact ⟨fun q _ => ⟨rfl, rfl⟩, fun m _ => ⟨rfl, rfl⟩, sameSettings_refl s⟩
  · rw [if_neg hseen]
    refine ⟨fun q hq => ⟨arrSet_other _ _ _ _ hq, arrSet_other _ _ _ _ hq⟩,
      fun m hm => ⟨?_, ?_⟩, sameSettings_refl s⟩
    · show (arrSet s.payloadByteVal pi2 _ pi2).testBit m = _
      rw [arrSet_same]; exact hstored m hm
    · show (arrSet s.payloadByteSeen pi2 _ pi2).testBit m = _
      rw [arrSet_same, testBit_or_two_pow, if_neg hm]

/-- C6 (evaluation at the failing input). Source 0x40, type 0x0F, index 20: the
derived address is 282 + 20 = 302 = `sizeValSeen`. On the bit path the call
for bit 0 of the byte 0xFF writes slot 0, which is the slot of index 0 of
source 0x00, type 0x0D: seen mask and value go from 0 to 1. On the byte path the
same address makes the call return false with slot 0 untouched. -/
theorem C6_bit_path_writes_slot_zero :
    nr_bytes (bitPts 0x40) (bitPti 0x0F) = some 20 ∧
    bytestart (bitPts 0x40) (bitPti 0x0F) = some 282 ∧
    sizeValSeen ≤ 282 + 20 ∧
    bytestart (bitPts 0x00) (bitPti 0x0D) = some 0 ∧
    startState.payloadByteSeen 0 = 0 ∧ startState.payloadByteVal 0 = 0 ∧
    (newPayloadBitVal startState 0x40 0x0F 20 (fun _ => 0xFF) 1 0).map
      (fun o => (o.st.payloadByteSeen 0, o.st.payloadByteVal 0)) = some (1, 1) ∧
    (newPayloadBytesVal startState 0x40 0x0F 20 (fun _ => 0xFF) 1 1 true).map
      (fun o => (o.ret, o.st.payloadByteSeen 0, o.st.payloadByteVal 0)) = some (false, 0, 0) := by
  decide

/-- C7. No cross-bit interference. For every call of `newPayloadBitVal` with
`bitNr <= 7` that reaches the cache, the stored value of the addressed slot
being a byte: (a) every other slot keeps its value and seen mask, every bit
other than `bitNr` of the addressed slot keeps its value and its seen bit, and
the settings are untouched; (b) a second run with the same arguments and
settings, whose cache and incoming byte agree with the first in bit `bitNr` of
the stored value, of the seen mask and of the incoming byte, returns the same
decision, whatever the other seven bits are. -/
theorem C7_no_cross_bit_interference (s s2 : State) (packetSrc packetType payloadIndex : Nat)
    (payload payload2 : Nat → Nat) (haConfig bitNr nb bs : Nat)
    (hbit : bitNr ≤ 7)
    (htype : (PCKTP_START ≤ packetType ∧ packetType ≤ PCKTP_END) ∨ packetType = 0x31)
    (hnb : nr_bytes (bitPts packetSrc) (bitPti packetType) = some nb)
    (hbs : bytestart (bitPts packetSrc) (bitPti packetType) = some bs)
    (hidx : payloadIndex ≤ nb)
    (hbyte : s.payloadByteVal (bitSlot bs payloadIndex) < 256) :
    ∃ o, newPayloadBitVal s packetSrc packetType payloadIndex payload haConfig bitNr = some o ∧
      (∀ q, q ≠ bitSlot bs payloadIndex →
        o.st.payloadByteVal q = s.payloadByteVal q ∧
        o.st.payloadByteSeen q = s.payloadByteSeen q) ∧
      (∀ m, m ≠ bitNr →
        (o.st.payloadByteVal (bitSlot bs payloadIndex)).testBit m
          = (s.payloadByteVal (bitSlot bs payloadIndex)).testBit m ∧
        (o.st.payloadByteSeen (bitSlot bs payloadIndex)).testBit m
          = (s.payloadByteSeen (bitSlot bs payloadIndex)).testBit m) ∧
      sameSettings s o.st ∧
      (s2.outputFilter = s.outputFilter → s2.maxOutputFilter = s.maxOutputFilter →
        s2.outputMode = s.outputMode →
        (payload2 payloadIndex).testBit bitNr = (payload payloadIndex).testBit bitNr →
        (s2.payloadByteVal (bitSlot bs payloadIndex)).testBit bitNr
          = (s.payloadByteVal (bitSlot bs payloadIndex)).testBit bitNr →
        (s2.payloadByteSeen (bitSlot bs payloadIndex)).testBit bitNr
          = (s.payloadByteSeen (bitSlot bs payloadIndex)).testBit bitNr →
        ∃ o2, newPayloadBitVal s2 packetSrc packetType payloadIndex payload2 haConfig bitNr
            = some o2 ∧ o2.ret = o.ret) := by
  obtain ⟨f1, f2, f3⟩ := bitObserve_frame s (bitSlot bs payloadIndex) (payload payloadIndex)
    haConfig bitNr hbit hbyte
  refine ⟨_, newPayloadBitVal_reaches s packetSrc packetType payloadIndex payload haConfig bitNr
    nb bs hbit htype hnb hbs hidx, f1, f2, f3, ?_⟩
  intro e1 e2 e3 e4 e5 e6
  refine ⟨_, newPayloadBitVal_reaches s2 packetSrc packetType payloadIndex payload2 haConfig
    bitNr nb bs hbit htype hnb hbs hidx, ?_⟩
  rw [bitObserve_ret _ _ _ _ _ hbit, bitObserve_ret _ _ _ _ _ hbit, e1, e2, e4, e5, e6]
  simp only [reportable, e3]

/-- C7 (witness): bit 2 at source 0x00, type 0x0E, index 3 (slot 23), stored
value 0xF0 and seen mask 0x0F in the first run, 0x0B and 0x04 in the second,
incoming bytes 0x04 and 0xFC. -/
theorem C7_no_cross_bit_interference_witness :
    ∃ o, newPayloadBitVal
        { startState with payloadByteVal := arrSet startState.payloadByteVal 23 0xF0,
                          payloadByteSeen := arrSet startState.payloadByteSeen 23 0x0F }
        0x00 0x0E 3 (payloadOf [0, 0, 0, 0x04]) 1 2 = some o ∧
      (∀ q, q ≠ bitSlot 20 3 →
        o.st.payloadByteVal q = arrSet startState.payloadByteVal 23 0xF0 q ∧
        o.st.payloadByteSeen q = arrSet startState.payloadByteSeen 23 0x0F q) ∧
      (∀ m, m ≠ 2 →
        (o.st.payloadByteVal (bitSlot 20 3)).testBit m
          = (arrSet startState.payloadByteVal 23 0xF0 (bitSlot 20 3)).testBit m ∧
        (o.st.payloadByteSeen (bitSlot 20 3)).testBit m
          = (arrSet startState.payloadByteSeen 23 0x0F (bitSlot 20 3)).testBit m) ∧
      sameSettings
        { startState with payloadByteVal := arrSet startState.payloadByteVal 23 0xF0,
                          payloadByteSeen := arrSet startState.payloadByteSeen 23 0x0F } o.st ∧
      ∃ o2, newPayloadBitVal
          { startState with payloadByteVal := arrSet startState.payloadByteVal 23 0x0B,
                            payloadByteSeen := arrSet startState.payloadByteSeen 23 0x04 }
          0x00 0x0E 3 (payloadOf [9, 9, 9, 0xFC]) 1 2 = some o2 ∧ o2.ret = o.ret := by
  obtain ⟨o, h1, h2, h3, h4, h5⟩ := C7_no_cross_bit_interference
    { startState with payloadByteVal := arrSet startState.payloadByteVal 23 0xF0,
                      payloadByteSeen := arrSet startState.payloadByteSeen 23 0x0F }
    { startState with payloadByteVal := arrSet startState.payloadByteVal 23 0x0B,
                      payloadByteSeen := arrSet startState.payloadByteSeen 23 0x04 }
    0x00 0x0E 3 (payloadOf [0, 0, 0, 0x04]) (payloadOf [9, 9, 9, 0xFC]) 1 2 20 20
    (by decide) (by decide) (by decide) (by decide) (by decide) (by decide)
  exact ⟨o, h1, h2, h3, h4, h5 rfl rfl rfl (by decide) (by decide) (by decide)⟩

/-! ## The settings are left alone by the cache -/

theorem sameSettings_trans {s t u : State} (h1 : sameSettings s t) (h2 : sameSettings t u) :
    sameSettings s u := by
  obtain ⟨a1, a2, a3, a4, a5, a6, a7, a8, a9⟩ := h1
  obtain ⟨b1, b2, b3, b4, b5, b6, b7, b8, b9⟩ := h2
  exact ⟨b1.trans a1, b2.trans a2, b3.trans a3, b4.trans a4, b5.trans a5, b6.trans a6,
    b7.trans a7, b8.trans a8, b9.trans a9⟩

theorem bytesLoop_settings (bs pI : Nat) (payload : Nat → Nat) (ha : Nat) (sv : Bool) :
    ∀ (fuel i : Nat) (nb pub : Bool) (s : State) (e : LoopExit) (t : State),
      bytesLoop bs pI payload ha sv fuel i nb pub s = some (e, t) → sameSettings s t := by
  intro fuel
  induction fuel with
  | zero => intro i nb pub s e t h; simp [bytesLoop] at h
  | succ f ih =>
    intro i nb pub s e t h
    rw [bytesLoop] at h
    by_cases hi : i ≤ pI
    · rw [if_pos hi] at h
      simp only at h
      by_cases hr : (bs + i) % 65536 ≥ sizeValSeen
      · rw [if_pos hr] at h; cases h; exact sameSettings_refl s
      · rw [if_neg hr] at h
        by_cases hseen : s.payloadByteSeen ((bs + i) % 65536) ≠ 0
        · rw [if_pos hseen] at h
          by_cases hval : s.payloadByteVal ((bs + i) % 65536) ≠ payload i
          · rw [if_pos hval] at h
            cases sv
            · simp only [Bool.false_eq_true, if_false] at h
              exact ih _ _ _ _ _ _ h
            · simp only [if_true] at h
              have h2 := ih _ _ _ _ _ _ h
              exact sameSettings_trans ⟨rfl, rfl, rfl, rfl, rfl, rfl, rfl, rfl, rfl⟩ h2
          · rw [if_neg hval] at h
            exact ih _ _ _ _ _ _ h
        · rw [if_neg hseen] at h
          cases sv
          · simp only [Bool.false_eq_true, if_false] at h
            exact ih _ _ _ _ _ _ h
          · simp only [if_true] at h
            have h2 := ih _ _ _ _ _ _ h
            exact sameSettings_trans ⟨rfl, rfl, rfl, rfl, rfl, rfl, rfl, rfl, rfl⟩ h2
    · rw [if_neg hi] at h; cases h; exact sameSettings_refl s

theorem newPayloadBytesVal_settings (s : State) (packetSrc packetType payloadIndex : Nat)
    (payload : Nat → Nat) (haConfig length : Nat) (saveSeen : Bool) (o : Observed)
    (h : newPayloadBytesVal s packetSrc packetType payloadIndex payload haConfig length saveSeen
      = some o) : sameSettings s o.st := by
  unfold newPayloadBytesVal at h
  simp only at h
  by_cases hpti : bytesPti packetType = 0xFF
  · rw [if_pos hpti] at h; cases h; exact sameSettings_refl s
  · rw [if_neg hpti] at h
    cases hnb : nr_bytes (bytesPts packetSrc) (bytesPti packetType) with
    | none => rw [hnb] at h; cases h
    | some nb =>
      cases hbs : bytestart (bytesPts packetSrc) (bytesPti packetType) with
      | none => rw [hnb, hbs] at h; cases h
      | some bs =>
        rw [hnb, hbs] at h
        simp only at h
        by_cases h1 : payloadIndex > nb
        · rw [if_pos h1] at h; cases h; exact sameSettings_refl s
        · rw [if_neg h1] at h
          by_cases h2 : payloadIndex + 1 < length
          · rw [if_pos h2] at h; cases h; exact sameSettings_refl s
          · rw [if_neg h2] at h
            cases hl : bytesLoop bs payloadIndex payload haConfig saveSeen 256
                ((payloadIndex + 1 - length) % 256) (decide (s.outputFilter = 0)) false s with
            | none => rw [hl] at h; cases h
            | some r =>
              obtain ⟨e, t⟩ := r
              rw [hl] at h
              have hs := bytesLoop_settings _ _ _ _ _ _ _ _ _ _ _ _ hl
              cases e <;> (cases h; exact hs)

theorem bitObserve_settings (s : State) (pi2 b haConfig bitNr : Nat) :
    sameSettings s (bitObserve s pi2 b haConfig bitNr).st := by
  unfold bitObserve
  simp only
  split_ifs <;> exact ⟨rfl, rfl, rfl, rfl, rfl, rfl, rfl, rfl, rfl⟩

theorem newPayloadBitVal_settings (s : State) (packetSrc packetType payloadIndex : Nat)
    (payload : Nat → Nat) (haConfig bitNr : Nat) (o : Observed)
    (h : newPayloadBitVal s packetSrc packetType payloadIndex payload haConfig bitNr = some o) :
    sameSettings s o.st := by
  unfold newPayloadBitVal at h
  simp only at h
  by_cases h1 : bitNr > 7
  · rw [if_pos h1] at h; cases h; exact sameSettings_refl s
  · rw [if_neg h1] at h
    by_cases h2 : packetType < PCKTP_START
    · rw [if_pos h2] at h; cases h; exact sameSettings_refl s
    · rw [if_neg h2] at h
      by_cases h3 : packetType > PCKTP_END ∧ packetType ≠ 0x31
      · rw [if_pos h3] at h; cases h; exact sameSettings_refl s
      · rw [if_neg h3] at h
        cases hnb : nr_bytes (bitPts packetSrc) (bitPti packetType) with
        | none => rw [hnb] at h; cases h
        | some nb =>
          rw [hnb] at h
          simp only at h
          by_cases h4 : payloadIndex > nb
          · rw [if_pos h4] at h; cases h; exact sameSettings_refl s
          · rw [if_neg h4] at h
            cases hbs : bytestart (bitPts packetSrc) (bitPti packetType) with
            | none => rw [hbs] at h; cases h
            | some bs =>
              rw [hbs] at h
              cases h; exact bitObserve_settings _ _ _ _ _

/-! ## The ceiling and the category macros executed in a call -/

theorem ceiling_KEY (K : String) (c : Ctx) : (KEY K c).ceilingInForce ↔ c.ceilingInForce :=
  Iff.rfl

theorem ceiling_HAset (u sc : Nat) (c : Ctx) : (HAset u sc c).ceilingInForce ↔ c.ceilingInForce :=
  Iff.rfl

theorem ceiling_CAT_TEMP (c : Ctx) : (CAT_TEMP c).ceilingInForce := by
  simp [Ctx.ceilingInForce, CAT_TEMP, ceilingOf]

theorem ceiling_CAT_MEASUREMENT (c : Ctx) : (CAT_MEASUREMENT c).ceilingInForce := by
  simp [Ctx.ceilingInForce, CAT_MEASUREMENT, ceilingOf]

theorem ceiling_CAT_SETTING (c : Ctx) (h : c.ceilingInForce) : (CAT_SETTING c).ceilingInForce := by
  simp only [Ctx.ceilingInForce, CAT_SETTING, ceilingOf, List.mem_cons] at h ⊢
  rw [h]; simp

theorem ceiling_CAT_UNKNOWN (c : Ctx) (h : c.ceilingInForce) : (CAT_UNKNOWN c).ceilingInForce := by
  simp only [Ctx.ceilingInForce, CAT_UNKNOWN, ceilingOf, List.mem_cons] at h ⊢
  rw [h]; simp

theorem ceiling_preamble (s : State) (key : Key) (value : List Char) (packetSrc : Nat) :
    (preamble s key value packetSrc).ceilingInForce := by
  simp [Ctx.ceilingInForce, preamble, HACONFIG, SRC, CAT_UNKNOWN, ceilingOf]

theorem ceiling_leave (c : Ctx) (status : Nat) (value : List Char) (t : State) (p : Bool)
    (hc : c.ceilingInForce) (ht : sameSettings c.st t) :
    (c.leave status value t p).ceilingInForce := by
  show t.maxOutputFilter = ceilingOf c.catLog
  rw [ht.1]; exact hc

theorem ceiling_decodeWith (c : Ctx) (packetSrc packetType payloadIndex : Nat)
    (payload : Nat → Nat) (width : Nat) (text : Option (List Char)) (o : Outcome)
    (hc : c.ceilingInForce)
    (h : decodeWith c packetSrc packetType payloadIndex payload width text = some o) :
    o.ceilingInForce := by
  unfold decodeWith at h
  cases hn : newPayloadBytesVal c.st packetSrc packetType payloadIndex payload c.haConfig width
      true with
  | none => rw [hn] at h; cases h
  | some r =>
    rw [hn] at h
    have hs := newPayloadBytesVal_settings _ _ _ _ _ _ _ _ _ hn
    simp only at h
    by_cases hr : r.ret = false
    · rw [if_pos hr] at h; cases h; exact ceiling_leave _ _ _ _ _ hc hs
    · rw [if_neg hr] at h
      cases text with
      | none => cases h
      | some t => cases h; exact ceiling_leave _ _ _ _ _ hc hs

theorem ceiling_VALUE_u8 (a : Args) (c : Ctx) (o : Outcome) (hc : c.ceilingInForce)
    (h : VALUE_u8 a c = some o) : o.ceilingInForce := by
  unfold VALUE_u8 value_u8 at h
  exact ceiling_decodeWith _ _ _ _ _ _ _ _ hc h

theorem ceiling_VALUE_s8 (a : Args) (c : Ctx) (o : Outcome) (hc : c.ceilingInForce)
    (h : VALUE_s8 a c = some o) : o.ceilingInForce := by
  unfold VALUE_s8 value_s8 at h
  exact ceiling_decodeWith _ _ _ _ _ _ _ _ hc h

theorem ceiling_RETURN0 (c : Ctx) (o : Outcome) (hc : c.ceilingInForce)
    (h : RETURN0 c = some o) : o.ceilingInForce := by
  cases h; exact ceiling_leave _ _ _ _ _ hc (sameSettings_refl _)

theorem ceiling_BITBASIS (a : Args) (c : Ctx) (o : Outcome) (hc : c.ceilingInForce)
    (h : BITBASIS a c = some o) : o.ceilingInForce := by
  unfold BITBASIS at h
  cases hn : newPayloadBytesVal c.st a.packetSrc a.packetType a.payloadIndex a.payload c.haConfig
      1 false with
  | none => rw [hn] at h; cases h
  | some r =>
    rw [hn] at h
    cases h
    exact ceiling_leave _ _ _ _ _ hc (newPayloadBytesVal_settings _ _ _ _ _ _ _ _ _ hn)

theorem ceiling_VALUE_flag8 (a : Args) (c : Ctx) (o : Outcome) (hc : c.ceilingInForce)
    (h : VALUE_flag8 a c = some o) : o.ceilingInForce := by
  unfold VALUE_flag8 value_flag8 at h
  cases hn : newPayloadBitVal c.st a.packetSrc a.packetType a.payloadIndex a.payload c.haConfig
      a.bitNr with
  | none => rw [hn] at h; cases h
  | some r =>
    rw [hn] at h
    have hs := newPayloadBitVal_settings _ _ _ _ _ _ _ _ hn
    simp only at h
    by_cases hr : r.ret = false
    · rw [if_pos hr] at h; cases h; exact ceiling_leave _ _ _ _ _ hc hs
    · rw [if_neg hr] at h; cases h; exact ceiling_leave _ _ _ _ _ hc hs

theorem ceiling_UNKNOWN_BIT (a : Args) (c : Ctx) (o : Outcome) (hc : c.ceilingInForce)
    (h : UNKNOWN_BIT a c = some o) : o.ceilingInForce := by
  have hu := ceiling_CAT_UNKNOWN c hc
  unfold UNKNOWN_BIT unknownBit at h
  by_cases h0 : (CAT_UNKNOWN c).st.outputUnknown = false
  · rw [if_pos h0] at h; cases h; exact ceiling_leave _ _ _ _ _ hu (sameSettings_refl _)
  · rw [if_neg h0] at h
    cases hn : newPayloadBitVal (CAT_UNKNOWN c).st a.packetSrc a.packetType a.payloadIndex
        a.payload (CAT_UNKNOWN c).haConfig a.bitNr with
    | none => rw [hn] at h; cases h
    | some r =>
      rw [hn] at h
      have hs := newPayloadBitVal_settings _ _ _ _ _ _ _ _ hn
      simp only at h
      by_cases hr : r.ret = false
      · rw [if_pos hr] at h; cases h; exact ceiling_leave _ _ _ _ _ hu hs
      · rw [if_neg hr] at h; cases h
        show r.st.maxOutputFilter = ceilingOf (CAT_UNKNOWN c).catLog
        rw [hs.1]; exact hu

theorem ceiling_UNKNOWN_BYTE (a : Args) (c : Ctx) (o : Outcome) (hc : c.ceilingInForce)
    (h : UNKNOWN_BYTE a c = some o) : o.ceilingInForce := by
  have hu := ceiling_CAT_UNKNOWN c hc
  unfold UNKNOWN_BYTE unknownByte at h
  by_cases h0 : (CAT_UNKNOWN c).st.outputUnknown = false
  · rw [if_pos h0] at h; cases h; exact ceiling_leave _ _ _ _ _ hu (sameSettings_refl _)
  · rw [if_neg h0] at h
    cases hn : newPayloadBytesVal (CAT_UNKNOWN c).st a.packetSrc a.packetType a.payloadIndex
        a.payload (CAT_UNKNOWN c).haConfig 1 true with
    | none => rw [hn] at h; cases h
    | some r =>
      rw [hn] at h
      have hs := newPayloadBytesVal_settings _ _ _ _ _ _ _ _ _ hn
      simp only at h
      by_cases hr : r.ret = false
      · rw [if_pos hr] at h; cases h; exact ceiling_leave _ _ _ _ _ hu hs
      · rw [if_neg hr] at h; cases h
        show r.st.maxOutputFilter = ceilingOf (CAT_UNKNOWN c).catLog
        rw [hs.1]; exact hu

theorem ceiling_HATEMP (c : Ctx) (h : c.ceilingInForce) : (HATEMP c).ceilingInForce := h

theorem ceiling_HAFREQ (c : Ctx) (h : c.ceilingInForce) : (HAFREQ c).ceilingInForce := h

theorem ceiling_HAPERCENT (c : Ctx) (h : c.ceilingInForce) : (HAPERCENT c).ceilingInForce := h

theorem ceiling_HACURRENT (c : Ctx) (h : c.ceilingInForce) : (HACURRENT c).ceilingInForce := h

theorem ceiling_case_89_2D (a : Args) (c : Ctx) (o : Outcome) (hc : c.ceilingInForce) :
    case_89_2D a c = some o → o.ceilingInForce := by
  have hk : ∀ K, (KEY K c).ceilingInForce := fun K => (ceiling_KEY K c).mpr hc
  unfold case_89_2D
  split
  all_goals first
    | with_reducible exact ceiling_VALUE_s8 _ _ _ (ceiling_HATEMP _ (ceiling_CAT_TEMP _))
    | with_reducible exact ceiling_VALUE_u8 _ _ _ (ceiling_CAT_MEASUREMENT _)
    | with_reducible exact ceiling_VALUE_u8 _ _ _ (ceiling_HAFREQ _ (ceiling_CAT_MEASUREMENT _))
    | with_reducible exact ceiling_VALUE_u8 _ _ _ (ceiling_HAPERCENT _ (ceiling_CAT_MEASUREMENT _))
    | with_reducible exact ceiling_VALUE_u8 _ _ _ (ceiling_HACURRENT _ (ceiling_CAT_MEASUREMENT _))
    | with_reducible exact ceiling_RETURN0 _ _ hc
    | with_reducible exact ceiling_UNKNOWN_BYTE _ _ _ hc
    | (split <;> first
        | with_reducible exact ceiling_BITBASIS _ _ _ hc
        | with_reducible exact ceiling_VALUE_flag8 _ _ _ (hk _)
        | with_reducible exact ceiling_UNKNOWN_BIT _ _ _ hc)

theorem ceiling_case_89_27 (a : Args) (c : Ctx) (o : Outcome) (hc : c.ceilingInForce) :
    case_89_27 a c = some o → o.ceilingInForce := by
  have hk : ∀ K, (KEY K c).ceilingInForce := fun K => (ceiling_KEY K c).mpr hc
  unfold case_89_27
  split
  all_goals first
    | with_reducible exact ceiling_VALUE_u8 _ _ _ (ceiling_HATEMP _ (ceiling_CAT_TEMP _))
    | with_reducible exact ceiling_VALUE_u8 _ _ _ (hk _)
    | with_reducible exact ceiling_RETURN0 _ _ hc
    | with_reducible exact ceiling_UNKNOWN_BYTE _ _ _ hc
    | (split <;> first
        | with_reducible exact ceiling_BITBASIS _ _ _ hc
        | with_reducible exact ceiling_VALUE_flag8 _ _ _ (hk _)
        | with_reducible exact ceiling_UNKNOWN_BIT _ _ _ hc)

theorem ceiling_case_21_12 (a : Args) (c : Ctx) (o : Outcome) (hc : c.ceilingInForce) :
    case_21_12 a c = some o → o.ceilingInForce := by
  have hk : ∀ K, (KEY K c).ceilingInForce := fun K => (ceiling_KEY K c).mpr hc
  unfold case_21_12
  split
  all_goals first
    | with_reducible exact ceiling_VALUE_u8 _ _ _ (ceiling_CAT_TEMP _)
    | with_reducible exact ceiling_VALUE_u8 _ _ _ (hk _)
    | with_reducible exact ceiling_RETURN0 _ _ hc
    | with_reducible exact ceiling_UNKNOWN_BYTE _ _ _ hc
    | (split <;> first
        | with_reducible exact ceiling_BITBASIS _ _ _ hc
        | with_reducible exact ceiling_VALUE_flag8 _ _ _ (hk _)
        | with_reducible exact ceiling_UNKNOWN_BIT _ _ _ hc)

theorem ceiling_case_41_18 (a : Args) (c : Ctx) (o : Outcome) (hc : c.ceilingInForce) :
    case_41_18 a c = some o → o.ceilingInForce := by
  have hk : ∀ K, (KEY K c).ceilingInForce := fun K => (ceiling_KEY K c).mpr hc
  unfold case_41_18
  split
  all_goals first
    | with_reducible exact ceiling_VALUE_u8 _ _ _ (ceiling_HATEMP _ (ceiling_CAT_TEMP _))
    | with_reducible exact ceiling_VALUE_u8 _ _ _ (hk _)
    | with_reducible exact ceiling_RETURN0 _ _ hc
    | with_reducible exact ceiling_UNKNOWN_BYTE _ _ _ hc
    | (split <;> first
        | with_reducible exact ceiling_BITBASIS _ _ _ hc
        | with_reducible exact ceiling_VALUE_flag8 _ _ _ (hk _)
        | with_reducible exact ceiling_UNKNOWN_BIT _ _ _ hc)

/-- For the three sources whose cases are in the file, the ceiling that a call
of `bytesbits2keyvalue` leaves in force belongs to the `CAT_*` macros it
executed. -/
theorem ceiling_bytesbits2keyvalue (pseudo : PseudoSwitch) (s : State) (key : Key)
    (value : List Char) (a : Args) (o : Outcome)
    (hsrc : a.packetSrc = 0x89 ∨ a.packetSrc = 0x21 ∨ a.packetSrc = 0x41)
    (h : bytesbits2keyvalue pseudo s key value a = some o) : o.ceilingInForce := by
  have hp := ceiling_preamble s key value a.packetSrc
  unfold bytesbits2keyvalue at h
  simp only at h
  by_cases h89 : a.packetSrc = 0x89
  · rw [if_pos h89] at h
    by_cases h2D : a.packetType = 0x2D
    · rw [if_pos h2D] at h
      exact ceiling_case_89_2D _ _ _ (ceiling_CAT_MEASUREMENT _) h
    · rw [if_neg h2D] at h
      by_cases h27 : a.packetType = 0x27
      · rw [if_pos h27] at h
        exact ceiling_case_89_27 _ _ _ (ceiling_CAT_MEASUREMENT _) h
      · rw [if_neg h27] at h
        exact ceiling_RETURN0 _ _ hp h
  · rw [if_neg h89] at h
    by_cases h21 : a.packetSrc = 0x21
    · rw [if_pos h21] at h
      by_cases h12 : a.packetType = 0x12
      · rw [if_pos h12] at h
        exact ceiling_case_21_12 _ _ _ (ceiling_CAT_SETTING _ hp) h
      · rw [if_neg h12] at h
        exact ceiling_RETURN0 _ _ hp h
    · rw [if_neg h21] at h
      by_cases h41 : a.packetSrc = 0x41
      · rw [if_pos h41] at h
        by_cases h18 : a.packetType = 0x18
        · rw [if_pos h18] at h
          exact ceiling_case_41_18 _ _ _ (ceiling_CAT_SETTING _ hp) h
        · rw [if_neg h18] at h
          exact ceiling_RETURN0 _ _ hp h
      · rcases hsrc with h | h | h <;> contradiction

/-- C9. Category precedence. For every key buffer: `CAT_PSEUDO2` followed by
`CAT_PSEUDO` leaves the category letter at `B`; `CAT_PSEUDO` on a key whose letter
is not `B`, the default `U` in particular, sets it to `A`; every other `CAT_*`
macro sets its own letter whatever the letter was. -/
theorem C9_category_precedence (c : Ctx) :
    (CAT_PSEUDO (CAT_PSEUDO2 c)).key.cat = 'B' ∧
    (c.key.cat ≠ 'B' → (CAT_PSEUDO c).key.cat = 'A') ∧
    (c.key.cat = 'U' → (CAT_PSEUDO c).key.cat = 'A') ∧
    (CAT_SETTING c).key.cat = 'S' ∧ (CAT_TEMP c).key.cat = 'T' ∧
    (CAT_MEASUREMENT c).key.cat = 'M' ∧ (CAT_COUNTER c).key.cat = 'C' ∧
    (CAT_PSEUDO2 c).key.cat = 'B' ∧ (CAT_TARGET c).key.cat = 'D' ∧
    (CAT_DAILYSTATS c).key.cat = 'R' ∧ (CAT_SCHEDULE c).key.cat = 'E' ∧
    (CAT_UNKNOWN c).key.cat = 'U' := by
  refine ⟨?_, ?_, ?_, rfl, rfl, rfl, rfl, rfl, rfl, rfl, rfl, rfl⟩
  · simp [CAT_PSEUDO, CAT_PSEUDO2]
  · intro h; simp [CAT_PSEUDO, h]
  · intro h; simp [CAT_PSEUDO, h]

/-- C9 (witness): the key as `bytesbits2keyvalue` has it in front of its first
switch, with the default letter `U`. -/
theorem C9_category_precedence_witness :
    (CAT_PSEUDO (CAT_PSEUDO2 (preamble startState plainPrefix [] 0x40))).key.cat = 'B' ∧
    (CAT_PSEUDO (preamble startState plainPrefix [] 0x40)).key.cat = 'A' ∧
    (CAT_PSEUDO (preamble startState plainPrefix [] 0x40)).key.cat = 'A' ∧
    (CAT_TEMP (preamble startState plainPrefix [] 0x40)).key.cat = 'T' :=
  ⟨(C9_category_precedence (preamble startState plainPrefix [] 0x40)).1,
   (C9_category_precedence (preamble startState plainPrefix [] 0x40)).2.1 (by decide),
   (C9_category_precedence (preamble startState plainPrefix [] 0x40)).2.2.1 (by decide),
   (C9_category_precedence (preamble startState plainPrefix [] 0x40)).2.2.2.2.1⟩

/-! ## Byte order of the unsigned decoders -/

/-- A read at or behind the start of the payload. -/
theorem rdPayload_back (payload : Nat → Nat) (payloadIndex k : Nat) (h : k ≤ payloadIndex) :
    rdPayload payload payloadIndex (-(k : Int)) = some (payload (payloadIndex - k)) := by
  unfold rdPayload
  have h0 : (0 : Int) ≤ (payloadIndex : Int) + -(k : Int) := by omega
  have h1 : ((payloadIndex : Int) + -(k : Int)).toNat = payloadIndex - k := by omega
  rw [if_pos h0, h1]

theorem or_low_8 (a b : Nat) (hb : b < 256) : (256 * a) ||| b = 256 * a + b := by
  have h := @Nat.mul_add_lt_is_or 8 b (by norm_num; exact hb) a
  norm_num at h
  exact h.symm

theorem or_low_16 (a b : Nat) (hb : b < 65536) : (65536 * a) ||| b = 65536 * a + b := by
  have h := @Nat.mul_add_lt_is_or 16 b (by norm_num; exact hb) a
  norm_num at h
  exact h.symm

theorem or_low_24 (a b : Nat) (hb : b < 16777216) :
    (16777216 * a) ||| b = 16777216 * a + b := by
  have h := @Nat.mul_add_lt_is_or 24 b (by norm_num; exact hb) a
  norm_num at h
  exact h.symm

theorem shiftLeft_8 (a : Nat) : a <<< 8 = 256 * a := by
  rw [Nat.shiftLeft_eq, Nat.mul_comm]

theorem shiftLeft_16 (a : Nat) : a <<< 16 = 65536 * a := by
  rw [Nat.shiftLeft_eq, Nat.mul_comm]

theorem shiftLeft_24 (a : Nat) : a <<< 24 = 16777216 * a := by
  rw [Nat.shiftLeft_eq, Nat.mul_comm]

theorem FN_u32_LE_value (payload : Nat → Nat) (payloadIndex : Nat)
    (hbytes : ∀ i, payload i < 256) (h : 3 ≤ payloadIndex) :
    FN_u32_LE payload payloadIndex
      = some (mostSignificantFirst
          [payload (payloadIndex - 3), payload (payloadIndex - 2), payload (payloadIndex - 1),
            payload payloadIndex]) := by
  have r3 := rdPayload_back payload payloadIndex 3 h
  have r2 := rdPayload_back payload payloadIndex 2 (by omega)
  have r1 := rdPayload_back payload payloadIndex 1 (by omega)
  have r0 := rdPayload_back payload payloadIndex 0 (Nat.zero_le _)
  simp only [Nat.cast_one, Nat.cast_zero, Nat.cast_ofNat, neg_zero, Nat.sub_zero] at r3 r2 r1 r0
  unfold FN_u32_LE
  rw [r3, r2, r1, r0]
  have b3 := hbytes (payloadIndex - 3)
  have b2 := hbytes (payloadIndex - 2)
  have b1 := hbytes (payloadIndex - 1)
  have b0 := hbytes payloadIndex
  simp only [mostSignificantFirst, List.foldl]
  have p32 : (2 : Nat) ^ 32 = 4294967296 := by norm_num
  rw [shiftLeft_24, shiftLeft_16, shiftLeft_8, p32]
  rw [Nat.mod_eq_of_lt (by omega : 16777216 * payload (payloadIndex - 3) < 4294967296)]
  rw [or_low_24 _ _ (by omega)]
  have g : 16777216 * payload (payloadIndex - 3) + 65536 * payload (payloadIndex - 2)
      = 65536 * (256 * payload (payloadIndex - 3) + payload (payloadIndex - 2)) := by omega
  rw [g, or_low_16 _ _ (by omega)]
  have g2 : 65536 * (256 * payload (payloadIndex - 3) + payload (payloadIndex - 2))
        + 256 * payload (payloadIndex - 1)
      = 256 * (256 * (256 * payload (payloadIndex - 3) + payload (payloadIndex - 2))
        + payload (payloadIndex - 1)) := by omega
  rw [g2, or_low_8 _ _ b0]
  congr 1
  norm_num
  omega

/-- What a decoder of the common shape has written when it returns 1. -/
theorem decodeWith_emitted (c : Ctx) (packetSrc packetType payloadIndex : Nat)
    (payload : Nat → Nat) (width : Nat) (t : List Char) (o : Outcome)
    (h : decodeWith c packetSrc packetType payloadIndex payload width (some t) = some o)
    (h1 : o.status = 1) : o.value = snprintf c.value o.st.MQTT_VALUE_LEN t := by
  unfold decodeWith at h
  cases hn : newPayloadBytesVal c.st packetSrc packetType payloadIndex payload c.haConfig width
      true with
  | none => rw [hn] at h; cases h
  | some r =>
    rw [hn] at h
    simp only at h
    by_cases hr : r.ret = false
    · rw [if_pos hr] at h; cases h; cases h1
    · rw [if_neg hr] at h; cases h; rfl

/-- With an upper bound below 255 the loop ends within the iterations that are
left, whatever the cache holds. -/
theorem bytesLoop_returns (bs pI : Nat) (payload : Nat → Nat) (ha : Nat) (sv : Bool)
    (hpI : pI < 255) :
    ∀ (n fuel i : Nat) (nb pub : Bool) (s : State), i + n = pI + 1 → n < fuel →
      ∃ r, bytesLoop bs pI payload ha sv fuel i nb pub s = some r := by
  intro n
  induction n with
  | zero =>
    intro fuel i nb pub s hi hf
    obtain ⟨f, rfl⟩ : ∃ f, fuel = f + 1 := ⟨fuel - 1, by omega⟩
    exact ⟨_, bytesLoop_exit _ _ _ _ _ _ _ _ _ _ (by omega)⟩
  | succ n ih =>
    intro fuel i nb pub s hi hf
    obtain ⟨f, rfl⟩ : ∃ f, fuel = f + 1 := ⟨fuel - 1, by omega⟩
    have hile : i ≤ pI := by omega
    have hnext : (i + 1) % 256 = i + 1 := by apply Nat.mod_eq_of_lt; omega
    rw [bytesLoop]
    simp only [hile, if_true, hnext]
    by_cases hr : (bs + i) % 65536 ≥ sizeValSeen
    · rw [if_pos hr]; exact ⟨_, rfl⟩
    · rw [if_neg hr]
      by_cases hseen : s.payloadByteSeen ((bs + i) % 65536) ≠ 0
      · rw [if_pos hseen]
        by_cases hval : s.payloadByteVal ((bs + i) % 65536) ≠ payload i
        · rw [if_pos hval]; exact ih f (i + 1) _ _ _ (by omega) (by omega)
        · rw [if_neg hval]; exact ih f (i + 1) _ _ _ (by omega) (by omega)
      · rw [if_neg hseen]
        cases sv
        · simp only [Bool.false_eq_true, if_false]
          exact ih f (i + 1) _ _ _ (by omega) (by omega)
        · simp only [if_true]
          exact ih f (i + 1) _ _ _ (by omega) (by omega)

/-- The byte path returns at every input. -/
theorem newPayloadBytesVal_total (s : State) (packetSrc packetType payloadIndex : Nat)
    (payload : Nat → Nat) (haConfig length : Nat) (saveSeen : Bool) :
    ∃ o, newPayloadBytesVal s packetSrc packetType payloadIndex payload haConfig length saveSeen
      = some o := by
  unfold newPayloadBytesVal
  simp only
  by_cases hpti : bytesPti packetType = 0xFF
  · rw [if_pos hpti]; exact ⟨_, rfl⟩
  · rw [if_neg hpti]
    obtain ⟨nb, bs, hnb, hbs⟩ := bytes_tables_defined packetSrc packetType hpti
    have h42 := nr_bytes_le _ _ _ hnb
    rw [hnb, hbs]
    simp only
    by_cases h1 : payloadIndex > nb
    · rw [if_pos h1]; exact ⟨_, rfl⟩
    · rw [if_neg h1]
      by_cases h2 : payloadIndex + 1 < length
      · rw [if_pos h2]; exact ⟨_, rfl⟩
      · rw [if_neg h2]
        have hmod : (payloadIndex + 1 - length) % 256 = payloadIndex + 1 - length := by
          apply Nat.mod_eq_of_lt; omega
        obtain ⟨r, hr⟩ := bytesLoop_returns bs payloadIndex payload haConfig saveSeen (by omega)
          length 256 (payloadIndex + 1 - length) (decide (s.outputFilter = 0)) false s
          (by omega) (by omega)
        rw [hmod, hr]
        obtain ⟨e, t⟩ := r
        cases e <;> exact ⟨_, rfl⟩

/-- A decoder of the common shape returns when its text is defined. -/
theorem decodeWith_total (c : Ctx) (packetSrc packetType payloadIndex : Nat)
    (payload : Nat → Nat) (width : Nat) (t : List Char) :
    ∃ o, decodeWith c packetSrc packetType payloadIndex payload width (some t) = some o := by
  obtain ⟨r, hr⟩ := newPayloadBytesVal_total c.st packetSrc packetType payloadIndex payload
    c.haConfig width true
  unfold decodeWith
  rw [hr]
  simp only
  by_cases h : r.ret = false
  · rw [if_pos h]; exact ⟨_, rfl⟩
  · rw [if_neg h]; exact ⟨_, rfl⟩

/-! ## The uptime mask -/

set_option maxRecDepth 100000 in
/-- The mask loop in closed form. -/
theorem uptimeMaskLoop_closed :
    ∀ b, b < 256 → uptimeMaskLoop b 256 0x01 = some
      (if b ≤ 1 then 1 else if b ≤ 3 then 3 else if b ≤ 7 then 7 else if b ≤ 15 then 15
       else if b ≤ 31 then 31 else if b ≤ 63 then 63 else if b ≤ 127 then 127 else 255) := by
  decide

/-- The closed form of the mask loop, used in the statements below. -/
theorem uptimeMask_zero (payload : Nat → Nat) (payloadIndex : Nat) (hidx : 3 ≤ payloadIndex)
    (h3 : payload (payloadIndex - 3) = 0) (h2 : payload (payloadIndex - 2) = 0) :
    uptimeMask payload payloadIndex = uptimeMaskLoop (payload (payloadIndex - 1)) 256 0x01 := by
  have r3 := rdPayload_back payload payloadIndex 3 hidx
  have r2 := rdPayload_back payload payloadIndex 2 (by omega)
  have r1 := rdPayload_back payload payloadIndex 1 (by omega)
  simp only [Nat.cast_one, Nat.cast_ofNat] at r3 r2 r1
  unfold uptimeMask
  rw [r3, r2, r1]
  simp only [h3, h2, if_true]

theorem uptimeMask_other (payload : Nat → Nat) (payloadIndex : Nat) (hidx : 3 ≤ payloadIndex)
    (h : ¬ (payload (payloadIndex - 3) = 0 ∧ payload (payloadIndex - 2) = 0)) :
    uptimeMask payload payloadIndex = some 0xFF := by
  have r3 := rdPayload_back payload payloadIndex 3 hidx
  have r2 := rdPayload_back payload payloadIndex 2 (by omega)
  simp only [Nat.cast_ofNat] at r3 r2
  unfold uptimeMask
  rw [r3, r2]
  simp only
  by_cases h3 : payload (payloadIndex - 3) = 0
  · rw [if_pos h3, if_neg (fun h2 => h ⟨h3, h2⟩)]
  · rw [if_neg h3]

/-- A mask `2 ^ k - 1` that the byte `b` does not exceed, while `b` exceeds the
next smaller one, is the smallest mask of that form that `b` does not exceed. -/
theorem mask_smallest (k b j : Nat) (hlow : k = 1 ∨ 2 ^ (k - 1) - 1 < b) (hj : 1 ≤ j)
    (hbj : b ≤ 2 ^ j - 1) : 2 ^ k - 1 ≤ 2 ^ j - 1 := by
  by_cases hjk : k ≤ j
  · exact Nat.sub_le_sub_right (Nat.pow_le_pow_right (by decide) hjk) 1
  · exfalso
    rcases hlow with h1 | h1
    · omega
    · have hle : 2 ^ j ≤ 2 ^ (k - 1) := Nat.pow_le_pow_right (by decide) (by omega)
      have : 2 ^ j - 1 ≤ 2 ^ (k - 1) - 1 := Nat.sub_le_sub_right hle 1
      omega

theorem uptimeMask_smallest (b m : Nat) (hb : b < 256)
    (hm : uptimeMaskLoop b 256 0x01 = some m) :
    ∃ k, 1 ≤ k ∧ m = 2 ^ k - 1 ∧ b ≤ m ∧ ∀ j, 1 ≤ j → b ≤ 2 ^ j - 1 → m ≤ 2 ^ j - 1 := by
  rw [uptimeMaskLoop_closed b hb] at hm
  have hm2 := Option.some.inj hm
  clear hm
  split_ifs at hm2 with c1 c3 c7 c15 c31 c63 c127
  · subst hm2
    refine ⟨1, by decide, by decide, c1, fun j hj hbj => ?_⟩
    have h := mask_smallest 1 b j (Or.inl rfl) hj hbj
    norm_num at h; omega
  · subst hm2
    refine ⟨2, by decide, by decide, c3, fun j hj hbj => ?_⟩
    have h := mask_smallest 2 b j (Or.inr (by norm_num; omega)) hj hbj
    norm_num at h; omega
  · subst hm2
    refine ⟨3, by decide, by decide, c7, fun j hj hbj => ?_⟩
    have h := mask_smallest 3 b j (Or.inr (by norm_num; omega)) hj hbj
    norm_num at h; omega
  · subst hm2
    refine ⟨4, by decide, by decide, c15, fun j hj hbj => ?_⟩
    have h := mask_smallest 4 b j (Or.inr (by norm_num; omega)) hj hbj
    norm_num at h; omega
  · subst hm2
    refine ⟨5, by decide, by decide, c31, fun j hj hbj => ?_⟩
    have h := mask_smallest 5 b j (Or.inr (by norm_num; omega)) hj hbj
    norm_num at h; omega
  · subst hm2
    refine ⟨6, by decide, by decide, c63, fun j hj hbj => ?_⟩
    have h := mask_smallest 6 b j (Or.inr (by norm_num; omega)) hj hbj
    norm_num at h; omega
  · subst hm2
    refine ⟨7, by decide, by decide, c127, fun j hj hbj => ?_⟩
    have h := mask_smallest 7 b j (Or.inr (by norm_num; omega)) hj hbj
    norm_num at h; omega
  · subst hm2
    refine ⟨8, by decide, by decide, by omega, fun j hj hbj => ?_⟩
    have h := mask_smallest 8 b j (Or.inr (by norm_num; omega)) hj hbj
    norm_num at h; omega

/-- The bits of the byte that `value_u32_LE_uptime` leaves at `payload[payloadIndex]`. -/
theorem uptimeCleared_bits (payload : Nat → Nat) (payloadIndex m : Nat)
    (hb : payload payloadIndex < 256) (j : Nat) :
    (uptimeCleared payload payloadIndex m payloadIndex).testBit j
      = ((payload payloadIndex).testBit j && !(m >>> 1).testBit j) := by
  unfold uptimeCleared
  rw [arrSet_same, Nat.testBit_and, Nat.testBit_xor, testBit_255]
  by_cases hj : j < 8
  · simp [hj]
  · have h8 : 8 ≤ j := by omega
    have hpow : 2 ^ 8 ≤ 2 ^ j := Nat.pow_le_pow_right (by decide : 0 < 2) h8
    have hlt : payload payloadIndex < 2 ^ j := Nat.lt_of_lt_of_le hb hpow
    rw [Nat.testBit_lt_two_pow hlt]
    simp

theorem uptimeCleared_byte (payload : Nat → Nat) (payloadIndex m : Nat)
    (hbytes : ∀ i, payload i < 256) : ∀ i, uptimeCleared payload payloadIndex m i < 256 := by
  intro i
  unfold uptimeCleared arrSet
  by_cases h : i = payloadIndex
  · rw [if_pos h]
    exact Nat.lt_of_le_of_lt Nat.and_le_left (hbytes payloadIndex)
  · rw [if_neg h]; exact hbytes i

/-- A payload made of a list of bytes holds bytes. -/
theorem payloadOf_byte (l : List Nat) (h : ∀ x ∈ l, x < 256) : ∀ i, payloadOf l i < 256 := by
  intro i
  unfold payloadOf
  by_cases hi : i < l.length
  · rw [List.getD_eq_getElem l 0 hi]
    exact h _ (List.getElem_mem hi)
  · rw [List.getD_eq_default l 0 (by omega)]
    decide

/-- C11. Uptime masking, for every payload of bytes and every window of four
bytes ending at `payloadIndex`. When `payload[i-3] = payload[i-2] = 0` the mask is
the smallest number `2 ^ k - 1` with `k >= 1` that is at least `payload[i-1]`;
otherwise it is 0xFF. The call returns, leaves `payload[i]` with the bits of
`mask >> 1` cleared and every other payload byte as it was, and when it
returns 1 it has written the decimal value of the four bytes so changed.
Bytes 0x00, 0x00, 0x0F, 0x07 give mask 0x0F, a last byte of 0x00 and the text
3840; bytes 0x00, 0x00, 0x00, 0x05 give mask 0x01, no bit cleared and the
text 5. -/
theorem C11_uptime_masking (payload : Nat → Nat) (payloadIndex : Nat)
    (hbytes : ∀ i, payload i < 256) (hidx : 3 ≤ payloadIndex) :
    (payload (payloadIndex - 3) = 0 → payload (payloadIndex - 2) = 0 →
      ∃ m k, uptimeMask payload payloadIndex = some m ∧ 1 ≤ k ∧ m = 2 ^ k - 1 ∧
        payload (payloadIndex - 1) ≤ m ∧
        ∀ j, 1 ≤ j → payload (payloadIndex - 1) ≤ 2 ^ j - 1 → m ≤ 2 ^ j - 1) ∧
    (¬ (payload (payloadIndex - 3) = 0 ∧ payload (payloadIndex - 2) = 0) →
      uptimeMask payload payloadIndex = some 0xFF) ∧
    (∀ c packetSrc packetType, ∃ m o,
      uptimeMask payload payloadIndex = some m ∧
      value_u32_LE_uptime c packetSrc packetType payloadIndex payload
        = some (o, uptimeCleared payload payloadIndex m) ∧
      (∀ j, (uptimeCleared payload payloadIndex m payloadIndex).testBit j
        = ((payload payloadIndex).testBit j && !(m >>> 1).testBit j)) ∧
      (∀ i, i ≠ payloadIndex → uptimeCleared payload payloadIndex m i = payload i) ∧
      (o.status = 1 → o.value = snprintf c.value o.st.MQTT_VALUE_LEN
        (fmt_u (16777216 * payload (payloadIndex - 3) + 65536 * payload (payloadIndex - 2)
          + 256 * payload (payloadIndex - 1)
          + uptimeCleared payload payloadIndex m payloadIndex)))) ∧
    (uptimeMask (payloadOf [0x00, 0x00, 0x0F, 0x07]) 3 = some 0x0F ∧
      uptimeCleared (payloadOf [0x00, 0x00, 0x0F, 0x07]) 3 0x0F 3 = 0x00 ∧
      (value_u32_LE_uptime (preamble startState plainPrefix [] 0x21) 0x21 0x12 3
        (payloadOf [0x00, 0x00, 0x0F, 0x07])).map (fun r => (r.1.status, r.1.value))
        = some (1, "3840".toList)) ∧
    (uptimeMask (payloadOf [0x00, 0x00, 0x00, 0x05]) 3 = some 0x01 ∧
      uptimeCleared (payloadOf [0x00, 0x00, 0x00, 0x05]) 3 0x01 3 = 0x05 ∧
      (value_u32_LE_uptime (preamble startState plainPrefix [] 0x21) 0x21 0x12 3
        (payloadOf [0x00, 0x00, 0x00, 0x05])).map (fun r => (r.1.status, r.1.value))
        = some (1, "5".toList)) := by
  have hmask : ∃ m, uptimeMask payload payloadIndex = some m := by
    by_cases h : payload (payloadIndex - 3) = 0 ∧ payload (payloadIndex - 2) = 0
    · rw [uptimeMask_zero payload payloadIndex hidx h.1 h.2,
        uptimeMaskLoop_closed _ (hbytes _)]
      exact ⟨_, rfl⟩
    · exact ⟨_, uptimeMask_other payload payloadIndex hidx h⟩
  refine ⟨fun h3 h2 => ?_, uptimeMask_other payload payloadIndex hidx, fun c packetSrc packetType => ?_,
    by decide, by decide⟩
  · obtain ⟨m, hm⟩ := hmask
    have hm2 := hm
    rw [uptimeMask_zero payload payloadIndex hidx h3 h2] at hm2
    obtain ⟨k, hk⟩ := uptimeMask_smallest _ m (hbytes _) hm2
    exact ⟨m, k, hm, hk⟩
  · obtain ⟨m, hm⟩ := hmask
    have hcb := uptimeCleared_byte payload payloadIndex m hbytes
    have hfn := FN_u32_LE_value (uptimeCleared payload payloadIndex m) payloadIndex hcb hidx
    have hother : ∀ i, i ≠ payloadIndex → uptimeCleared payload payloadIndex m i = payload i :=
      fun i hi => arrSet_other _ _ _ _ hi
    obtain ⟨o, ho⟩ := decodeWith_total c packetSrc packetType payloadIndex
      (uptimeCleared payload payloadIndex m) 4
      (fmt_u (mostSignificantFirst
        [uptimeCleared payload payloadIndex m (payloadIndex - 3),
          uptimeCleared payload payloadIndex m (payloadIndex - 2),
          uptimeCleared payload payloadIndex m (payloadIndex - 1),
          uptimeCleared payload payloadIndex m payloadIndex]))
    have hcall : value_u32_LE_uptime c packetSrc packetType payloadIndex payload
        = some (o, uptimeCleared payload payloadIndex m) := by
      unfold value_u32_LE_uptime
      rw [hm]
      simp only [hfn, Option.map_some', ho]
    refine ⟨m, o, hm, hcall, uptimeCleared_bits payload payloadIndex m (hbytes _), hother, ?_⟩
    intro h1
    rw [decodeWith_emitted _ _ _ _ _ _ _ _ ho h1, hother _ (by omega), hother _ (by omega),
      hother _ (by omega)]
    congr 2
    simp only [mostSignificantFirst, List.foldl]
    omega

/-- C11 (witness): the window 0x00, 0x00, 0x0F, 0x07 at index 3. -/
theorem C11_uptime_masking_witness :
    ∃ m k, uptimeMask (payloadOf [0x00, 0x00, 0x0F, 0x07]) 3 = some m ∧ 1 ≤ k ∧ m = 2 ^ k - 1 ∧
      payloadOf [0x00, 0x00, 0x0F, 0x07] (3 - 1) ≤ m ∧
      ∀ j, 1 ≤ j → payloadOf [0x00, 0x00, 0x0F, 0x07] (3 - 1) ≤ 2 ^ j - 1 → m ≤ 2 ^ j - 1 :=
  (C11_uptime_masking (payloadOf [0x00, 0x00, 0x0F, 0x07]) 3
    (payloadOf_byte _ (by decide)) (by decide)).1 (by decide) (by decide)

/-! ## Signed decoders and the sign-magnitude nibble -/

theorem and_15_le (b : Nat) : b &&& 0x0F ≤ 15 := Nat.and_le_right

theorem int8_small (n : Nat) (h : n ≤ 15) : int8 n = (n : Int) := by
  unfold int8
  rw [Nat.mod_eq_of_lt (by omega), if_pos (by omega)]

/-- C15. Sign-magnitude nibble. For every byte `b`, `FN_s4abs1c` returns
`m = b & 0x0F` when bit 4 of `b` is clear and `-m` when it is set; the bits 5..7
do not matter, and the result lies in -15..15. The byte 0x94 gives -4, which
`value_s4abs1c` writes when it returns 1. -/
theorem C15_sign_magnitude_nibble (b : Nat) :
    (b &&& 0x10 = 0 → FN_s4abs1c b = ((b &&& 0x0F : Nat) : Int)) ∧
    (b &&& 0x10 ≠ 0 → FN_s4abs1c b = -((b &&& 0x0F : Nat) : Int)) ∧
    FN_s4abs1c (b &&& 0x1F) = FN_s4abs1c b ∧
    -15 ≤ FN_s4abs1c b ∧ FN_s4abs1c b ≤ 15 ∧
    FN_s4abs1c 0x94 = -4 ∧
    (value_s4abs1c (preamble startState plainPrefix [] 0x89) 0x89 0x2D 7
      (payloadOf [0, 0, 0, 0, 0, 0, 0, 0x94])).map (fun o => (o.status, o.value))
      = some (1, "-4".toList) := by
  have hle := and_15_le b
  have hc := int8_small _ hle
  have hneg : toInt8 (-((b &&& 0x0F : Nat) : Int)) = -((b &&& 0x0F : Nat) : Int) := by
    unfold toInt8; omega
  have hclear : b &&& 0x10 = 0 → FN_s4abs1c b = ((b &&& 0x0F : Nat) : Int) := by
    intro h
    unfold FN_s4abs1c
    simp only [h, ne_eq, not_true_eq_false, if_false, hc]
  have hset : b &&& 0x10 ≠ 0 → FN_s4abs1c b = -((b &&& 0x0F : Nat) : Int) := by
    intro h
    unfold FN_s4abs1c
    simp only [h, ne_eq, not_false_eq_true, if_true, hc, hneg]
  have h1 : (b &&& 0x1F) &&& 0x0F = b &&& 0x0F := by
    rw [Nat.and_assoc]; rfl
  have h2 : (b &&& 0x1F) &&& 0x10 = b &&& 0x10 := by
    rw [Nat.and_assoc]; rfl
  refine ⟨hclear, hset, ?_, ?_, ?_, by decide, by decide⟩
  · unfold FN_s4abs1c
    rw [h1, h2]
  · by_cases h : b &&& 0x10 = 0
    · rw [hclear h]; omega
    · rw [hset h]; omega
  · by_cases h : b &&& 0x10 = 0
    · rw [hclear h]; omega
    · rw [hset h]; omega

/-- C15 (witness): the bytes 0x94 (bit 4 set) and 0x65 (bit 4 clear). -/
theorem C15_sign_magnitude_nibble_witness :
    FN_s4abs1c 0x94 = -((0x94 &&& 0x0F : Nat) : Int) ∧
    FN_s4abs1c 0x65 = ((0x65 &&& 0x0F : Nat) : Int) :=
  ⟨(C15_sign_magnitude_nibble 0x94).2.1 (by decide), (C15_sign_magnitude_nibble 0x65).1 (by decide)⟩

/-! ## Fixed-point decoders -/

/-- An invocation whose incremented counter is not 0 returns 0 and changes
nothing but the counter. -/
theorem value_s8_ratelimited_skip (c : Ctx) (packetSrc packetType payloadIndex : Nat)
    (payload : Nat → Nat) (h : (c.st.RSSIcnt + 1) % 256 ≠ 0) :
    value_s8_ratelimited c packetSrc packetType payloadIndex payload
      = some ⟨0, c.key, c.value, { c.st with RSSIcnt := (c.st.RSSIcnt + 1) % 256 }, false,
          c.catLog⟩ := by
  unfold value_s8_ratelimited
  simp only [h, ne_eq, not_false_eq_true, if_true, Ctx.leave]

/-- An invocation whose incremented counter is 0 is `value_s8` with the counter
at 0. -/
theorem value_s8_ratelimited_pass (c : Ctx) (packetSrc packetType payloadIndex : Nat)
    (payload : Nat → Nat) (h : (c.st.RSSIcnt + 1) % 256 = 0) :
    value_s8_ratelimited c packetSrc packetType payloadIndex payload
      = value_s8 { c with st := { c.st with RSSIcnt := 0 } } packetSrc packetType payloadIndex
          payload := by
  unfold value_s8_ratelimited
  simp only [h, ne_eq, not_true_eq_false, if_false]

/-- A decoder of the common shape leaves the settings alone. -/
theorem decodeWith_settings (c : Ctx) (packetSrc packetType payloadIndex : Nat)
    (payload : Nat → Nat) (width : Nat) (text : Option (List Char)) (o : Outcome)
    (h : decodeWith c packetSrc packetType payloadIndex payload width text = some o) :
    sameSettings c.st o.st := by
  unfold decodeWith at h
  cases hn : newPayloadBytesVal c.st packetSrc packetType payloadIndex payload c.haConfig width
      true with
  | none => rw [hn] at h; cases h
  | some r =>
    rw [hn] at h
    have hs := newPayloadBytesVal_settings _ _ _ _ _ _ _ _ _ hn
    simp only at h
    by_cases hr : r.ret = false
    · rw [if_pos hr] at h; cases h; exact hs
    · rw [if_neg hr] at h
      cases text with
      | none => cases h
      | some t => cases h; exact hs

/-- The run from a counter `cnt`: it returns, and invocation number `k` (from 0)
is evaluated exactly when `cnt + 1 + k` is a multiple of 256. -/
theorem rateLimitedRun_from (invs : List Invocation) :
    ∀ (s : State) (cnt : Nat), s.RSSIcnt = cnt → cnt < 256 →
      ∃ tr, rateLimitedRun invs s = some tr ∧ tr.length = invs.length ∧
        ∀ k sk ok v, tr[k]? = some (sk, ok) → invs[k]? = some v →
          ((cnt + 1 + k) % 256 = 0 →
            some ok = value_s8 (v.ctx { sk with RSSIcnt := 0 }) v.packetSrc v.packetType
              v.payloadIndex v.payload) ∧
          ((cnt + 1 + k) % 256 ≠ 0 →
            ok.status = 0 ∧ ok.value = v.value ∧ ok.published = false ∧
            ok.st.payloadByteVal = sk.payloadByteVal ∧
            ok.st.payloadByteSeen = sk.payloadByteSeen) := by
  induction invs with
  | nil =>
    intro s cnt _ _
    exact ⟨[], rfl, rfl, fun k sk ok v h => by simp at h⟩
  | cons v rest ih =>
    intro s cnt hs hc
    by_cases hz : (cnt + 1) % 256 = 0
    · have hpass := value_s8_ratelimited_pass (v.ctx s) v.packetSrc v.packetType v.payloadIndex
        v.payload (by show (s.RSSIcnt + 1) % 256 = 0; rw [hs]; exact hz)
      obtain ⟨o, ho⟩ := decodeWith_total { v.ctx s with st := { s with RSSIcnt := 0 } }
        v.packetSrc v.packetType v.payloadIndex v.payload 1
        (fmt_i (int8 (v.payload v.payloadIndex)))
      have hset := decodeWith_settings _ _ _ _ _ _ _ _ ho
      have hcnt : o.st.RSSIcnt = 0 := hset.2.2.2.2.1
      obtain ⟨tr, htr, hlen, hall⟩ := ih o.st 0 hcnt (by decide)
      have hv : value_s8_ratelimited (v.ctx s) v.packetSrc v.packetType v.payloadIndex v.payload
          = some o := by rw [hpass]; exact ho
      refine ⟨(s, o) :: tr, ?_, by simp [hlen], ?_⟩
      · simp only [rateLimitedRun, hv, htr]
      · intro k sk ok w hk hw
        cases k with
        | zero =>
          simp only [List.getElem?_cons_zero, Option.some.injEq, Prod.mk.injEq] at hk hw
          obtain ⟨rfl, rfl⟩ := hk
          subst hw
          refine ⟨fun _ => ho.symm, fun hne => ?_⟩
          exact absurd hz hne
        | succ k =>
          simp only [List.getElem?_cons_succ] at hk hw
          have h := hall k sk ok w hk hw
          have e : (cnt + 1 + (k + 1)) % 256 = (0 + 1 + k) % 256 := by omega
          rw [e]
          exact h
    · have hskip : value_s8_ratelimited (v.ctx s) v.packetSrc v.packetType v.payloadIndex
          v.payload
          = some ⟨0, v.key, v.value, { s with RSSIcnt := (s.RSSIcnt + 1) % 256 }, false, []⟩ :=
        value_s8_ratelimited_skip (v.ctx s) v.packetSrc v.packetType v.payloadIndex
          v.payload (by show (s.RSSIcnt + 1) % 256 ≠ 0; rw [hs]; exact hz)
      obtain ⟨tr, htr, hlen, hall⟩ := ih { s with RSSIcnt := (s.RSSIcnt + 1) % 256 } (cnt + 1)
        (by show (s.RSSIcnt + 1) % 256 = cnt + 1; rw [hs]; omega) (by omega)
      refine ⟨(s, ⟨0, v.key, v.value, { s with RSSIcnt := (s.RSSIcnt + 1) % 256 }, false, []⟩)
        :: tr, ?_, by simp [hlen], ?_⟩
      · simp only [rateLimitedRun, hskip, htr]
      · intro k sk ok w hk hw
        cases k with
        | zero =>
          simp only [List.getElem?_cons_zero, Option.some.injEq, Prod.mk.injEq] at hk hw
          obtain ⟨rfl, rfl⟩ := hk
          subst hw
          refine ⟨fun h0 => absurd h0 hz, fun _ => ⟨rfl, rfl, rfl, rfl, rfl⟩⟩
        | succ k =>
          simp only [List.getElem?_cons_succ] at hk hw
          have h := hall k sk ok w hk hw
          have e : (cnt + 1 + (k + 1)) % 256 = (cnt + 1 + 1 + k) % 256 := by omega
          rw [e]
          exact h

/-- C16. Rate-limited signed-8. In every sequence of invocations of
`value_s8_ratelimited` that starts with `RSSIcnt = 0xFF`, whatever the arguments of
each invocation, every invocation returns; invocation number `k`, counted from
0, is evaluated exactly when `k` is a multiple of 256 (the 1st, 257th, 513th,
...), and then it is `value_s8` on the globals it found, with the counter at 0;
every other invocation returns 0, writes no value, publishes nothing and
leaves the observation cache as it found it. -/
theorem C16_rate_limited (invs : List Invocation) (s : State) (h : s.RSSIcnt = 0xFF) :
    ∃ tr, rateLimitedRun invs s = some tr ∧ tr.length = invs.length ∧
      ∀ k sk ok v, tr[k]? = some (sk, ok) → invs[k]? = some v →
        (k % 256 = 0 →
          some ok = value_s8 (v.ctx { sk with RSSIcnt := 0 }) v.packetSrc v.packetType
            v.payloadIndex v.payload) ∧
        (k % 256 ≠ 0 →
          ok.status = 0 ∧ ok.value = v.value ∧ ok.published = false ∧
          ok.st.payloadByteVal = sk.payloadByteVal ∧
          ok.st.payloadByteSeen = sk.payloadByteSeen) := by
  obtain ⟨tr, htr, hlen, hall⟩ := rateLimitedRun_from invs s 0xFF h (by decide)
  refine ⟨tr, htr, hlen, fun k sk ok v hk hv => ?_⟩
  have hk2 := hall k sk ok v hk hv
  have e : (0xFF + 1 + k) % 256 = k % 256 := by omega
  rw [e] at hk2
  exact hk2

/-- C16 (witness): two invocations at source 0x89, type 0x2D, index 7 from the
globals at process start. -/
theorem C16_rate_limited_witness :
    ∃ tr, rateLimitedRun
        [⟨plainPrefix, [], 1, 0x89, 0x2D, 7, payloadOf [0, 0, 0, 0, 0, 0, 0, 0x14]⟩,
         ⟨plainPrefix, [], 1, 0x89, 0x2D, 7, payloadOf [0, 0, 0, 0, 0, 0, 0, 0x15]⟩]
        startState = some tr ∧
      tr.length =
        [(⟨plainPrefix, [], 1, 0x89, 0x2D, 7, payloadOf [0, 0, 0, 0, 0, 0, 0, 0x14]⟩ : Invocation),
         ⟨plainPrefix, [], 1, 0x89, 0x2D, 7, payloadOf [0, 0, 0, 0, 0, 0, 0, 0x15]⟩].length ∧
      ∀ k sk ok v, tr[k]? = some (sk, ok) →
        [(⟨plainPrefix, [], 1, 0x89, 0x2D, 7, payloadOf [0, 0, 0, 0, 0, 0, 0, 0x14]⟩ : Invocation),
         ⟨plainPrefix, [], 1, 0x89, 0x2D, 7, payloadOf [0, 0, 0, 0, 0, 0, 0, 0x15]⟩][k]? = some v →
        (k % 256 = 0 →
          some ok = value_s8 (v.ctx { sk with RSSIcnt := 0 }) v.packetSrc v.packetType
            v.payloadIndex v.payload) ∧
        (k % 256 ≠ 0 →
          ok.status = 0 ∧ ok.value = v.value ∧ ok.published = false ∧
          ok.st.payloadByteVal = sk.payloadByteVal ∧
          ok.st.payloadByteSeen = sk.payloadByteSeen) :=
  C16_rate_limited
    [⟨plainPrefix, [], 1, 0x89, 0x2D, 7, payloadOf [0, 0, 0, 0, 0, 0, 0, 0x14]⟩,
     ⟨plainPrefix, [], 1, 0x89, 0x2D, 7, payloadOf [0, 0, 0, 0, 0, 0, 0, 0x15]⟩]
    startState (by decide)

/-! ## Caller-supplied values, length mismatch and the always-new fallback -/

/-- C17 (counterexample). `value_s` and `value_f` called without a width
(`length = 0`) at source 0x89, type 0x2D, index 7, where slot 147 is seen with the
incoming value 0x14 and `outputFilter = 1`: the cache, consulted at the default
width 1, reports no change, yet both decoders return 1 and write the value. -/
theorem C17_verdict_dropped_without_width :
    (newPayloadBytesVal seenCtx.st 0x89 0x2D 7 (payloadOf [0, 0, 0, 0, 0, 0, 0, 0x14])
      seenCtx.haConfig 1 true).map (fun o => o.ret) = some false ∧
    (value_s seenCtx 0x89 0x2D 7 (payloadOf [0, 0, 0, 0, 0, 0, 0, 0x14]) 33 0).map
      (fun o => (o.status, o.value)) = some (1, "33".toList) ∧
    (value_f seenCtx 0x89 0x2D 7 (payloadOf [0, 0, 0, 0, 0, 0, 0, 0x14]) (11 / 2) 0).map
      (fun o => o.status) = some 1 := by
  decide

/-- C17 (amended). Caller-supplied numeric decoders, for the formatted text of
`value_f` or `value_s`. With a width given (`length` not 0) the cache is consulted
at that width, and if it reports no reportable change the decoder returns 0
and writes nothing. With no width given (`length = 0`) the cache is consulted,
and updated, at the default width 1, but what it reports is not used: the
decoder writes the value and returns 0 exactly when
`outputFilter > maxOutputFilter`, and 1 otherwise. -/
theorem C17_caller_supplied (c : Ctx) (packetSrc packetType payloadIndex : Nat)
    (payload : Nat → Nat) (v : ℚ) (w : Int) (length : Nat) :
    (length ≠ 0 →
      ∀ r, newPayloadBytesVal c.st packetSrc packetType payloadIndex payload c.haConfig
          (length % 256) true = some r → r.ret = false →
        (∃ o, value_f c packetSrc packetType payloadIndex payload v length = some o ∧
          o.status = 0 ∧ o.value = c.value ∧ o.st = r.st) ∧
        (∃ o, value_s c packetSrc packetType payloadIndex payload w length = some o ∧
          o.status = 0 ∧ o.value = c.value ∧ o.st = r.st)) ∧
    (length = 0 →
      ∃ r, newPayloadBytesVal c.st packetSrc packetType payloadIndex payload c.haConfig 1 true
          = some r ∧
        (∃ o, value_f c packetSrc packetType payloadIndex payload v length = some o ∧
          o.st = r.st ∧ o.value = snprintf c.value c.st.MQTT_VALUE_LEN (fmt_f 3 v) ∧
          o.status = if c.st.outputFilter > c.st.maxOutputFilter then 0 else 1) ∧
        (∃ o, value_s c packetSrc packetType payloadIndex payload w length = some o ∧
          o.st = r.st ∧ o.value = snprintf c.value c.st.MQTT_VALUE_LEN (fmt_i w) ∧
          o.status = if c.st.outputFilter > c.st.maxOutputFilter then 0 else 1)) := by
  constructor
  · intro hl r hr hret
    constructor
    · refine ⟨c.leave 0 c.value r.st r.published, ?_, rfl, rfl, rfl⟩
      unfold value_f valueSupplied
      rw [if_pos hl, hr]
      simp only [hret, if_true]
    · refine ⟨c.leave 0 c.value r.st r.published, ?_, rfl, rfl, rfl⟩
      unfold value_s valueSupplied
      rw [if_pos hl, hr]
      simp only [hret, if_true]
  · intro hl
    obtain ⟨r, hr⟩ := newPayloadBytesVal_total c.st packetSrc packetType payloadIndex payload
      c.haConfig 1 true
    have hs := newPayloadBytesVal_settings _ _ _ _ _ _ _ _ _ hr
    have hfs : filterStatus r.st = if c.st.outputFilter > c.st.maxOutputFilter then 0 else 1 := by
      unfold filterStatus; rw [hs.1, hs.2.1]
    have hlen : r.st.MQTT_VALUE_LEN = c.st.MQTT_VALUE_LEN := hs.2.2.2.2.2.2.2.2
    refine ⟨r, hr, ?_, ?_⟩
    · refine ⟨c.leave (filterStatus r.st) (snprintf c.value r.st.MQTT_VALUE_LEN (fmt_f 3 v)) r.st
        r.published, ?_, rfl, ?_, hfs⟩
      · unfold value_f valueSupplied
        rw [if_neg (by simp [hl]), hr]
      · show snprintf c.value r.st.MQTT_VALUE_LEN (fmt_f 3 v) = _
        rw [hlen]
    · refine ⟨c.leave (filterStatus r.st) (snprintf c.value r.st.MQTT_VALUE_LEN (fmt_i w)) r.st
        r.published, ?_, rfl, ?_, hfs⟩
      · unfold value_s valueSupplied
        rw [if_neg (by simp [hl]), hr]
      · show snprintf c.value r.st.MQTT_VALUE_LEN (fmt_i w) = _
        rw [hlen]

/-- C17 (witness): a width of 1 and no width, at the seen and unchanged slot
147. -/
theorem C17_caller_supplied_witness :
    (∃ o, value_s seenCtx 0x89 0x2D 7 (payloadOf [0, 0, 0, 0, 0, 0, 0, 0x14]) 33 1 = some o ∧
      o.status = 0 ∧ o.value = seenCtx.value ∧ o.st = seenCtx.st) ∧
    (∃ r, newPayloadBytesVal seenCtx.st 0x89 0x2D 7 (payloadOf [0, 0, 0, 0, 0, 0, 0, 0x14])
        seenCtx.haConfig 1 true = some r ∧
      ∃ o, value_s seenCtx 0x89 0x2D 7 (payloadOf [0, 0, 0, 0, 0, 0, 0, 0x14]) 33 0 = some o ∧
        o.st = r.st ∧ o.value = snprintf seenCtx.value seenCtx.st.MQTT_VALUE_LEN (fmt_i 33) ∧
        o.status = if seenCtx.st.outputFilter > seenCtx.st.maxOutputFilter then 0 else 1) :=
  ⟨((C17_caller_supplied seenCtx 0x89 0x2D 7 (payloadOf [0, 0, 0, 0, 0, 0, 0, 0x14]) 0 33 1).1
      (by decide) ⟨false, seenCtx.st, false⟩
      (newPayloadBytesVal_stable seenCtx.st 0x89 0x2D 7 (payloadOf [0, 0, 0, 0, 0, 0, 0, 0x14])
        seenCtx.haConfig 1 42 140 true (by decide) (by decide) (by decide) (by decide)
        (by decide) (by decide)
        (fun j h1 h2 => by
          have : j = 7 := by omega
          subst this
          decide))
      rfl).2,
   let h := (C17_caller_supplied seenCtx 0x89 0x2D 7 (payloadOf [0, 0, 0, 0, 0, 0, 0, 0x14]) 0 33
      0).2 rfl
   ⟨h.choose, h.choose_spec.1, h.choose_spec.2.2⟩⟩

/-- C18 (evaluation at the failing inputs). With `haConfig` set and the empty
cache: for the unmapped type 0x30 at index 0, `newPayloadBytesVal` at width 2
returns true without reaching the length check, so `value_u16_LE` goes on to read
`payload[-1]`, a position before the payload, and has no defined result; the
same happens to `value_u24_LE` at source 0x40, type 0x0C, index 1, which lies
beyond the expected length 0. For the mapped type 0x12 at index 0 the length
check is reached and `value_u16_LE` returns 0. -/
theorem C18_read_before_payload :
    bytesPti 0x30 = 0xFF ∧
    (newPayloadBytesVal startState 0x89 0x30 0 (payloadOf [0x12]) 1 2 true).map
      (fun o => o.ret) = some true ∧
    rdPayload (payloadOf [0x12]) 0 (-1) = none ∧
    (value_u16_LE (preamble startState plainPrefix [] 0x89) 0x89 0x30 0
      (payloadOf [0x12])).isNone = true ∧
    nr_bytes (bytesPts 0x40) (bytesPti 0x0C) = some 0 ∧
    (newPayloadBytesVal startState 0x40 0x0C 1 (payloadOf [0x12, 0x34]) 1 3 true).map
      (fun o => o.ret) = some true ∧
    (value_u24_LE (preamble startState plainPrefix [] 0x40) 0x40 0x0C 1
      (payloadOf [0x12, 0x34])).isNone = true ∧
    (value_u16_LE (preamble startState plainPrefix [] 0x21) 0x21 0x12 0
      (payloadOf [0x12])).map (fun o => o.status) = some 0 := by
  decide

/-- C19. Always-new fallback. For every call of `newPayloadBytesVal` whose type
byte is not mapped (`pti = 0xFF`) or whose `payloadIndex` exceeds
`nr_bytes[pts][pti]`, for every cache, filter setting, width and `saveSeen`: the
call returns, the globals and with them both cache arrays are exactly as
before, nothing is published, and the result is true whenever `haConfig` or the
0x10000 bit of `outputMode` is set. -/
theorem C19_always_new_fallback (s : State) (packetSrc packetType payloadIndex : Nat)
    (payload : Nat → Nat) (haConfig length : Nat) (saveSeen : Bool)
    (h : bytesPti packetType = 0xFF ∨
      ∃ nb, nr_bytes (bytesPts packetSrc) (bytesPti packetType) = some nb ∧ payloadIndex > nb) :
    ∃ o, newPayloadBytesVal s packetSrc packetType payloadIndex payload haConfig length saveSeen
        = some o ∧
      o.st = s ∧ o.published = false ∧
      (haConfig ≠ 0 ∨ s.outputMode &&& 0x10000 ≠ 0 → o.ret = true) := by
  have hret : haConfig ≠ 0 ∨ s.outputMode &&& 0x10000 ≠ 0 → reportable s haConfig true = true := by
    intro h
    unfold reportable
    rcases h with h | h <;> simp [h]
  by_cases hpti : bytesPti packetType = 0xFF
  · refine ⟨⟨reportable s haConfig true, s, false⟩, ?_, rfl, rfl, hret⟩
    unfold newPayloadBytesVal
    simp only [hpti, if_true]
  · rcases h with h | ⟨nb, hnb, hgt⟩
    · exact absurd h hpti
    · obtain ⟨nb2, bs, hnb2, hbs⟩ := bytes_tables_defined packetSrc packetType hpti
      refine ⟨⟨reportable s haConfig true, s, false⟩, ?_, rfl, rfl, hret⟩
      unfold newPayloadBytesVal
      simp only [hpti, if_false, hnb, hbs, hgt, if_true]

/-- C19 (witness): the unmapped type 0x30, and index 43 of type 0x2D, whose
layout has 42 bytes. -/
theorem C19_always_new_fallback_witness :
    (∃ o, newPayloadBytesVal filteredState 0x89 0x30 5 (payloadOf [1, 2, 3, 4, 5, 6]) 1 1 true
        = some o ∧
      o.st = filteredState ∧ o.published = false ∧
      ((1 : Nat) ≠ 0 ∨ filteredState.outputMode &&& 0x10000 ≠ 0 → o.ret = true)) ∧
    (∃ o, newPayloadBytesVal filteredState 0x89 0x2D 43 (fun _ => 7) 1 2 true = some o ∧
      o.st = filteredState ∧ o.published = false ∧
      ((1 : Nat) ≠ 0 ∨ filteredState.outputMode &&& 0x10000 ≠ 0 → o.ret = true)) :=
  ⟨C19_always_new_fallback filteredState 0x89 0x30 5 (payloadOf [1, 2, 3, 4, 5, 6]) 1 1 true
      (Or.inl (by decide)),
   C19_always_new_fallback filteredState 0x89 0x2D 43 (fun _ => 7) 1 2 true
      (Or.inr ⟨42, by decide, by decide⟩)⟩

/-- C20 (evaluation at the failing input). The two-byte range at indices 5..6 of
source 0x21, type 0x12 (slots 73 and 74), bytes 5 and 7, `haConfig` set,
`outputFilter = 2` above `maxOutputFilter = 1`. When slot 73 is unseen and slot 74
is seen with another value, the call returns false although a byte of the
range is unseen; with the two slots exchanged (73 seen with another value, 74
unseen) it returns true. The result depends on the order of the bytes. -/
theorem C20_aggregate_depends_on_order :
    nr_bytes (bytesPts 0x21) (bytesPti 0x12) = some 15 ∧
    bytestart (bytesPts 0x21) (bytesPti 0x12) = some 68 ∧
    (newPayloadBytesVal
      { filteredState with payloadByteSeen := arrSet filteredState.payloadByteSeen 74 0xFF }
      0x21 0x12 6 (payloadOf [0, 0, 0, 0, 0, 5, 7]) 1 2 true).map (fun o => o.ret)
      = some false ∧
    (newPayloadBytesVal
      { filteredState with payloadByteSeen := arrSet filteredState.payloadByteSeen 73 0xFF }
      0x21 0x12 6 (payloadOf [0, 0, 0, 0, 0, 5, 7]) 1 2 true).map (fun o => o.ret)
      = some true := by
  decide

/-! ## What a call may do to the cache -/

/-- A relation between globals that is reflexive, transitive and holds across
each of the two assignments of the slot loop holds across the loop. The loop
makes the assignments with `saveSeen` set only, and only to a slot inside the
arrays. -/
theorem bytesLoop_rel (R : State → State → Prop) (hrefl : ∀ s, R s s)
    (htrans : ∀ a b c, R a b → R b c → R a c)
    (bs pI : Nat) (payload : Nat → Nat) (ha : Nat) (sv : Bool)
    (hchg : sv = true → ∀ (s : State) (k v : Nat), k < sizeValSeen → s.payloadByteSeen k ≠ 0 →
      R s { s with payloadByteVal := arrSet s.payloadByteVal k v })
    (hnew : sv = true → ∀ (s : State) (k v : Nat), k < sizeValSeen → s.payloadByteSeen k = 0 →
      R s { s with payloadByteSeen := arrSet s.payloadByteSeen k 0xFF,
                   payloadByteVal := arrSet s.payloadByteVal k v }) :
    ∀ (fuel i : Nat) (nb pub : Bool) (s : State) (e : LoopExit) (t : State),
      bytesLoop bs pI payload ha sv fuel i nb pub s = some (e, t) → R s t := by
  intro fuel
  induction fuel with
  | zero => intro i nb pub s e t h; simp [bytesLoop] at h
  | succ f ih =>
    intro i nb pub s e t h
    rw [bytesLoop] at h
    by_cases hi : i ≤ pI
    · rw [if_pos hi] at h
      simp only at h
      by_cases hr : (bs + i) % 65536 ≥ sizeValSeen
      · rw [if_pos hr] at h; cases h; exact hrefl s
      · rw [if_neg hr] at h
        have hk : (bs + i) % 65536 < sizeValSeen := Nat.lt_of_not_ge hr
        by_cases hseen : s.payloadByteSeen ((bs + i) % 65536) ≠ 0
        · rw [if_pos hseen] at h
          by_cases hval : s.payloadByteVal ((bs + i) % 65536) ≠ payload i
          · rw [if_pos hval] at h
            cases sv
            · simp only [Bool.false_eq_true, if_false] at h
              exact ih _ _ _ _ _ _ h
            · simp only [if_true] at h
              have h2 := ih _ _ _ _ _ _ h
              exact htrans _ _ _ (hchg rfl s _ _ hk hseen) h2
          · rw [if_neg hval] at h
            exact ih _ _ _ _ _ _ h
        · rw [if_neg hseen] at h
          have hz : s.payloadByteSeen ((bs + i) % 65536) = 0 := by simpa using hseen
          cases sv
          · simp only [Bool.false_eq_true, if_false] at h
            exact ih _ _ _ _ _ _ h
          · simp only [if_true] at h
            have h2 := ih _ _ _ _ _ _ h
            exact htrans _ _ _ (hnew rfl s _ _ hk hz) h2
    · rw [if_neg hi] at h; cases h; exact hrefl s

/-- The relation of `bytesLoop_rel` holds across a call of the byte path. -/
theorem newPayloadBytesVal_rel (R : State → State → Prop) (hrefl : ∀ s, R s s)
    (htrans : ∀ a b c, R a b → R b c → R a c) (saveSeen : Bool)
    (hchg : saveSeen = true → ∀ (s : State) (k v : Nat), k < sizeValSeen →
      s.payloadByteSeen k ≠ 0 → R s { s with payloadByteVal := arrSet s.payloadByteVal k v })
    (hnew : saveSeen = true → ∀ (s : State) (k v : Nat), k < sizeValSeen →
      s.payloadByteSeen k = 0 →
      R s { s with payloadByteSeen := arrSet s.payloadByteSeen k 0xFF,
                   payloadByteVal := arrSet s.payloadByteVal k v })
    (s : State) (packetSrc packetType payloadIndex : Nat)
    (payload : Nat → Nat) (haConfig length : Nat) (o : Observed)
    (h : newPayloadBytesVal s packetSrc packetType payloadIndex payload haConfig length saveSeen
      = some o) : R s o.st := by
  unfold newPayloadBytesVal at h
  simp only at h
  by_cases hpti : bytesPti packetType = 0xFF
  · rw [if_pos hpti] at h; cases h; exact hrefl s
  · rw [if_neg hpti] at h
    cases hnb : nr_bytes (bytesPts packetSrc) (bytesPti packetType) with
    | none => rw [hnb] at h; cases h
    | some nb =>
      cases hbs : bytestart (bytesPts packetSrc) (bytesPti packetType) with
      | none => rw [hnb, hbs] at h; cases h
      | some bs =>
        rw [hnb, hbs] at h
        simp only at h
        by_cases h1 : payloadIndex > nb
        · rw [if_pos h1] at h; cases h; exact hrefl s
        · rw [if_neg h1] at h
          by_cases h2 : payloadIndex + 1 < length
          · rw [if_pos h2] at h; cases h; exact hrefl s
          · rw [if_neg h2] at h
            cases hl : bytesLoop bs payloadIndex payload haConfig saveSeen 256
                ((payloadIndex + 1 - length) % 256) (decide (s.outputFilter = 0)) false s with
            | none => rw [hl] at h; cases h
            | some r =>
              obtain ⟨e, t⟩ := r
              rw [hl] at h
              have hs := bytesLoop_rel R hrefl htrans _ _ _ _ _ hchg hnew _ _ _ _ _ _ _ hl
              cases e <;> (cases h; exact hs)

/-- The slot that the bit path resolves is inside the arrays. -/
theorem bitSlot_lt (bs payloadIndex : Nat) : bitSlot bs payloadIndex < sizeValSeen := by
  unfold bitSlot
  split_ifs with h
  · decide
  · exact Nat.lt_of_not_ge h

/-- A reflexive relation between globals that holds across each of the two
assignments of the bit path holds across a call of the bit path. -/
theorem newPayloadBitVal_rel (R : State → State → Prop) (hrefl : ∀ s, R s s)
    (hchg : ∀ (s : State) (k v : Nat), k < sizeValSeen →
      R s { s with payloadByteVal := arrSet s.payloadByteVal k v })
    (hnew : ∀ (s : State) (k v m : Nat), k < sizeValSeen →
      R s { s with payloadByteVal := arrSet s.payloadByteVal k v,
                   payloadByteSeen := arrSet s.payloadByteSeen k (s.payloadByteSeen k ||| m) })
    (s : State) (packetSrc packetType payloadIndex : Nat)
    (payload : Nat → Nat) (haConfig bitNr : Nat) (o : Observed)
    (h : newPayloadBitVal s packetSrc packetType payloadIndex payload haConfig bitNr = some o) :
    R s o.st := by
  unfold newPayloadBitVal at h
  simp only at h
  by_cases h1 : bitNr > 7
  · rw [if_pos h1] at h; cases h; exact hrefl s
  · rw [if_neg h1] at h
    by_cases h2 : packetType < PCKTP_START
    · rw [if_pos h2] at h; cases h; exact hrefl s
    · rw [if_neg h2] at h
      by_cases h3 : packetType > PCKTP_END ∧ packetType ≠ 0x31
      · rw [if_pos h3] at h; cases h; exact hrefl s
      · rw [if_neg h3] at h
        cases hnb : nr_bytes (bitPts packetSrc) (bitPti packetType) with
        | none => rw [hnb] at h; cases h
        | some nb =>
          rw [hnb] at h
          simp only at h
          by_cases h4 : payloadIndex > nb
          · rw [if_pos h4] at h; cases h; exact hrefl s
          · rw [if_neg h4] at h
            cases hbs : bytestart (bitPts packetSrc) (bitPti packetType) with
            | none => rw [hbs] at h; cases h
            | some bs =>
              rw [hbs] at h
              cases h
              have hk := bitSlot_lt bs payloadIndex
              unfold bitObserve
              simp only
              split_ifs
              · exact hchg s _ _ hk
              · exact hrefl s
              · exact hnew s _ _ _ hk

/-! ## Deferred store and growth of the seen masks -/

theorem seenGrows_refl (s : State) : seenGrows s s := fun _ _ h => h

theorem seenGrows_trans (a b c : State) (h1 : seenGrows a b) (h2 : seenGrows b c) :
    seenGrows a c := fun k n h => h2 k n (h1 k n h)

/-- A nonzero seen mask stays nonzero. -/
theorem seenGrows_ne_zero (s t : State) (h : seenGrows s t) (k : Nat)
    (hk : s.payloadByteSeen k ≠ 0) : t.payloadByteSeen k ≠ 0 := by
  obtain ⟨n, hn⟩ := Nat.ne_zero_implies_bit_true hk
  intro hz
  have := h k n hn
  rw [hz, Nat.zero_testBit] at this
  cases this

/-- The byte path only adds to the seen masks. -/
theorem newPayloadBytesVal_seenGrows (s : State) (packetSrc packetType payloadIndex : Nat)
    (payload : Nat → Nat) (haConfig length : Nat) (saveSeen : Bool) (o : Observed)
    (h : newPayloadBytesVal s packetSrc packetType payloadIndex payload haConfig length saveSeen
      = some o) : seenGrows s o.st := by
  refine newPayloadBytesVal_rel seenGrows seenGrows_refl seenGrows_trans saveSeen ?_ ?_
    s packetSrc packetType payloadIndex payload haConfig length o h
  · intro _ s k v _ _ q n hq
    exact hq
  · intro _ s k v _ hz q n hq
    show (arrSet s.payloadByteSeen k 0xFF q).testBit n = true
    by_cases hqk : q = k
    · subst hqk
      rw [hz, Nat.zero_testBit] at hq
      cases hq
    · rw [arrSet_other _ _ _ _ hqk]; exact hq

/-- The bit path only adds to the seen masks. -/
theorem newPayloadBitVal_seenGrows (s : State) (packetSrc packetType payloadIndex : Nat)
    (payload : Nat → Nat) (haConfig bitNr : Nat) (o : Observed)
    (h : newPayloadBitVal s packetSrc packetType payloadIndex payload haConfig bitNr = some o) :
    seenGrows s o.st := by
  refine newPayloadBitVal_rel seenGrows seenGrows_refl ?_ ?_
    s packetSrc packetType payloadIndex payload haConfig bitNr o h
  · intro s k v _ q n hq
    exact hq
  · intro s k v m _ q n hq
    show (arrSet s.payloadByteSeen k (s.payloadByteSeen k ||| m) q).testBit n = true
    by_cases hqk : q = k
    · subst hqk
      rw [arrSet_same, Nat.testBit_or, hq, Bool.true_or]
    · rw [arrSet_other _ _ _ _ hqk]; exact hq

theorem CacheCall.run_seenGrows (c : CacheCall) (s : State) (o : Observed)
    (h : c.run s = some o) : seenGrows s o.st := by
  cases c with
  | bytes src type idx payload ha len sv => exact newPayloadBytesVal_seenGrows _ _ _ _ _ _ _ _ _ h
  | bit src type idx payload ha n => exact newPayloadBitVal_seenGrows _ _ _ _ _ _ _ _ h

theorem afterCalls_seenGrows (cs : List CacheCall) :
    ∀ (s t : State), afterCalls cs s = some t → seenGrows s t := by
  induction cs with
  | nil => intro s t h; simp only [afterCalls, Option.some.injEq] at h; subst h; exact seenGrows_refl s
  | cons c rest ih =>
    intro s t h
    simp only [afterCalls] at h
    cases hc : c.run s with
    | none => rw [hc] at h; cases h
    | some o =>
      rw [hc] at h
      exact seenGrows_trans _ _ _ (c.run_seenGrows s o hc) (ih _ _ h)

/-- Without `saveSeen` the byte path leaves the globals as they are. -/
theorem newPayloadBytesVal_deferred (s : State) (packetSrc packetType payloadIndex : Nat)
    (payload : Nat → Nat) (haConfig length : Nat) (o : Observed)
    (h : newPayloadBytesVal s packetSrc packetType payloadIndex payload haConfig length false
      = some o) : o.st = s := by
  refine newPayloadBytesVal_rel (fun a b => b = a) (fun _ => rfl)
    (fun a b c h1 h2 => h2.trans h1) false ?_ ?_
    s packetSrc packetType payloadIndex payload haConfig length o h
  · intro hc; cases hc
  · intro hc; cases hc

/-- C21. Deferred store. Every call of `newPayloadBytesVal` with `saveSeen = false`
returns, and `payloadByteVal` and `payloadByteSeen` (with all other globals) are
after the call what they were before it, for every address, payload, width,
`haConfig`, cache and filter setting, the first-seen and changed-value cases
included. The macro `BITBASIS`, which makes this call with width 1, hands back
the globals it found. -/
theorem C21_deferred_store :
    (∀ (s : State) (packetSrc packetType payloadIndex : Nat) (payload : Nat → Nat)
      (haConfig length : Nat),
      ∃ o, newPayloadBytesVal s packetSrc packetType payloadIndex payload haConfig length false
          = some o ∧
        o.st.payloadByteVal = s.payloadByteVal ∧ o.st.payloadByteSeen = s.payloadByteSeen ∧
        o.st = s) ∧
    (∀ (a : Args) (c : Ctx), ∃ o, BITBASIS a c = some o ∧
      o.st.payloadByteVal = c.st.payloadByteVal ∧ o.st.payloadByteSeen = c.st.payloadByteSeen ∧
      o.st = c.st) := by
  constructor
  · intro s packetSrc packetType payloadIndex payload haConfig length
    obtain ⟨o, ho⟩ := newPayloadBytesVal_total s packetSrc packetType payloadIndex payload
      haConfig length false
    have hs := newPayloadBytesVal_deferred _ _ _ _ _ _ _ _ ho
    exact ⟨o, ho, by rw [hs], by rw [hs], hs⟩
  · intro a c
    obtain ⟨o, ho⟩ := newPayloadBytesVal_total c.st a.packetSrc a.packetType a.payloadIndex
      a.payload c.haConfig 1 false
    have hs := newPayloadBytesVal_deferred _ _ _ _ _ _ _ _ ho
    refine ⟨c.leave ((if o.ret then 1 else 0) <<< 3) c.value o.st o.published, ?_, ?_, ?_, ?_⟩
    · unfold BITBASIS; rw [ho]
    · show o.st.payloadByteVal = _; rw [hs]
    · show o.st.payloadByteSeen = _; rw [hs]
    · exact hs

/-- C28. Seen status is never destroyed. Every call of `newPayloadBytesVal`
returns, and every bit set in `payloadByteSeen` of any slot before the call is
set after it; the same holds for every call of `newPayloadBitVal` that has a
result, and so for the globals after any sequence of calls of the two
functions. -/
theorem C28_seen_never_destroyed :
    (∀ (s : State) (packetSrc packetType payloadIndex : Nat) (payload : Nat → Nat)
      (haConfig length : Nat) (saveSeen : Bool),
      ∃ o, newPayloadBytesVal s packetSrc packetType payloadIndex payload haConfig length
          saveSeen = some o ∧
        ∀ k n, (s.payloadByteSeen k).testBit n = true →
          (o.st.payloadByteSeen k).testBit n = true) ∧
    (∀ (s : State) (packetSrc packetType payloadIndex : Nat) (payload : Nat → Nat)
      (haConfig bitNr : Nat) (o : Observed),
      newPayloadBitVal s packetSrc packetType payloadIndex payload haConfig bitNr = some o →
        ∀ k n, (s.payloadByteSeen k).testBit n = true →
          (o.st.payloadByteSeen k).testBit n = true) ∧
    (∀ (cs : List CacheCall) (s t : State), afterCalls cs s = some t →
      ∀ k n, (s.payloadByteSeen k).testBit n = true →
        (t.payloadByteSeen k).testBit n = true) := by
  refine ⟨?_, ?_, ?_⟩
  · intro s packetSrc packetType payloadIndex payload haConfig length saveSeen
    obtain ⟨o, ho⟩ := newPayloadBytesVal_total s packetSrc packetType payloadIndex payload
      haConfig length saveSeen
    exact ⟨o, ho, newPayloadBytesVal_seenGrows _ _ _ _ _ _ _ _ _ ho⟩
  · intro s packetSrc packetType payloadIndex payload haConfig bitNr o ho
    exact newPayloadBitVal_seenGrows _ _ _ _ _ _ _ _ ho
  · intro cs s t h
    exact afterCalls_seenGrows cs s t h

/-- C28 (witness): slot 0 with bits 0 and 5 of its seen mask set; a bit call
for bit 3, a byte call and a bit call for bit 0 of source 0x00, type 0x0D,
index 0 leave bit 5 of the seen mask set. -/
theorem C28_seen_never_destroyed_witness :
    ∃ t, afterCalls
        [CacheCall.bit 0x00 0x0D 0 (payloadOf [0x08]) 1 3,
         CacheCall.bytes 0x00 0x0D 0 (payloadOf [0x07]) 1 1 true,
         CacheCall.bit 0x00 0x0D 0 (payloadOf [0x06]) 1 0]
        { startState with payloadByteSeen := arrSet startState.payloadByteSeen 0 0x21 }
        = some t ∧
      (t.payloadByteSeen 0).testBit 5 = true := by
  have hsome : (afterCalls
        [CacheCall.bit 0x00 0x0D 0 (payloadOf [0x08]) 1 3,
         CacheCall.bytes 0x00 0x0D 0 (payloadOf [0x07]) 1 1 true,
         CacheCall.bit 0x00 0x0D 0 (payloadOf [0x06]) 1 0]
        { startState with payloadByteSeen := arrSet startState.payloadByteSeen 0 0x21 }).isSome
      = true := by decide
  obtain ⟨t, ht⟩ := Option.isSome_iff_exists.mp hsome
  exact ⟨t, ht, C28_seen_never_destroyed.2.2 _ _ t ht 0 5 (by decide)⟩

/-! ## The payload across a decode call -/

/-- Clearing the bits of `y` in a byte leaves the byte as it is exactly when it
has none of them. -/
theorem and_not_eq_self (x y : Nat) (hx : x < 256) :
    x &&& (0xFF ^^^ y) = x ↔ x &&& y = 0 := by
  have hhigh : ∀ j, x.testBit j = true → j < 8 := by
    intro j hj
    by_contra hc
    have h8 : 8 ≤ j := by omega
    have hpow : 2 ^ 8 ≤ 2 ^ j := Nat.pow_le_pow_right (by decide : 0 < 2) h8
    have : x < 2 ^ j := Nat.lt_of_lt_of_le hx hpow
    rw [Nat.testBit_lt_two_pow this] at hj
    cases hj
  constructor
  · intro h
    apply Nat.eq_of_testBit_eq
    intro j
    have hj := congrArg (fun z => z.testBit j) h
    simp only [Nat.testBit_and, Nat.testBit_xor, testBit_255] at hj
    rw [Nat.testBit_and, Nat.zero_testBit]
    cases hxj : x.testBit j
    · rfl
    · rw [hxj] at hj
      have := hhigh j hxj
      cases hyj : y.testBit j
      · rfl
      · rw [hyj] at hj; simp [this] at hj
  · intro h
    apply Nat.eq_of_testBit_eq
    intro j
    have hj := congrArg (fun z => z.testBit j) h
    simp only [Nat.testBit_and, Nat.zero_testBit] at hj
    rw [Nat.testBit_and, Nat.testBit_xor, testBit_255]
    cases hxj : x.testBit j
    · rfl
    · rw [hxj] at hj
      have := hhigh j hxj
      simp only [Bool.true_and] at hj
      simp [this, hj]

/-- The call of `value_u32_LE_uptime` returns the payload with the byte at
`payloadIndex` cleared under the mask. -/
theorem value_u32_LE_uptime_returns (payload : Nat → Nat) (payloadIndex : Nat)
    (hbytes : ∀ i, payload i < 256) (hidx : 3 ≤ payloadIndex) (c : Ctx)
    (packetSrc packetType : Nat) :
    ∃ m o, uptimeMask payload payloadIndex = some m ∧
      value_u32_LE_uptime c packetSrc packetType payloadIndex payload
        = some (o, uptimeCleared payload payloadIndex m) := by
  have hmask : ∃ m, uptimeMask payload payloadIndex = some m := by
    by_cases h : payload (payloadIndex - 3) = 0 ∧ payload (payloadIndex - 2) = 0
    · rw [uptimeMask_zero payload payloadIndex hidx h.1 h.2,
        uptimeMaskLoop_closed _ (hbytes _)]
      exact ⟨_, rfl⟩
    · exact ⟨_, uptimeMask_other payload payloadIndex hidx h⟩
  obtain ⟨m, hm⟩ := hmask
  have hcb := uptimeCleared_byte payload payloadIndex m hbytes
  have hfn := FN_u32_LE_value (uptimeCleared payload payloadIndex m) payloadIndex hcb hidx
  obtain ⟨o, ho⟩ := decodeWith_total c packetSrc packetType payloadIndex
    (uptimeCleared payload payloadIndex m) 4
    (fmt_u (mostSignificantFirst
      [uptimeCleared payload payloadIndex m (payloadIndex - 3),
        uptimeCleared payload payloadIndex m (payloadIndex - 2),
        uptimeCleared payload payloadIndex m (payloadIndex - 1),
        uptimeCleared payload payloadIndex m payloadIndex]))
  refine ⟨m, o, hm, ?_⟩
  unfold value_u32_LE_uptime
  rw [hm]
  simp only [hfn, Option.map_some', ho]

/-- C22 (counterexample). The decoder `value_u32_LE_uptime` at index 3 of the
payload 0x00, 0x00, 0x0F, 0x07: the payload that the call leaves has 0x00 at
index 3 where it had 0x07, so the byte sequence after the call is not the
one before it. -/
theorem C22_payload_modified :
    (value_u32_LE_uptime (preamble startState plainPrefix [] 0x21) 0x21 0x12 3
      (payloadOf [0x00, 0x00, 0x0F, 0x07])).map (fun r => (r.2 0, r.2 1, r.2 2, r.2 3))
      = some (0x00, 0x00, 0x0F, 0x00) ∧
    payloadOf [0x00, 0x00, 0x0F, 0x07] 3 = 0x07 := by
  decide

/-- C22 (amended). What `value_u32_LE_uptime` does to the payload. For every
payload of bytes, every index from 3 on and every context, the call returns,
and the payload it leaves differs from the one it was given at most at
`payloadIndex`, where it holds `payload[payloadIndex] & ~(bitMaskUptime >> 1)`, a
byte not above the one before; every other payload byte is as before. The
payload after the call is the payload before it exactly when
`payload[payloadIndex]` has none of the bits of `bitMaskUptime >> 1`. -/
theorem C22_payload_frame (payload : Nat → Nat) (payloadIndex : Nat)
    (hbytes : ∀ i, payload i < 256) (hidx : 3 ≤ payloadIndex) (c : Ctx)
    (packetSrc packetType : Nat) :
    ∃ m o after, uptimeMask payload payloadIndex = some m ∧
      value_u32_LE_uptime c packetSrc packetType payloadIndex payload = some (o, after) ∧
      (∀ i, i ≠ payloadIndex → after i = payload i) ∧
      after payloadIndex = payload payloadIndex &&& (0xFF ^^^ (m >>> 1)) ∧
      after payloadIndex ≤ payload payloadIndex ∧
      (after = payload ↔ payload payloadIndex &&& (m >>> 1) = 0) := by
  obtain ⟨m, o, hm, hcall⟩ := value_u32_LE_uptime_returns payload payloadIndex hbytes hidx c
    packetSrc packetType
  refine ⟨m, o, uptimeCleared payload payloadIndex m, hm, hcall,
    fun i hi => arrSet_other _ _ _ _ hi, arrSet_same _ _ _, ?_, ?_⟩
  · show arrSet payload payloadIndex _ payloadIndex ≤ _
    rw [arrSet_same]
    exact Nat.and_le_left
  · rw [← and_not_eq_self _ _ (hbytes payloadIndex)]
    constructor
    · intro h
      have := congrFun h payloadIndex
      rw [uptimeCleared, arrSet_same] at this
      exact this
    · intro h
      funext i
      by_cases hi : i = payloadIndex
      · subst hi; rw [uptimeCleared, arrSet_same]; exact h
      · exact arrSet_other _ _ _ _ hi

/-- C22 (witness): index 3 of the payloads 0x00, 0x00, 0x0F, 0x07, which the call
changes, and 0x00, 0x00, 0x0F, 0x08, which it leaves as it is. -/
theorem C22_payload_frame_witness :
    (∃ m o after, uptimeMask (payloadOf [0x00, 0x00, 0x0F, 0x07]) 3 = some m ∧
      value_u32_LE_uptime seenCtx 0x21 0x12 3 (payloadOf [0x00, 0x00, 0x0F, 0x07])
        = some (o, after) ∧
      (∀ i, i ≠ 3 → after i = payloadOf [0x00, 0x00, 0x0F, 0x07] i) ∧
      after 3 = payloadOf [0x00, 0x00, 0x0F, 0x07] 3 &&& (0xFF ^^^ (m >>> 1)) ∧
      after 3 ≤ payloadOf [0x00, 0x00, 0x0F, 0x07] 3 ∧
      (after = payloadOf [0x00, 0x00, 0x0F, 0x07]
        ↔ payloadOf [0x00, 0x00, 0x0F, 0x07] 3 &&& (m >>> 1) = 0)) ∧
    (∃ m o after, uptimeMask (payloadOf [0x00, 0x00, 0x0F, 0x08]) 3 = some m ∧
      value_u32_LE_uptime seenCtx 0x21 0x12 3 (payloadOf [0x00, 0x00, 0x0F, 0x08])
        = some (o, after) ∧
      (∀ i, i ≠ 3 → after i = payloadOf [0x00, 0x00, 0x0F, 0x08] i) ∧
      after 3 = payloadOf [0x00, 0x00, 0x0F, 0x08] 3 &&& (0xFF ^^^ (m >>> 1)) ∧
      after 3 ≤ payloadOf [0x00, 0x00, 0x0F, 0x08] 3 ∧
      (after = payloadOf [0x00, 0x00, 0x0F, 0x08]
        ↔ payloadOf [0x00, 0x00, 0x0F, 0x08] 3 &&& (m >>> 1) = 0)) :=
  ⟨C22_payload_frame (payloadOf [0x00, 0x00, 0x0F, 0x07]) 3 (payloadOf_byte _ (by decide))
      (by decide) seenCtx 0x21 0x12,
   C22_payload_frame (payloadOf [0x00, 0x00, 0x0F, 0x08]) 3 (payloadOf_byte _ (by decide))
      (by decide) seenCtx 0x21 0x12⟩

/-! ## Positions without a value: checksums and unmapped packets -/

/-- C24. Checksum positions are suppressed unconditionally. At the four
positions (0x89, 0x2D, 0x29), (0x89, 0x27, 0x23), (0x21, 0x12, 0x0E) and
(0x41, 0x18, 0x14), for every payload, `bitNr`, filter setting, cache and
content of the two buffers, and for every second switch: `bytesbits2keyvalue`
returns 0, publishes no discovery descriptor, leaves the value buffer as it
was and leaves both cache arrays unchanged. -/
theorem C24_checksum_suppressed (pseudo : PseudoSwitch) (s : State) (key : Key)
    (value : List Char) (a : Args)
    (h : (a.packetSrc, a.packetType, a.payloadIndex) ∈ checksumPositions) :
    ∃ o, bytesbits2keyvalue pseudo s key value a = some o ∧
      o.status = 0 ∧ o.published = false ∧ o.value = value ∧
      o.st.payloadByteVal = s.payloadByteVal ∧ o.st.payloadByteSeen = s.payloadByteSeen := by
  obtain ⟨src, type, idx, payload, bitNr⟩ := a
  simp only [checksumPositions, List.mem_cons, Prod.mk.injEq, List.mem_singleton,
    List.not_mem_nil, or_false] at h
  rcases h with ⟨h1, h2, h3⟩ | ⟨h1, h2, h3⟩ | ⟨h1, h2, h3⟩ | ⟨h1, h2, h3⟩ <;>
    subst h1 h2 h3 <;>
    exact ⟨_, rfl, rfl, rfl, rfl, rfl, rfl⟩

/-- C24 (witness): the checksum of the packet of source 0x89 and type 0x2D, in
a call for the byte and in a call for bit 3. -/
theorem C24_checksum_suppressed_witness :
    (∃ o, bytesbits2keyvalue noPseudo seenCtx.st plainPrefix "old".toList
        ⟨0x89, 0x2D, 0x29, fun _ => 0xA5, 8⟩ = some o ∧
      o.status = 0 ∧ o.published = false ∧ o.value = "old".toList ∧
      o.st.payloadByteVal = seenCtx.st.payloadByteVal ∧
      o.st.payloadByteSeen = seenCtx.st.payloadByteSeen) ∧
    (∃ o, bytesbits2keyvalue noPseudo filteredState plainPrefix []
        ⟨0x41, 0x18, 0x14, fun _ => 0xA5, 3⟩ = some o ∧
      o.status = 0 ∧ o.published = false ∧ o.value = [] ∧
      o.st.payloadByteVal = filteredState.payloadByteVal ∧
      o.st.payloadByteSeen = filteredState.payloadByteSeen) :=
  ⟨C24_checksum_suppressed noPseudo seenCtx.st plainPrefix "old".toList
      ⟨0x89, 0x2D, 0x29, fun _ => 0xA5, 8⟩ (by decide),
   C24_checksum_suppressed noPseudo filteredState plainPrefix []
      ⟨0x41, 0x18, 0x14, fun _ => 0xA5, 3⟩ (by decide)⟩

/-- C26. Unmapped packet pair. For the sources 0x89, 0x21 and 0x41 and every type
without a layout for the source (other than 0x2D and 0x27 for 0x89, than 0x12
for 0x21, than 0x18 for 0x41), for every `payloadIndex`, payload, `bitNr`, cache,
filter setting and second switch: `bytesbits2keyvalue` returns 0, publishes
nothing, leaves the value buffer as it was and leaves both cache arrays
unchanged. -/
theorem C26_unmapped_pair (pseudo : PseudoSwitch) (s : State) (key : Key)
    (value : List Char) (a : Args)
    (h : (a.packetSrc = 0x89 ∧ a.packetType ≠ 0x2D ∧ a.packetType ≠ 0x27) ∨
      (a.packetSrc = 0x21 ∧ a.packetType ≠ 0x12) ∨
      (a.packetSrc = 0x41 ∧ a.packetType ≠ 0x18)) :
    ∃ o, bytesbits2keyvalue pseudo s key value a = some o ∧
      o.status = 0 ∧ o.published = false ∧ o.value = value ∧
      o.st.payloadByteVal = s.payloadByteVal ∧ o.st.payloadByteSeen = s.payloadByteSeen := by
  have hcall : bytesbits2keyvalue pseudo s key value a
      = RETURN0 (preamble s key value a.packetSrc) := by
    rcases h with ⟨h1, h2, h3⟩ | ⟨h1, h2⟩ | ⟨h1, h2⟩
    · simp only [bytesbits2keyvalue, if_pos h1, if_neg h2, if_neg h3]
    · have n1 : a.packetSrc ≠ 0x89 := by rw [h1]; decide
      simp only [bytesbits2keyvalue, if_neg n1, if_pos h1, if_neg h2]
    · have n1 : a.packetSrc ≠ 0x89 := by rw [h1]; decide
      have n2 : a.packetSrc ≠ 0x21 := by rw [h1]; decide
      simp only [bytesbits2keyvalue, if_neg n1, if_neg n2, if_pos h1, if_neg h2]
  exact ⟨_, hcall, rfl, rfl, rfl, rfl, rfl⟩

/-- C26 (witness): source 0x89 with type 0x0D, source 0x21 with type 0x2D and
source 0x41 with type 0x12. -/
theorem C26_unmapped_pair_witness :
    (∃ o, bytesbits2keyvalue noPseudo seenCtx.st plainPrefix "old".toList
        ⟨0x89, 0x0D, 7, fun _ => 0x14, 8⟩ = some o ∧
      o.status = 0 ∧ o.published = false ∧ o.value = "old".toList ∧
      o.st.payloadByteVal = seenCtx.st.payloadByteVal ∧
      o.st.payloadByteSeen = seenCtx.st.payloadByteSeen) ∧
    (∃ o, bytesbits2keyvalue noPseudo startState plainPrefix []
        ⟨0x21, 0x2D, 7, fun _ => 0x14, 8⟩ = some o ∧
      o.status = 0 ∧ o.published = false ∧ o.value = [] ∧
      o.st.payloadByteVal = startState.payloadByteVal ∧
      o.st.payloadByteSeen = startState.payloadByteSeen) ∧
    (∃ o, bytesbits2keyvalue noPseudo startState plainPrefix []
        ⟨0x41, 0x12, 9, fun _ => 0x14, 2⟩ = some o ∧
      o.status = 0 ∧ o.published = false ∧ o.value = [] ∧
      o.st.payloadByteVal = startState.payloadByteVal ∧
      o.st.payloadByteSeen = startState.payloadByteSeen) :=
  ⟨C26_unmapped_pair noPseudo seenCtx.st plainPrefix "old".toList
      ⟨0x89, 0x0D, 7, fun _ => 0x14, 8⟩ (Or.inl ⟨rfl, by decide, by decide⟩),
   C26_unmapped_pair noPseudo startState plainPrefix []
      ⟨0x21, 0x2D, 7, fun _ => 0x14, 8⟩ (Or.inr (Or.inl ⟨rfl, by decide⟩)),
   C26_unmapped_pair noPseudo startState plainPrefix []
      ⟨0x41, 0x12, 9, fun _ => 0x14, 2⟩ (Or.inr (Or.inr ⟨rfl, by decide⟩))⟩

/-! ## The status byte -/

/-- Beyond the types 0x08..0x0F and 0x31 the bit path does not reach the tables:
it reports every call as new and leaves the globals as they are. -/
theorem newPayloadBitVal_beyond (s : State) (packetSrc packetType payloadIndex : Nat)
    (payload : Nat → Nat) (haConfig bitNr : Nat) (h : PCKTP_END < packetType)
    (h31 : packetType ≠ 0x31) :
    newPayloadBitVal s packetSrc packetType payloadIndex payload haConfig bitNr
      = some ⟨reportable s haConfig true, s, false⟩ := by
  unfold newPayloadBitVal
  simp only
  by_cases h1 : bitNr > 7
  · rw [if_pos h1]
  · rw [if_neg h1, if_neg (by simp only [PCKTP_START, PCKTP_END] at h ⊢; omega),
      if_pos ⟨h, h31⟩]

theorem binary_decodeWith (c : Ctx) (packetSrc packetType payloadIndex : Nat)
    (payload : Nat → Nat) (width : Nat) (t : List Char) :
    ∃ o, decodeWith c packetSrc packetType payloadIndex payload width (some t) = some o ∧
      (o.status = 0 ∨ o.status = 1) := by
  obtain ⟨r, hr⟩ := newPayloadBytesVal_total c.st packetSrc packetType payloadIndex payload
    c.haConfig width true
  unfold decodeWith
  rw [hr]
  simp only
  by_cases h : r.ret = false
  · rw [if_pos h]; exact ⟨_, rfl, Or.inl rfl⟩
  · rw [if_neg h]; exact ⟨_, rfl, Or.inr rfl⟩

theorem binary_VALUE_u8 (a : Args) (c : Ctx) :
    ∃ o, VALUE_u8 a c = some o ∧ (o.status = 0 ∨ o.status = 1) :=
  binary_decodeWith _ _ _ _ _ _ _

theorem binary_VALUE_s8 (a : Args) (c : Ctx) :
    ∃ o, VALUE_s8 a c = some o ∧ (o.status = 0 ∨ o.status = 1) :=
  binary_decodeWith _ _ _ _ _ _ _

theorem binary_RETURN0 (c : Ctx) : ∃ o, RETURN0 c = some o ∧ (o.status = 0 ∨ o.status = 1) :=
  ⟨_, rfl, Or.inl rfl⟩

theorem binary_VALUE_flag8 (a : Args) (c : Ctx) (h : PCKTP_END < a.packetType)
    (h31 : a.packetType ≠ 0x31) :
    ∃ o, VALUE_flag8 a c = some o ∧ (o.status = 0 ∨ o.status = 1) := by
  unfold VALUE_flag8 value_flag8
  rw [newPayloadBitVal_beyond _ _ _ _ _ _ _ h h31]
  simp only
  by_cases hr : reportable c.st c.haConfig true = false
  · rw [if_pos hr]; exact ⟨_, rfl, Or.inl rfl⟩
  · rw [if_neg hr]; exact ⟨_, rfl, Or.inr rfl⟩

theorem binary_UNKNOWN_BIT (a : Args) (c : Ctx) (h : PCKTP_END < a.packetType)
    (h31 : a.packetType ≠ 0x31) :
    ∃ o, UNKNOWN_BIT a c = some o ∧ (o.status = 0 ∨ o.status = 1) := by
  unfold UNKNOWN_BIT unknownBit
  by_cases h0 : (CAT_UNKNOWN c).st.outputUnknown = false
  · rw [if_pos h0]; exact ⟨_, rfl, Or.inl rfl⟩
  · rw [if_neg h0, newPayloadBitVal_beyond _ _ _ _ _ _ _ h h31]
    simp only
    by_cases hr : reportable (CAT_UNKNOWN c).st (CAT_UNKNOWN c).haConfig true = false
    · rw [if_pos hr]; exact ⟨_, rfl, Or.inl rfl⟩
    · rw [if_neg hr]; exact ⟨_, rfl, Or.inr rfl⟩

theorem binary_UNKNOWN_BYTE (a : Args) (c : Ctx) :
    ∃ o, UNKNOWN_BYTE a c = some o ∧ (o.status = 0 ∨ o.status = 1) := by
  unfold UNKNOWN_BYTE unknownByte
  by_cases h0 : (CAT_UNKNOWN c).st.outputUnknown = false
  · rw [if_pos h0]; exact ⟨_, rfl, Or.inl rfl⟩
  · rw [if_neg h0]
    obtain ⟨r, hr⟩ := newPayloadBytesVal_total (CAT_UNKNOWN c).st a.packetSrc a.packetType
      a.payloadIndex a.payload (CAT_UNKNOWN c).haConfig 1 true
    rw [hr]
    simp only
    by_cases h : r.ret = false
    · rw [if_pos h]; exact ⟨_, rfl, Or.inl rfl⟩
    · rw [if_neg h]; exact ⟨_, rfl, Or.inr rfl⟩

/-- The macro `BITBASIS` returns 0 or 8. -/
theorem status_BITBASIS (a : Args) (c : Ctx) :
    ∃ o, BITBASIS a c = some o ∧ (o.status = 0 ∨ o.status = 8) := by
  obtain ⟨r, hr⟩ := newPayloadBytesVal_total c.st a.packetSrc a.packetType a.payloadIndex
    a.payload c.haConfig 1 false
  unfold BITBASIS
  rw [hr]
  refine ⟨_, rfl, ?_⟩
  show (if r.ret = true then 1 else 0) <<< 3 = 0 ∨ (if r.ret = true then 1 else 0) <<< 3 = 8
  cases r.ret
  · left; rfl
  · right; rfl

theorem status_lift01 {e : Option Outcome} {Q : Prop}
    (h : ∃ o, e = some o ∧ (o.status = 0 ∨ o.status = 1)) :
    ∃ o, e = some o ∧ (o.status = 0 ∨ o.status = 1 ∨ (o.status = 8 ∧ Q)) := by
  obtain ⟨o, h1, h2⟩ := h
  exact ⟨o, h1, h2.elim Or.inl (fun h => Or.inr (Or.inl h))⟩

theorem status_lift08 {e : Option Outcome} {Q : Prop}
    (h : ∃ o, e = some o ∧ (o.status = 0 ∨ o.status = 8)) (hq : Q) :
    ∃ o, e = some o ∧ (o.status = 0 ∨ o.status = 1 ∨ (o.status = 8 ∧ Q)) := by
  obtain ⟨o, h1, h2⟩ := h
  exact ⟨o, h1, h2.elim Or.inl (fun h => Or.inr (Or.inr ⟨h, hq⟩))⟩

theorem status_case_89_2D (a : Args) (c : Ctx) (ht : a.packetType = 0x2D) :
    ∃ o, case_89_2D a c = some o ∧ (o.status = 0 ∨ o.status = 1 ∨ (o.status = 8 ∧
      (a.bitNr = 8 ∧ (a.payloadIndex = 0x21 ∨ a.payloadIndex = 0x22)))) := by
  have hT : PCKTP_END < a.packetType := by rw [ht]; decide
  have h31 : a.packetType ≠ 0x31 := by rw [ht]; decide
  unfold case_89_2D
  split
  all_goals first
    | with_reducible exact status_lift01 (binary_VALUE_s8 _ _)
    | with_reducible exact status_lift01 (binary_VALUE_u8 _ _)
    | with_reducible exact status_lift01 (binary_RETURN0 _)
    | with_reducible exact status_lift01 (binary_UNKNOWN_BYTE _ _)
    | (split <;> first
        | with_reducible exact status_lift08 (status_BITBASIS _ _) (by omega)
        | with_reducible exact status_lift01 (binary_VALUE_flag8 _ _ hT h31)
        | with_reducible exact status_lift01 (binary_UNKNOWN_BIT _ _ hT h31))

theorem status_case_89_27 (a : Args) (c : Ctx) (ht : a.packetType = 0x27) :
    ∃ o, case_89_27 a c = some o ∧ (o.status = 0 ∨ o.status = 1 ∨ (o.status = 8 ∧
      (a.bitNr = 8 ∧ (a.payloadIndex = 0x07 ∨ a.payloadIndex = 0x08 ∨ a.payloadIndex = 0x1C)))) := by
  have hT : PCKTP_END < a.packetType := by rw [ht]; decide
  have h31 : a.packetType ≠ 0x31 := by rw [ht]; decide
  unfold case_89_27
  split
  all_goals first
    | with_reducible exact status_lift01 (binary_VALUE_u8 _ _)
    | with_reducible exact status_lift01 (binary_RETURN0 _)
    | with_reducible exact status_lift01 (binary_UNKNOWN_BYTE _ _)
    | (split <;> first
        | with_reducible exact status_lift08 (status_BITBASIS _ _) (by omega)
        | with_reducible exact status_lift01 (binary_VALUE_flag8 _ _ hT h31)
        | with_reducible exact status_lift01 (binary_UNKNOWN_BIT _ _ hT h31))

theorem status_case_21_12 (a : Args) (c : Ctx) (ht : a.packetType = 0x12) :
    ∃ o, case_21_12 a c = some o ∧ (o.status = 0 ∨ o.status = 1 ∨ (o.status = 8 ∧
      (a.bitNr = 8 ∧ (a.payloadIndex = 0x07 ∨ a.payloadIndex = 0x08)))) := by
  have hT : PCKTP_END < a.packetType := by rw [ht]; decide
  have h31 : a.packetType ≠ 0x31 := by rw [ht]; decide
  unfold case_21_12
  split
  all_goals first
    | with_reducible exact status_lift01 (binary_VALUE_u8 _ _)
    | with_reducible exact status_lift01 (binary_RETURN0 _)
    | with_reducible exact status_lift01 (binary_UNKNOWN_BYTE _ _)
    | (split <;> first
        | with_reducible exact status_lift08 (status_BITBASIS _ _) (by omega)
        | with_reducible exact status_lift01 (binary_VALUE_flag8 _ _ hT h31)
        | with_reducible exact status_lift01 (binary_UNKNOWN_BIT _ _ hT h31))

theorem status_case_41_18 (a : Args) (c : Ctx) (ht : a.packetType = 0x18) :
    ∃ o, case_41_18 a c = some o ∧ (o.status = 0 ∨ o.status = 1 ∨ (o.status = 8 ∧
      (a.bitNr = 8 ∧ (a.payloadIndex = 0x07 ∨ a.payloadIndex = 0x08)))) := by
  have hT : PCKTP_END < a.packetType := by rw [ht]; decide
  have h31 : a.packetType ≠ 0x31 := by rw [ht]; decide
  unfold case_41_18
  split
  all_goals first
    | with_reducible exact status_lift01 (binary_VALUE_u8 _ _)
    | with_reducible exact status_lift01 (binary_RETURN0 _)
    | with_reducible exact status_lift01 (binary_UNKNOWN_BYTE _ _)
    | (split <;> first
        | with_reducible exact status_lift08 (status_BITBASIS _ _) (by omega)
        | with_reducible exact status_lift01 (binary_VALUE_flag8 _ _ hT h31)
        | with_reducible exact status_lift01 (binary_UNKNOWN_BIT _ _ hT h31))

/-- The status of a call for one of the three sources of the dispatch table,
and where it is 8. -/
theorem status_bytesbits2keyvalue (pseudo : PseudoSwitch) (s : State) (key : Key)
    (value : List Char) (a : Args)
    (hsrc : a.packetSrc = 0x89 ∨ a.packetSrc = 0x21 ∨ a.packetSrc = 0x41) :
    ∃ o, bytesbits2keyvalue pseudo s key value a = some o ∧
      (o.status = 0 ∨ o.status = 1 ∨ (o.status = 8 ∧
        (a.bitNr = 8 ∧ (a.packetSrc, a.packetType, a.payloadIndex) ∈ bitBasisPositions))) := by
  have hmem : ∀ {Q : Prop} {e : Option Outcome},
      (Q → (a.packetSrc, a.packetType, a.payloadIndex) ∈ bitBasisPositions) →
      (∃ o, e = some o ∧ (o.status = 0 ∨ o.status = 1 ∨ (o.status = 8 ∧ (a.bitNr = 8 ∧ Q)))) →
      ∃ o, e = some o ∧ (o.status = 0 ∨ o.status = 1 ∨ (o.status = 8 ∧
        (a.bitNr = 8 ∧ (a.packetSrc, a.packetType, a.payloadIndex) ∈ bitBasisPositions))) := by
    intro Q e hq ⟨o, h1, h2⟩
    refine ⟨o, h1, ?_⟩
    rcases h2 with h | h | ⟨h, hb, hQ⟩
    · exact Or.inl h
    · exact Or.inr (Or.inl h)
    · exact Or.inr (Or.inr ⟨h, hb, hq hQ⟩)
  rcases hsrc with h1 | h1 | h1
  · by_cases h2 : a.packetType = 0x2D
    · simp only [bytesbits2keyvalue, if_pos h1, if_pos h2]
      refine hmem ?_ (status_case_89_2D a _ h2)
      intro hq
      rcases hq with h3 | h3 <;> rw [h1, h2, h3] <;> decide
    · by_cases h3 : a.packetType = 0x27
      · simp only [bytesbits2keyvalue, if_pos h1, if_neg h2, if_pos h3]
        refine hmem ?_ (status_case_89_27 a _ h3)
        intro hq
        rcases hq with h4 | h4 | h4 <;> rw [h1, h3, h4] <;> decide
      · simp only [bytesbits2keyvalue, if_pos h1, if_neg h2, if_neg h3]
        exact ⟨_, rfl, Or.inl rfl⟩
  · have n1 : a.packetSrc ≠ 0x89 := by rw [h1]; decide
    by_cases h2 : a.packetType = 0x12
    · simp only [bytesbits2keyvalue, if_neg n1, if_pos h1, if_pos h2]
      refine hmem ?_ (status_case_21_12 a _ h2)
      intro hq
      rcases hq with h3 | h3 <;> rw [h1, h2, h3] <;> decide
    · simp only [bytesbits2keyvalue, if_neg n1, if_pos h1, if_neg h2]
      exact ⟨_, rfl, Or.inl rfl⟩
  · have n1 : a.packetSrc ≠ 0x89 := by rw [h1]; decide
    have n2 : a.packetSrc ≠ 0x21 := by rw [h1]; decide
    by_cases h2 : a.packetType = 0x18
    · simp only [bytesbits2keyvalue, if_neg n1, if_neg n2, if_pos h1, if_pos h2]
      refine hmem ?_ (status_case_41_18 a _ h2)
      intro hq
      rcases hq with h3 | h3 <;> rw [h1, h2, h3] <;> decide
    · simp only [bytesbits2keyvalue, if_neg n1, if_neg n2, if_pos h1, if_neg h2]
      exact ⟨_, rfl, Or.inl rfl⟩

/-- C27. Status codes. For every call of `bytesbits2keyvalue` with source 0x89, 0x21
or 0x41, whatever the type, index, payload, `bitNr`, cache, settings and second
switch: the call returns, and the returned byte is one of 0, 1, 8, 9 (in fact
one of 0, 1, 8: these three sources never return 9). It is 8 only when the call
was made with `bitNr = 8` at a position whose entry is a `switch (bitNr)` with
`case 8 : BITBASIS`; so a call with `bitNr` in 0..7 returns 0 or 1 and never asks
for another pass on bit basis. -/
theorem C27_status_codes (pseudo : PseudoSwitch) (s : State) (key : Key)
    (value : List Char) (a : Args)
    (hsrc : a.packetSrc = 0x89 ∨ a.packetSrc = 0x21 ∨ a.packetSrc = 0x41) :
    ∃ o, bytesbits2keyvalue pseudo s key value a = some o ∧
      o.status ∈ [0, 1, 8, 9] ∧ o.status ≠ 9 ∧
      (o.status = 8 →
        a.bitNr = 8 ∧ (a.packetSrc, a.packetType, a.payloadIndex) ∈ bitBasisPositions) ∧
      (a.bitNr ≤ 7 → o.status = 0 ∨ o.status = 1) := by
  obtain ⟨o, h, hs⟩ := status_bytesbits2keyvalue pseudo s key value a hsrc
  refine ⟨o, h, ?_, ?_, ?_, ?_⟩
  · rcases hs with h0 | h0 | ⟨h0, _⟩ <;> rw [h0] <;> decide
  · rcases hs with h0 | h0 | ⟨h0, _⟩ <;> rw [h0] <;> decide
  · intro h8
    rcases hs with h0 | h0 | ⟨_, hq⟩
    · rw [h0] at h8; cases h8
    · rw [h0] at h8; cases h8
    · exact hq
  · intro hb
    rcases hs with h0 | h0 | ⟨_, hq, _⟩
    · exact Or.inl h0
    · exact Or.inr h0
    · omega

/-- C27 (witness): source 0x89, type 0x2D, index 0x21 on the empty cache with
`outputFilter = 1`: the call with `bitNr = 8` returns 8, the follow-up call for
bit 3 returns 1. -/
theorem C27_status_codes_witness :
    (∃ o, bytesbits2keyvalue noPseudo startState plainPrefix []
        ⟨0x89, 0x2D, 0x21, fun _ => 0x08, 8⟩ = some o ∧
      o.status ∈ [0, 1, 8, 9] ∧ o.status ≠ 9 ∧
      (o.status = 8 → (8 : Nat) = 8 ∧ (0x89, 0x2D, 0x21) ∈ bitBasisPositions) ∧
      ((8 : Nat) ≤ 7 → o.status = 0 ∨ o.status = 1)) ∧
    (∃ o, bytesbits2keyvalue noPseudo startState plainPrefix []
        ⟨0x89, 0x2D, 0x21, fun _ => 0x08, 3⟩ = some o ∧
      (o.status = 0 ∨ o.status = 1)) ∧
    (bytesbits2keyvalue noPseudo startState plainPrefix []
        ⟨0x89, 0x2D, 0x21, fun _ => 0x08, 8⟩).map (fun o => o.status) = some 8 ∧
    (bytesbits2keyvalue noPseudo startState plainPrefix []
        ⟨0x89, 0x2D, 0x21, fun _ => 0x08, 3⟩).map (fun o => o.status) = some 1 := by
  refine ⟨C27_status_codes noPseudo startState plainPrefix []
      ⟨0x89, 0x2D, 0x21, fun _ => 0x08, 8⟩ (Or.inl rfl), ?_, by decide, by decide⟩
  obtain ⟨o, h, _, _, _, hb⟩ := C27_status_codes noPseudo startState plainPrefix []
      ⟨0x89, 0x2D, 0x21, fun _ => 0x08, 3⟩ (Or.inl rfl)
  exact ⟨o, h, hb (by decide)⟩

/-! ## The fallback for unknown bytes and bits -/

theorem FN_flag8_testBit (b n : Nat) : FN_flag8 b n = b.testBit n := by
  unfold FN_flag8
  rw [Nat.and_one_is_mod, Nat.testBit_to_div_mod, Nat.shiftRight_eq_div_pow]
  by_cases h : b / 2 ^ n % 2 = 1
  · simp [h]
  · have h0 : b / 2 ^ n % 2 = 0 := by omega
    simp [h0]

/-- The text of the value that `unknownByte` writes for the byte `b`. -/
theorem unknownByte_text (b : Nat) :
    "\"0x".toList ++ fmt_02X b ++ "\"".toList
      = ['"', '0', 'x', hexDigit (b / 16 % 16), hexDigit (b % 16), '"'] := rfl

/-- The text of the value that `unknownBit` writes for bit `n` of the byte `b`. -/
theorem unknownBit_text (b n : Nat) :
    fmt_flag (FN_flag8 b n) = if b.testBit n = true then ['1'] else ['0'] := by
  rw [FN_flag8_testBit]
  cases b.testBit n <;> decide

/-- C25. Unknown-byte and unknown-bit fallback. `unknownByte` returns, with 0 or 1,
and it returns 1 if and only if `outputUnknown` is set and `newPayloadBytesVal`
(width 1, `saveSeen` set) reports a change; `unknownBit` does so with
`newPayloadBitVal`, whenever that call has a result. When they return 1 the
value buffer holds the raw byte as `"0xNN"` with two upper-case hexadecimal
digits and the quotes (a buffer of at least 7 characters), respectively the raw
bit as `0` or `1` (a buffer of at least 2), and the globals are those the cache
call left. With `outputUnknown` off both return 0 without a call of the cache:
the globals, both buffers and so both cache arrays are as before and nothing
is published. -/
theorem C25_unknown_fallback (c : Ctx) (packetSrc packetType payloadIndex : Nat)
    (payload : Nat → Nat) (bitNr : Nat) :
    (∃ r o, newPayloadBytesVal c.st packetSrc packetType payloadIndex payload c.haConfig 1 true
        = some r ∧
      unknownByte c packetSrc packetType payloadIndex payload = some o ∧
      (o.status = 0 ∨ o.status = 1) ∧
      (o.status = 1 ↔ (c.st.outputUnknown = true ∧ r.ret = true)) ∧
      (o.status = 1 → o.st = r.st ∧ o.published = r.published ∧
        (7 ≤ c.st.MQTT_VALUE_LEN → o.value
          = ['"', '0', 'x', hexDigit (payload payloadIndex / 16 % 16),
              hexDigit (payload payloadIndex % 16), '"']))) ∧
    (∀ r, newPayloadBitVal c.st packetSrc packetType payloadIndex payload c.haConfig bitNr
        = some r →
      ∃ o, unknownBit c packetSrc packetType payloadIndex payload bitNr = some o ∧
        (o.status = 0 ∨ o.status = 1) ∧
        (o.status = 1 ↔ (c.st.outputUnknown = true ∧ r.ret = true)) ∧
        (o.status = 1 → o.st = r.st ∧ o.published = r.published ∧
          (2 ≤ c.st.MQTT_VALUE_LEN → o.value
            = if (payload payloadIndex).testBit bitNr = true then ['1'] else ['0']))) ∧
    (c.st.outputUnknown = false →
      unknownByte c packetSrc packetType payloadIndex payload
        = some ⟨0, c.key, c.value, c.st, false, c.catLog⟩ ∧
      unknownBit c packetSrc packetType payloadIndex payload bitNr
        = some ⟨0, c.key, c.value, c.st, false, c.catLog⟩) := by
  have n01 : (0 : Nat) ≠ 1 := by decide
  refine ⟨?_, ?_, ?_⟩
  · obtain ⟨r, hr⟩ := newPayloadBytesVal_total c.st packetSrc packetType payloadIndex payload
      c.haConfig 1 true
    have hs := newPayloadBytesVal_settings _ _ _ _ _ _ _ _ _ hr
    unfold unknownByte
    by_cases h0 : c.st.outputUnknown = false
    · rw [if_pos h0]
      refine ⟨r, _, hr, rfl, Or.inl rfl, ⟨fun h => absurd h n01, fun h => ?_⟩, fun h => absurd h n01⟩
      rw [h0] at h; cases h.1
    · rw [if_neg h0, hr]
      have h1 : c.st.outputUnknown = true := by simpa using h0
      simp only
      by_cases hret : r.ret = false
      · rw [if_pos hret]
        refine ⟨r, _, rfl, rfl, Or.inl rfl, ⟨fun h => absurd h n01, fun h => ?_⟩,
          fun h => absurd h n01⟩
        rw [hret] at h; cases h.2
      · rw [if_neg hret]
        have hret1 : r.ret = true := by simpa using hret
        refine ⟨r, _, rfl, rfl, Or.inr rfl, ⟨fun _ => ⟨h1, hret1⟩, fun _ => rfl⟩,
          fun _ => ⟨rfl, rfl, fun hlen => ?_⟩⟩
        show snprintf c.value r.st.MQTT_VALUE_LEN _ = _
        rw [unknownByte_text, hs.2.2.2.2.2.2.2.2]
        exact snprintf_fits _ _ _ (by simp only [List.length_cons, List.length_nil]; omega)
  · intro r hr
    have hs := newPayloadBitVal_settings _ _ _ _ _ _ _ _ hr
    unfold unknownBit
    by_cases h0 : c.st.outputUnknown = false
    · rw [if_pos h0]
      refine ⟨_, rfl, Or.inl rfl, ⟨fun h => absurd h n01, fun h => ?_⟩, fun h => absurd h n01⟩
      rw [h0] at h; cases h.1
    · rw [if_neg h0, hr]
      have h1 : c.st.outputUnknown = true := by simpa using h0
      simp only
      by_cases hret : r.ret = false
      · rw [if_pos hret]
        refine ⟨_, rfl, Or.inl rfl, ⟨fun h => absurd h n01, fun h => ?_⟩, fun h => absurd h n01⟩
        rw [hret] at h; cases h.2
      · rw [if_neg hret]
        have hret1 : r.ret = true := by simpa using hret
        refine ⟨_, rfl, Or.inr rfl, ⟨fun _ => ⟨h1, hret1⟩, fun _ => rfl⟩,
          fun _ => ⟨rfl, rfl, fun hlen => ?_⟩⟩
        show snprintf c.value r.st.MQTT_VALUE_LEN _ = _
        rw [unknownBit_text, hs.2.2.2.2.2.2.2.2]
        apply snprintf_fits
        split_ifs <;> (simp only [List.length_cons, List.length_nil]; omega)
  · intro h0
    constructor
    · unfold unknownByte; rw [if_pos h0]; rfl
    · unfold unknownBit; rw [if_pos h0]; rfl

/-- C25 (witness): with `outputUnknown` off, index 7 of source 0x89 and type 0x2D
gives 0 on both paths and the context is handed back as it was; with
`outputUnknown` on, the byte 0x15 over the stored 0x14 gives 1 with the value
`"0x15"`. -/
theorem C25_unknown_fallback_witness :
    (unknownByte seenCtx 0x89 0x2D 7 (fun _ => 0x15)
        = some ⟨0, seenCtx.key, seenCtx.value, seenCtx.st, false, seenCtx.catLog⟩ ∧
      unknownBit seenCtx 0x89 0x2D 7 (fun _ => 0x15) 2
        = some ⟨0, seenCtx.key, seenCtx.value, seenCtx.st, false, seenCtx.catLog⟩) ∧
    (unknownByte { seenCtx with st := { seenCtx.st with outputUnknown := true } }
        0x89 0x2D 7 (fun _ => 0x15)).map (fun o => (o.status, o.value))
      = some (1, "\"0x15\"".toList) :=
  ⟨(C25_unknown_fallback seenCtx 0x89 0x2D 7 (fun _ => 0x15) 2).2.2 rfl, by decide⟩

/-! ## Slot indices and the guard of the arrays -/

/-- The layouts end at or before the end of the arrays, those of row 0 at or
before slot 182; a layout that ends at the very end is one of row 1 from
column 7 on. -/
theorem tables_bound (pts pti nb bs : Nat) (hnb : nr_bytes pts pti = some nb)
    (hbs : bytestart pts pti = some bs) :
    bs + nb ≤ sizeValSeen ∧ (pts = 0 → bs + nb ≤ 182) ∧
      (bs + nb = sizeValSeen → pts = 1 ∧ 7 ≤ pti) := by
  have hpts : pts < 2 := by
    by_contra hc
    obtain ⟨p, rfl⟩ : ∃ p, pts = p + 2 := ⟨pts - 2, by omega⟩
    simp [nr_bytes, tableRead, nr_bytes_rows] at hnb
  have hpti : pti < 13 := by
    by_contra hc
    obtain ⟨p, rfl⟩ : ∃ p, pti = p + 13 := ⟨pti - 13, by omega⟩
    interval_cases pts <;> simp [nr_bytes, tableRead, nr_bytes_rows] at hnb
  simp only [sizeValSeen]
  interval_cases pts <;> interval_cases pti <;>
    simp [nr_bytes, bytestart, tableRead, nr_bytes_rows, bytestart_rows] at hnb hbs <;>
    omega

theorem reportable_haConfig (s : State) (haConfig : Nat) (x : Bool) (h : haConfig ≠ 0) :
    reportable s haConfig x = x := by
  unfold reportable
  simp [h]

/-- The status that `BITBASIS` hands back at an in-range position, as a function
of the slot. -/
theorem BITBASIS_one (a : Args) (c : Ctx) (nb bs : Nat)
    (hpti : bytesPti a.packetType ≠ 0xFF)
    (hnb : nr_bytes (bytesPts a.packetSrc) (bytesPti a.packetType) = some nb)
    (hbs : bytestart (bytesPts a.packetSrc) (bytesPti a.packetType) = some bs)
    (hidx : a.payloadIndex ≤ nb) (hin : bs + a.payloadIndex < sizeValSeen)
    (hha : c.haConfig ≠ 0) :
    BITBASIS a c = some (c.leave
      (if c.st.payloadByteSeen (bs + a.payloadIndex) ≠ 0 then
        if c.st.payloadByteVal (bs + a.payloadIndex) ≠ a.payload a.payloadIndex then
          if c.st.outputFilter ≤ c.st.maxOutputFilter then 8 else 0
        else if c.st.outputFilter = 0 then 8 else 0
       else 8) c.value c.st false) := by
  unfold BITBASIS
  rw [newPayloadBytesVal_one c.st a.packetSrc a.packetType a.payloadIndex a.payload c.haConfig
    nb bs false hpti hnb hbs hidx hin]
  simp only [reportable_haConfig _ _ _ hha, Bool.false_eq_true, if_false]
  by_cases h1 : c.st.payloadByteSeen (bs + a.payloadIndex) ≠ 0
  · simp only [if_pos h1]
    by_cases h2 : c.st.payloadByteVal (bs + a.payloadIndex) ≠ a.payload a.payloadIndex
    · simp only [if_pos h2]
      by_cases h3 : c.st.outputFilter ≤ c.st.maxOutputFilter
      · simp only [h3, decide_True, if_true]; rfl
      · simp only [h3, decide_False, if_false]; rfl
    · simp only [if_neg h2]
      by_cases h3 : c.st.outputFilter = 0
      · simp only [h3, decide_True, if_true]; rfl
      · simp only [h3, decide_False, if_false]; rfl
  · simp only [if_neg h1]; rfl

/-- C30 (counterexample). Slot 0 (source 0x00, type 0x0D, index 0) with all eight
bits seen and the stored value 0x14, `haConfig` set. With `outputFilter = 2`
above `maxOutputFilter = 1` the incoming byte 0x15 differs from the stored
value in bit 0, yet `BITBASIS` returns 0. With `outputFilter = 0` the incoming
byte 0x14 differs in no bit and no bit is unseen, yet `BITBASIS` returns 8. -/
theorem C30_bitbasis_gated :
    bytesPti 0x0D ≠ 0xFF ∧ nr_bytes (bytesPts 0x00) (bytesPti 0x0D) = some 20 ∧
    bytestart (bytesPts 0x00) (bytesPti 0x0D) = some 0 ∧
    (BITBASIS ⟨0x00, 0x0D, 0, fun _ => 0x15, 8⟩
      { st := { filteredState with payloadByteSeen := arrSet filteredState.payloadByteSeen 0 0xFF,
                                   payloadByteVal := arrSet filteredState.payloadByteVal 0 0x14 },
        key := plainPrefix, value := [], haConfig := 1, catLog := [] }).map
      (fun o => o.status) = some 0 ∧
    (BITBASIS ⟨0x00, 0x0D, 0, fun _ => 0x14, 8⟩
      { st := { startState with payloadByteSeen := arrSet startState.payloadByteSeen 0 0xFF,
                                payloadByteVal := arrSet startState.payloadByteVal 0 0x14,
                                outputFilter := 0 },
        key := plainPrefix, value := [], haConfig := 1, catLog := [] }).map
      (fun o => o.status) = some 8 := by
  decide

/-- C30 (amended). The decision of `BITBASIS`. At every in-range byte position, in
a call with `haConfig` set, `BITBASIS` returns 0 or 8 and leaves the globals as
they are. For a slot that has either no bit or all eight bits seen: it returns 8
when no bit has been seen; when all bits are seen and the byte differs from
the stored value it returns 8 exactly if `outputFilter <= maxOutputFilter`;
when all bits are seen and the byte is the stored value it returns 8
exactly if `outputFilter = 0`. -/
theorem C30_bitbasis_decision (a : Args) (c : Ctx) (nb bs : Nat)
    (hpti : bytesPti a.packetType ≠ 0xFF)
    (hnb : nr_bytes (bytesPts a.packetSrc) (bytesPti a.packetType) = some nb)
    (hbs : bytestart (bytesPts a.packetSrc) (bytesPti a.packetType) = some bs)
    (hidx : a.payloadIndex ≤ nb) (hin : bs + a.payloadIndex < sizeValSeen)
    (hha : c.haConfig ≠ 0) :
    ∃ o, BITBASIS a c = some o ∧ o.st = c.st ∧ (o.status = 0 ∨ o.status = 8) ∧
      (c.st.payloadByteSeen (bs + a.payloadIndex) = 0 → o.status = 8) ∧
      (c.st.payloadByteSeen (bs + a.payloadIndex) = 0xFF →
        c.st.payloadByteVal (bs + a.payloadIndex) ≠ a.payload a.payloadIndex →
        (o.status = 8 ↔ c.st.outputFilter ≤ c.st.maxOutputFilter)) ∧
      (c.st.payloadByteSeen (bs + a.payloadIndex) = 0xFF →
        c.st.payloadByteVal (bs + a.payloadIndex) = a.payload a.payloadIndex →
        (o.status = 8 ↔ c.st.outputFilter = 0)) := by
  have n08 : (0 : Nat) ≠ 8 := by decide
  refine ⟨_, BITBASIS_one a c nb bs hpti hnb hbs hidx hin hha, rfl, ?_, ?_, ?_, ?_⟩
  · show (if _ then _ else _) = 0 ∨ (if _ then _ else _) = 8
    split_ifs <;> simp
  · intro h0
    show (if _ then _ else _) = 8
    rw [if_neg (by rw [h0]; decide)]
  · intro hs hv
    show (if _ then _ else _) = 8 ↔ _
    rw [if_pos (by rw [hs]; decide), if_pos hv]
    by_cases h3 : c.st.outputFilter ≤ c.st.maxOutputFilter
    · rw [if_pos h3]; exact ⟨fun _ => h3, fun _ => rfl⟩
    · rw [if_neg h3]; exact ⟨fun h => absurd h n08, fun h => absurd h h3⟩
  · intro hs hv
    show (if _ then _ else _) = 8 ↔ _
    rw [if_pos (by rw [hs]; decide), if_neg (by simpa using hv)]
    by_cases h3 : c.st.outputFilter = 0
    · rw [if_pos h3]; exact ⟨fun _ => h3, fun _ => rfl⟩
    · rw [if_neg h3]; exact ⟨fun h => absurd h n08, fun h => absurd h h3⟩

/-- C30 (witness): slot 173 of source 0x89, type 0x2D, index 0x21, unseen on the
cache at process start, and slot 147 of index 7, seen with the value 0x14, for the
incoming byte 0x15. -/
theorem C30_bitbasis_decision_witness :
    (∃ o, BITBASIS ⟨0x89, 0x2D, 0x21, fun _ => 0x15, 8⟩ seenCtx = some o ∧ o.status = 8) ∧
    (∃ o, BITBASIS ⟨0x89, 0x2D, 7, fun _ => 0x15, 8⟩ seenCtx = some o ∧
      (o.status = 8 ↔ seenCtx.st.outputFilter ≤ seenCtx.st.maxOutputFilter)) := by
  constructor
  · obtain ⟨o, h1, _, _, h4, _, _⟩ := C30_bitbasis_decision ⟨0x89, 0x2D, 0x21, fun _ => 0x15, 8⟩
      seenCtx 42 140 (by decide) (by decide) (by decide) (by decide) (by decide) (by decide)
    exact ⟨o, h1, h4 (by decide)⟩
  · obtain ⟨o, h1, _, _, _, h5, _⟩ := C30_bitbasis_decision ⟨0x89, 0x2D, 7, fun _ => 0x15, 8⟩
      seenCtx 42 140 (by decide) (by decide) (by decide) (by decide) (by decide) (by decide)
    exact ⟨o, h1, h5 (by decide) (by decide)⟩

/-! ## Discovery at most once -/

/-- The slot loop only adds to the seen masks. -/
theorem bytesLoop_seenGrows (bs pI : Nat) (payload : Nat → Nat) (ha : Nat) (sv : Bool)
    (fuel i : Nat) (nb pub : Bool) (s : State) (e : LoopExit) (t : State)
    (h : bytesLoop bs pI payload ha sv fuel i nb pub s = some (e, t)) : seenGrows s t := by
  refine bytesLoop_rel seenGrows seenGrows_refl seenGrows_trans bs pI payload ha sv ?_ ?_
    fuel i nb pub s e t h
  · intro _ s k v _ _ q n hq
    exact hq
  · intro _ s k v _ hz q n hq
    show (arrSet s.payloadByteSeen k 0xFF q).testBit n = true
    by_cases hqk : q = k
    · subst hqk
      rw [hz, Nat.zero_testBit] at hq
      cases hq
    · rw [arrSet_other _ _ _ _ hqk]; exact hq

/-- A loop that ends with `pubHA` set was entered with it set, or ran with
`saveSeen` over a slot that was unseen when the loop was entered. -/
theorem bytesLoop_pub (bs pI : Nat) (payload : Nat → Nat) (ha : Nat) (sv : Bool)
    (hpI : pI < 255) :
    ∀ (fuel i : Nat) (nb pub : Bool) (s : State) (nb1 : Bool) (t : State),
      bytesLoop bs pI payload ha sv fuel i nb pub s = some (LoopExit.done nb1 true, t) →
      pub = true ∨
        (sv = true ∧ ∃ j, i ≤ j ∧ j ≤ pI ∧ s.payloadByteSeen ((bs + j) % 65536) = 0) := by
  intro fuel
  induction fuel with
  | zero => intro i nb pub s nb1 t h; simp [bytesLoop] at h
  | succ f ih =>
    intro i nb pub s nb1 t h
    rw [bytesLoop] at h
    by_cases hi : i ≤ pI
    · rw [if_pos hi] at h
      have hnext : (i + 1) % 256 = i + 1 := by apply Nat.mod_eq_of_lt; omega
      simp only [hnext] at h
      have hup : ∀ (s1 : State), s1.payloadByteSeen = s.payloadByteSeen →
          (pub = true ∨ (sv = true ∧ ∃ j, i + 1 ≤ j ∧ j ≤ pI ∧
            s1.payloadByteSeen ((bs + j) % 65536) = 0)) →
          pub = true ∨ (sv = true ∧ ∃ j, i ≤ j ∧ j ≤ pI ∧
            s.payloadByteSeen ((bs + j) % 65536) = 0) := by
        intro s1 he hr
        rcases hr with hr | ⟨hsv, j, h1, h2, h3⟩
        · exact Or.inl hr
        · exact Or.inr ⟨hsv, j, by omega, h2, by rw [← he]; exact h3⟩
      by_cases hr : (bs + i) % 65536 ≥ sizeValSeen
      · rw [if_pos hr] at h; cases h
      · rw [if_neg hr] at h
        by_cases hseen : s.payloadByteSeen ((bs + i) % 65536) ≠ 0
        · rw [if_pos hseen] at h
          by_cases hval : s.payloadByteVal ((bs + i) % 65536) ≠ payload i
          · rw [if_pos hval] at h
            cases sv
            · simp only [Bool.false_eq_true, if_false] at h
              exact hup s rfl (ih _ _ _ _ _ _ h)
            · simp only [if_true] at h
              have h2 := ih _ _ _ _ _ _ h
              exact hup _ rfl h2
          · rw [if_neg hval] at h
            exact hup s rfl (ih _ _ _ _ _ _ h)
        · rw [if_neg hseen] at h
          have hz : s.payloadByteSeen ((bs + i) % 65536) = 0 := by simpa using hseen
          cases sv
          · simp only [Bool.false_eq_true, if_false] at h
            exact hup s rfl (ih _ _ _ _ _ _ h)
          · exact Or.inr ⟨rfl, i, Nat.le_refl _, hi, hz⟩
    · rw [if_neg hi] at h
      simp only [Option.some.injEq, Prod.mk.injEq, LoopExit.done.injEq] at h
      exact Or.inl h.1.2

/-- A loop with `saveSeen` that runs to its end leaves every slot of its range
seen. -/
theorem bytesLoop_done_seen (bs pI : Nat) (payload : Nat → Nat) (ha : Nat)
    (hpI : pI < 255) :
    ∀ (fuel i : Nat) (nb pub : Bool) (s : State) (nb1 pub1 : Bool) (t : State),
      bytesLoop bs pI payload ha true fuel i nb pub s = some (LoopExit.done nb1 pub1, t) →
      ∀ j, i ≤ j → j ≤ pI → t.payloadByteSeen ((bs + j) % 65536) ≠ 0 := by
  intro fuel
  induction fuel with
  | zero => intro i nb pub s nb1 pub1 t h; simp [bytesLoop] at h
  | succ f ih =>
    intro i nb pub s nb1 pub1 t h j hij hj
    rw [bytesLoop] at h
    have hi : i ≤ pI := by omega
    rw [if_pos hi] at h
    have hnext : (i + 1) % 256 = i + 1 := by apply Nat.mod_eq_of_lt; omega
    simp only [hnext, if_true] at h
    have hstep : ∀ (nb2 pub2 : Bool) (s1 : State),
        bytesLoop bs pI payload ha true f (i + 1) nb2 pub2 s1
          = some (LoopExit.done nb1 pub1, t) →
        s1.payloadByteSeen ((bs + i) % 65536) ≠ 0 →
        t.payloadByteSeen ((bs + j) % 65536) ≠ 0 := by
      intro nb2 pub2 s1 hl h1
      by_cases hji : j = i
      · subst hji
        exact seenGrows_ne_zero s1 t (bytesLoop_seenGrows _ _ _ _ _ _ _ _ _ _ _ _ hl) _ h1
      · exact ih _ _ _ _ _ _ _ hl j (by omega) hj
    by_cases hr : (bs + i) % 65536 ≥ sizeValSeen
    · rw [if_pos hr] at h; cases h
    · rw [if_neg hr] at h
      by_cases hseen : s.payloadByteSeen ((bs + i) % 65536) ≠ 0
      · rw [if_pos hseen] at h
        by_cases hval : s.payloadByteVal ((bs + i) % 65536) ≠ payload i
        · rw [if_pos hval] at h
          exact hstep _ _ _ h hseen
        · rw [if_neg hval] at h
          exact hstep _ _ _ h hseen
      · rw [if_neg hseen] at h
        refine hstep _ _ _ h ?_
        show arrSet s.payloadByteSeen _ 0xFF _ ≠ 0
        rw [arrSet_same]; decide

/-- A call of the byte path that publishes found its address not settled and
leaves it settled. -/
theorem newPayloadBytesVal_published (s : State) (packetSrc packetType payloadIndex : Nat)
    (payload : Nat → Nat) (haConfig length : Nat) (saveSeen : Bool) (o : Observed)
    (h : newPayloadBytesVal s packetSrc packetType payloadIndex payload haConfig length saveSeen
      = some o) (hp : o.published = true) :
    ¬ settled s ⟨false, packetSrc, packetType, payloadIndex, length⟩ ∧
    settled o.st ⟨false, packetSrc, packetType, payloadIndex, length⟩ := by
  unfold newPayloadBytesVal at h
  simp only at h
  by_cases hpti : bytesPti packetType = 0xFF
  · rw [if_pos hpti] at h; cases h; cases hp
  · rw [if_neg hpti] at h
    cases hnb : nr_bytes (bytesPts packetSrc) (bytesPti packetType) with
    | none => rw [hnb] at h; cases h
    | some nb =>
      cases hbs : bytestart (bytesPts packetSrc) (bytesPti packetType) with
      | none => rw [hnb, hbs] at h; cases h
      | some bs =>
        rw [hnb, hbs] at h
        simp only at h
        have h42 := nr_bytes_le _ _ _ hnb
        have hb := (tables_bound _ _ _ _ hnb hbs).1
        simp only [sizeValSeen] at hb
        by_cases h1 : payloadIndex > nb
        · rw [if_pos h1] at h; cases h; cases hp
        · rw [if_neg h1] at h
          by_cases h2 : payloadIndex + 1 < length
          · rw [if_pos h2] at h; cases h; cases hp
          · rw [if_neg h2] at h
            have hmod : (payloadIndex + 1 - length) % 256 = payloadIndex + 1 - length := by
              apply Nat.mod_eq_of_lt; omega
            rw [hmod] at h
            cases hl : bytesLoop bs payloadIndex payload haConfig saveSeen 256
                (payloadIndex + 1 - length) (decide (s.outputFilter = 0)) false s with
            | none => rw [hl] at h; cases h
            | some r =>
              obtain ⟨e, t⟩ := r
              rw [hl] at h
              cases e with
              | returned0 => cases h; cases hp
              | done nb1 pub1 =>
                simp only [Option.some.injEq] at h
                subst h
                simp only at hp
                subst hp
                have hmodj : ∀ j, j ≤ payloadIndex → (bs + j) % 65536 = bs + j := by
                  intro j hj; apply Nat.mod_eq_of_lt; omega
                rcases bytesLoop_pub bs payloadIndex payload haConfig saveSeen (by omega)
                  _ _ _ _ _ _ _ hl with hf | ⟨hsv, j, hj1, hj2, hj3⟩
                · cases hf
                · subst hsv
                  constructor
                  · intro hset
                    unfold settled at hset
                    simp only [Bool.false_eq_true, if_false] at hset
                    rw [hmodj j hj2] at hj3
                    exact hset bs hbs j hj1 hj2 hj3
                  · unfold settled
                    simp only [Bool.false_eq_true, if_false]
                    intro bs2 hbs2 j2 hj21 hj22
                    rw [hbs] at hbs2
                    simp only [Option.some.injEq] at hbs2
                    subst hbs2
                    have := bytesLoop_done_seen bs payloadIndex payload haConfig (by omega)
                      _ _ _ _ _ _ _ _ hl j2 hj21 hj22
                    rw [hmodj j2 hj22] at this
                    exact this

/-- The observation of a bit publishes only when the bit of the seen mask is
clear. -/
theorem bitObserve_published (s : State) (pi2 b haConfig bitNr : Nat) (hn : bitNr ≤ 7)
    (hp : (bitObserve s pi2 b haConfig bitNr).published = true) :
    (s.payloadByteSeen pi2).testBit bitNr = false := by
  unfold bitObserve at hp
  simp only [bitMaskOf_eq bitNr hn] at hp
  by_cases hseen : s.payloadByteSeen pi2 &&& 2 ^ bitNr ≠ 0
  · rw [if_pos hseen] at hp
    split_ifs at hp
  · cases hb : (s.payloadByteSeen pi2).testBit bitNr
    · rfl
    · exact absurd ((and_two_pow_ne_zero _ _).mpr hb) hseen

/-- A call of the bit path that publishes found its address not settled and
leaves it settled. -/
theorem newPayloadBitVal_published (s : State) (packetSrc packetType payloadIndex : Nat)
    (payload : Nat → Nat) (haConfig bitNr : Nat) (o : Observed)
    (h : newPayloadBitVal s packetSrc packetType payloadIndex payload haConfig bitNr = some o)
    (hp : o.published = true) :
    ¬ settled s ⟨true, packetSrc, packetType, payloadIndex, bitNr⟩ ∧
    settled o.st ⟨true, packetSrc, packetType, payloadIndex, bitNr⟩ := by
  unfold newPayloadBitVal at h
  simp only at h
  by_cases h1 : bitNr > 7
  · rw [if_pos h1] at h; cases h; cases hp
  · rw [if_neg h1] at h
    by_cases h2 : packetType < PCKTP_START
    · rw [if_pos h2] at h; cases h; cases hp
    · rw [if_neg h2] at h
      by_cases h3 : packetType > PCKTP_END ∧ packetType ≠ 0x31
      · rw [if_pos h3] at h; cases h; cases hp
      · rw [if_neg h3] at h
        cases hnb : nr_bytes (bitPts packetSrc) (bitPti packetType) with
        | none => rw [hnb] at h; cases h
        | some nb =>
          rw [hnb] at h
          simp only at h
          by_cases h4 : payloadIndex > nb
          · rw [if_pos h4] at h; cases h; cases hp
          · rw [if_neg h4] at h
            cases hbs : bytestart (bitPts packetSrc) (bitPti packetType) with
            | none => rw [hbs] at h; cases h
            | some bs =>
              rw [hbs] at h
              simp only [Option.some.injEq] at h
              subst h
              have hn : bitNr ≤ 7 := by omega
              have hclear := bitObserve_published _ _ _ _ _ hn hp
              constructor
              · intro hset
                unfold settled at hset
                simp only [if_true] at hset
                rw [hset bs hbs] at hclear
                cases hclear
              · unfold settled
                simp only [if_true]
                intro bs2 hbs2
                rw [hbs] at hbs2
                simp only [Option.some.injEq] at hbs2
                subst hbs2
                exact (bitObserve_post s _ _ haConfig bitNr hn).1

theorem CacheCall.run_published (c : CacheCall) (s : State) (o : Observed)
    (h : c.run s = some o) (hp : o.published = true) :
    ¬ settled s c.address ∧ settled o.st c.address := by
  cases c with
  | bytes src type idx payload ha len sv =>
    exact newPayloadBytesVal_published _ _ _ _ _ _ _ _ _ h hp
  | bit src type idx payload ha n => exact newPayloadBitVal_published _ _ _ _ _ _ _ _ h hp

/-- A settled address stays settled when the seen masks grow. -/
theorem settled_seenGrows (s t : State) (a : FieldAddress) (hg : seenGrows s t)
    (h : settled s a) : settled t a := by
  unfold settled at h ⊢
  by_cases hb : a.bitPath = true
  · rw [if_pos hb] at h ⊢
    intro bs hbs
    exact hg _ _ (h bs hbs)
  · rw [if_neg hb] at h ⊢
    intro bs hbs j h1 h2
    exact seenGrows_ne_zero s t hg _ (h bs hbs j h1 h2)

/-- No call publishes for an address that is settled. -/
theorem discoveries_settled (cs : List CacheCall) :
    ∀ (s : State) (ds : List FieldAddress), discoveries cs s = some ds →
      ∀ a, settled s a → a ∉ ds := by
  induction cs with
  | nil =>
    intro s ds h a _
    simp only [discoveries, Option.some.injEq] at h
    subst h
    exact List.not_mem_nil a
  | cons c rest ih =>
    intro s ds h a ha
    simp only [discoveries] at h
    cases hc : c.run s with
    | none => rw [hc] at h; cases h
    | some o =>
      rw [hc] at h
      simp only at h
      cases hr : discoveries rest o.st with
      | none => rw [hr] at h; cases h
      | some ds1 =>
        rw [hr] at h
        simp only [Option.some.injEq] at h
        subst h
        have htail : a ∉ ds1 :=
          ih o.st ds1 hr a (settled_seenGrows s o.st a (c.run_seenGrows s o hc) ha)
        by_cases hp : o.published = true
        · rw [if_pos hp]
          intro hmem
          rcases List.mem_cons.mp hmem with he | hm
          · have := (c.run_published s o hc hp).1
            rw [← he] at this
            exact this ha
          · exact htail hm
        · rw [if_neg hp]; exact htail

theorem discoveries_nodup (cs : List CacheCall) :
    ∀ (s : State) (ds : List FieldAddress), discoveries cs s = some ds → ds.Nodup := by
  induction cs with
  | nil =>
    intro s ds h
    simp only [discoveries, Option.some.injEq] at h
    subst h
    exact List.nodup_nil
  | cons c rest ih =>
    intro s ds h
    simp only [discoveries] at h
    cases hc : c.run s with
    | none => rw [hc] at h; cases h
    | some o =>
      rw [hc] at h
      simp only at h
      cases hr : discoveries rest o.st with
      | none => rw [hr] at h; cases h
      | some ds1 =>
        rw [hr] at h
        simp only [Option.some.injEq] at h
        subst h
        by_cases hp : o.published = true
        · rw [if_pos hp]
          exact List.nodup_cons.mpr
            ⟨discoveries_settled rest o.st ds1 hr _ (c.run_published s o hc hp).2,
             ih o.st ds1 hr⟩
        · rw [if_neg hp]; exact ih o.st ds1 hr

/-- Both tables have an entry in each of their 2 rows and 13 columns. -/
theorem tables_defined (pts pti : Nat) (hpts : pts < 2) (hpti : pti < 13) :
    ∃ nb bs, nr_bytes pts pti = some nb ∧ bytestart pts pti = some bs := by
  interval_cases pts <;> interval_cases pti <;>
    simp [nr_bytes, bytestart, tableRead, nr_bytes_rows, bytestart_rows]

/-- The bit path returns for every source below 0x80. -/
theorem newPayloadBitVal_total (s : State) (packetSrc packetType payloadIndex : Nat)
    (payload : Nat → Nat) (haConfig bitNr : Nat) (hsrc : packetSrc < 0x80) :
    ∃ o, newPayloadBitVal s packetSrc packetType payloadIndex payload haConfig bitNr
      = some o := by
  unfold newPayloadBitVal
  simp only
  by_cases h1 : bitNr > 7
  · rw [if_pos h1]; exact ⟨_, rfl⟩
  · rw [if_neg h1]
    by_cases h2 : packetType < PCKTP_START
    · rw [if_pos h2]; exact ⟨_, rfl⟩
    · rw [if_neg h2]
      by_cases h3 : packetType > PCKTP_END ∧ packetType ≠ 0x31
      · rw [if_pos h3]; exact ⟨_, rfl⟩
      · rw [if_neg h3]
        have hpts : bitPts packetSrc < 2 := by
          unfold bitPts
          rw [Nat.shiftRight_eq_div_pow]
          exact Nat.div_lt_of_lt_mul (by omega)
        have hpti : bitPti packetType < 13 := by
          unfold bitPti
          simp only [PCKTP_START, PCKTP_END] at h2 h3 ⊢
          split_ifs <;> omega
        obtain ⟨nb, bs, hnb, hbs⟩ := tables_defined _ _ hpts hpti
        rw [hnb, hbs]
        simp only
        by_cases h4 : payloadIndex > nb
        · rw [if_pos h4]; exact ⟨_, rfl⟩
        · rw [if_neg h4]; exact ⟨_, rfl⟩

theorem discoveries_total (cs : List CacheCall) :
    ∀ (s : State),
      (∀ src type idx payload ha n, CacheCall.bit src type idx payload ha n ∈ cs → src < 0x80) →
      ∃ ds, discoveries cs s = some ds := by
  induction cs with
  | nil => intro s _; exact ⟨[], rfl⟩
  | cons c rest ih =>
    intro s hsrc
    have hc : ∃ o, c.run s = some o := by
      cases c with
      | bytes src type idx payload ha len sv => exact newPayloadBytesVal_total _ _ _ _ _ _ _ _
      | bit src type idx payload ha n =>
        exact newPayloadBitVal_total _ _ _ _ _ _ _
          (hsrc src type idx payload ha n (List.mem_cons_self _ _))
    obtain ⟨o, ho⟩ := hc
    obtain ⟨ds, hds⟩ := ih o.st
      (fun src type idx payload ha n hm => hsrc src type idx payload ha n
        (List.mem_cons_of_mem _ hm))
    simp only [discoveries, ho, hds]
    exact ⟨_, rfl⟩

/-- C23. Discovery at most once. Over every sequence of calls of `newPayloadBytesVal`
and `newPayloadBitVal`, from every cache and so from the empty one, with the
call of `client_publish_mqtt` as an output event that carries the field address
(path, source, type, `payloadIndex`, and the width or the bit number): no
address occurs twice among the events, whatever the payloads, `haConfig` and
filter settings of the calls are. The sequence runs to its end when every
call of the bit path has a source below 0x80, for which the bit path reads its
tables inside their bounds. -/
theorem C23_discovery_at_most_once (cs : List CacheCall) (s : State) :
    ((∀ src type idx payload ha n, CacheCall.bit src type idx payload ha n ∈ cs → src < 0x80) →
      ∃ ds, discoveries cs s = some ds) ∧
    (∀ ds, discoveries cs s = some ds → ds.Nodup) ∧
    (∀ ds, discoveries cs (emptyCache s) = some ds → ds.Nodup) :=
  ⟨discoveries_total cs s, discoveries_nodup cs s, discoveries_nodup cs (emptyCache s)⟩

/-- C23 (witness): from the cache at process start, index 7 of source 0x89 and
type 0x2D is observed with the bytes 0x14, 0x14 and 0x15, and bit 3 of index 0 of
source 0x00 and type 0x0D with the bytes 0x08, 0x00 and 0x08, all with `haConfig`
set: one event for each of the two addresses. -/
theorem C23_discovery_at_most_once_witness :
    discoveries
      [CacheCall.bytes 0x89 0x2D 7 (fun _ => 0x14) 1 1 true,
       CacheCall.bit 0x00 0x0D 0 (fun _ => 0x08) 1 3,
       CacheCall.bytes 0x89 0x2D 7 (fun _ => 0x14) 1 1 true,
       CacheCall.bit 0x00 0x0D 0 (fun _ => 0x00) 1 3,
       CacheCall.bytes 0x89 0x2D 7 (fun _ => 0x15) 1 1 true,
       CacheCall.bit 0x00 0x0D 0 (fun _ => 0x08) 1 3] startState
      = some [⟨false, 0x89, 0x2D, 7, 1⟩, ⟨true, 0x00, 0x0D, 0, 3⟩] ∧
    [(⟨false, 0x89, 0x2D, 7, 1⟩ : FieldAddress), ⟨true, 0x00, 0x0D, 0, 3⟩].Nodup :=
  have h : discoveries
      [CacheCall.bytes 0x89 0x2D 7 (fun _ => 0x14) 1 1 true,
       CacheCall.bit 0x00 0x0D 0 (fun _ => 0x08) 1 3,
       CacheCall.bytes 0x89 0x2D 7 (fun _ => 0x14) 1 1 true,
       CacheCall.bit 0x00 0x0D 0 (fun _ => 0x00) 1 3,
       CacheCall.bytes 0x89 0x2D 7 (fun _ => 0x15) 1 1 true,
       CacheCall.bit 0x00 0x0D 0 (fun _ => 0x08) 1 3] startState
      = some [⟨false, 0x89, 0x2D, 7, 1⟩, ⟨true, 0x00, 0x0D, 0, 3⟩] := by decide
  ⟨h, (C23_discovery_at_most_once _ startState).2.1 _ h⟩

/-! ## A change that the filter suppresses -/

/-- C34. A change suppressed by the filter is absorbed. At every in-range
single-byte address whose slot is seen, a call of `newPayloadBytesVal` with
`saveSeen` set that finds another value than the stored one while
`outputFilter > maxOutputFilter` returns false, publishes nothing, and stores the
new value. A following observation of the same value, from globals with the
cache that the first call left and any nonzero `outputFilter` (one at or below
`maxOutputFilter` included), whatever `haConfig` and the other settings are,
returns false as well and leaves the globals as they are: the change is not
reported. -/
theorem C34_suppressed_change_absorbed (s : State) (packetSrc packetType payloadIndex : Nat)
    (payload : Nat → Nat) (haConfig nb bs : Nat)
    (hpti : bytesPti packetType ≠ 0xFF)
    (hnb : nr_bytes (bytesPts packetSrc) (bytesPti packetType) = some nb)
    (hbs : bytestart (bytesPts packetSrc) (bytesPti packetType) = some bs)
    (hidx : payloadIndex ≤ nb) (hin : bs + payloadIndex < sizeValSeen)
    (hseen : s.payloadByteSeen (bs + payloadIndex) ≠ 0)
    (hval : s.payloadByteVal (bs + payloadIndex) ≠ payload payloadIndex)
    (hfilter : s.outputFilter > s.maxOutputFilter) :
    ∃ o1, newPayloadBytesVal s packetSrc packetType payloadIndex payload haConfig 1 true
        = some o1 ∧
      o1.ret = false ∧ o1.published = false ∧
      o1.st.payloadByteVal (bs + payloadIndex) = payload payloadIndex ∧
      ∀ (s2 : State) (payload2 : Nat → Nat) (haConfig2 : Nat),
        s2.payloadByteVal = o1.st.payloadByteVal → s2.payloadByteSeen = o1.st.payloadByteSeen →
        s2.outputFilter ≠ 0 → payload2 payloadIndex = payload payloadIndex →
        ∃ o2, newPayloadBytesVal s2 packetSrc packetType payloadIndex payload2 haConfig2 1 true
            = some o2 ∧
          o2.ret = false ∧ o2.published = false ∧ o2.st = s2 := by
  have h1 := newPayloadBytesVal_one s packetSrc packetType payloadIndex payload haConfig nb bs
    true hpti hnb hbs hidx hin
  rw [if_pos hseen, if_pos hval] at h1
  refine ⟨_, h1, ?_, rfl, ?_, ?_⟩
  · show reportable s haConfig (decide (s.outputFilter ≤ s.maxOutputFilter)) = false
    have hn : ¬ s.outputFilter ≤ s.maxOutputFilter := by omega
    unfold reportable
    rw [decide_eq_false hn, Bool.and_false]
  · show (arrSet s.payloadByteVal (bs + payloadIndex) (payload payloadIndex)) _ = _
    exact arrSet_same _ _ _
  · intro s2 payload2 haConfig2 hv hs hf hp
    have hseen2 : s2.payloadByteSeen (bs + payloadIndex) ≠ 0 := by rw [hs]; exact hseen
    have hval2 : ¬ s2.payloadByteVal (bs + payloadIndex) ≠ payload2 payloadIndex := by
      rw [hv, hp]
      intro hc
      exact hc (arrSet_same _ _ _)
    have h2 := newPayloadBytesVal_one s2 packetSrc packetType payloadIndex payload2 haConfig2
      nb bs true hpti hnb hbs hidx hin
    rw [if_pos hseen2, if_neg hval2] at h2
    refine ⟨_, h2, ?_, rfl, rfl⟩
    show reportable s2 haConfig2 (decide (s2.outputFilter = 0)) = false
    unfold reportable
    rw [decide_eq_false hf, Bool.and_false]

/-- C34 (witness): slot 147 (source 0x89, type 0x2D, index 7) seen with the value
0x14, `outputFilter = 2` above `maxOutputFilter = 1`; the byte 0x15 is stored
without a report, and the next observation of 0x15 with `outputFilter = 1` is
not reported either. -/
theorem C34_suppressed_change_absorbed_witness :
    ∃ o1, newPayloadBytesVal
        { filteredState with payloadByteSeen := arrSet filteredState.payloadByteSeen 147 0xFF,
                             payloadByteVal := arrSet filteredState.payloadByteVal 147 0x14 }
        0x89 0x2D 7 (fun _ => 0x15) 1 1 true = some o1 ∧
      o1.ret = false ∧ o1.st.payloadByteVal 147 = 0x15 ∧
      ∃ o2, newPayloadBytesVal { o1.st with outputFilter := 1 } 0x89 0x2D 7 (fun _ => 0x15) 1 1 true
          = some o2 ∧ o2.ret = false := by
  obtain ⟨o1, h1, h2, _, h4, h5⟩ := C34_suppressed_change_absorbed
    { filteredState with payloadByteSeen := arrSet filteredState.payloadByteSeen 147 0xFF,
                         payloadByteVal := arrSet filteredState.payloadByteVal 147 0x14 }
    0x89 0x2D 7 (fun _ => 0x15) 1 42 140 (by decide) (by decide) (by decide) (by decide)
    (by decide) (by decide) (by decide) (by decide)
  obtain ⟨o2, h6, h7, _, _⟩ := h5 { o1.st with outputFilter := 1 } (fun _ => 0x15) 1 rfl rfl
    Nat.one_ne_zero rfl
  exact ⟨o1, h1, h2, h4, o2, h6, h7⟩

/-! ## Termination of the two loops -/

/-- A loop that ends within its fuel ends the same way with more fuel. -/
theorem bytesLoop_fuel_mono (bs pI : Nat) (payload : Nat → Nat) (ha : Nat) (sv : Bool) :
    ∀ (fuel i : Nat) (nb pub : Bool) (s : State) (r : LoopExit × State),
      bytesLoop bs pI payload ha sv fuel i nb pub s = some r →
      ∀ k, bytesLoop bs pI payload ha sv (fuel + k) i nb pub s = some r := by
  intro fuel
  induction fuel with
  | zero => intro i nb pub s r h; simp [bytesLoop] at h
  | succ f ih =>
    intro i nb pub s r h k
    rw [Nat.add_right_comm]
    rw [bytesLoop] at h ⊢
    by_cases hi : i ≤ pI
    · rw [if_pos hi] at h ⊢
      simp only at h ⊢
      by_cases hr : (bs + i) % 65536 ≥ sizeValSeen
      · rw [if_pos hr] at h ⊢; exact h
      · rw [if_neg hr] at h ⊢
        by_cases hseen : s.payloadByteSeen ((bs + i) % 65536) ≠ 0
        · rw [if_pos hseen] at h ⊢
          by_cases hval : s.payloadByteVal ((bs + i) % 65536) ≠ payload i
          · rw [if_pos hval] at h ⊢
            exact ih _ _ _ _ _ h k
          · rw [if_neg hval] at h ⊢
            exact ih _ _ _ _ _ h k
        · rw [if_neg hseen] at h ⊢
          cases sv
          · simp only [Bool.false_eq_true, if_false] at h ⊢
            exact ih _ _ _ _ _ h k
          · simp only [if_true] at h ⊢
            exact ih _ _ _ _ _ h k
    · rw [if_neg hi] at h ⊢; exact h

set_option maxRecDepth 100000 in
/-- The mask loop ends within 8 evaluations of its condition. -/
theorem uptimeMaskLoop_bound :
    ∀ b, b < 256 → (uptimeMaskLoop b 8 0x01).isSome = true ∧
      uptimeMaskLoop b 256 0x01 = uptimeMaskLoop b 8 0x01 := by
  decide

/-- C35. Termination. The slot loop of `newPayloadBytesVal` is entered only with
`payloadIndex <= nr_bytes[pts][pti] <= 42` and `length <= payloadIndex + 1`; then
its byte counter starts at `payloadIndex + 1 - length` without truncation and
never wraps, and the loop ends within `length` iterations: `length + 1`
evaluations of its condition give the result, which is the one the function
works with; so `newPayloadBytesVal` returns at every input. The mask loop of
`value_u32_LE_uptime` ends within 7 iterations (8 evaluations of its condition) for
every byte `payload[payloadIndex - 1]`, and the byte 0xFF needs all 7. -/
theorem C35_termination :
    (∀ (s : State) (packetSrc packetType payloadIndex : Nat) (payload : Nat → Nat)
      (haConfig length nb bs : Nat) (saveSeen : Bool),
      bytesPti packetType ≠ 0xFF →
      nr_bytes (bytesPts packetSrc) (bytesPti packetType) = some nb →
      bytestart (bytesPts packetSrc) (bytesPti packetType) = some bs →
      payloadIndex ≤ nb → length ≤ payloadIndex + 1 →
      payloadIndex ≤ 42 ∧
      (payloadIndex + 1 - length) % 256 = payloadIndex + 1 - length ∧
      (∀ i, i ≤ payloadIndex → (i + 1) % 256 = i + 1) ∧
      ∃ r, bytesLoop bs payloadIndex payload haConfig saveSeen (length + 1)
          (payloadIndex + 1 - length) (decide (s.outputFilter = 0)) false s = some r ∧
        bytesLoop bs payloadIndex payload haConfig saveSeen 256
          ((payloadIndex + 1 - length) % 256) (decide (s.outputFilter = 0)) false s = some r) ∧
    (∀ (s : State) (packetSrc packetType payloadIndex : Nat) (payload : Nat → Nat)
      (haConfig length : Nat) (saveSeen : Bool),
      ∃ o, newPayloadBytesVal s packetSrc packetType payloadIndex payload haConfig length
        saveSeen = some o) ∧
    (∀ b, b < 256 → ∃ m, uptimeMaskLoop b 8 0x01 = some m ∧ uptimeMaskLoop b 256 0x01 = some m) ∧
    uptimeMaskLoop 0xFF 7 0x01 = none := by
  refine ⟨?_, newPayloadBytesVal_total, ?_, by decide⟩
  · intro s packetSrc packetType payloadIndex payload haConfig length nb bs saveSeen hpti hnb hbs
      hidx hlen
    have h42 := nr_bytes_le _ _ _ hnb
    have hmod : (payloadIndex + 1 - length) % 256 = payloadIndex + 1 - length := by
      apply Nat.mod_eq_of_lt; omega
    refine ⟨by omega, hmod, fun i hi => Nat.mod_eq_of_lt (by omega), ?_⟩
    obtain ⟨r, hr⟩ := bytesLoop_returns bs payloadIndex payload haConfig saveSeen (by omega)
      length (length + 1) (payloadIndex + 1 - length) (decide (s.outputFilter = 0)) false s
      (by omega) (by omega)
    refine ⟨r, hr, ?_⟩
    have hm := bytesLoop_fuel_mono bs payloadIndex payload haConfig saveSeen _ _ _ _ _ _ hr
      (256 - (length + 1))
    rw [hmod]
    have hf : length + 1 + (256 - (length + 1)) = 256 := by omega
    rw [hf] at hm
    exact hm
  · intro b hb
    obtain ⟨h1, h2⟩ := uptimeMaskLoop_bound b hb
    obtain ⟨m, hm⟩ := Option.isSome_iff_exists.mp h1
    exact ⟨m, hm, by rw [h2, hm]⟩

/-- C35 (witness): the four-byte range at index 5 of source 0x21 and type 0x12
ends within five evaluations of the loop condition; the mask loop for the
byte 0x90 ends within eight. -/
theorem C35_termination_witness :
    (∃ r, bytesLoop 68 5 (fun _ => 0x14) 1 true (4 + 1) (5 + 1 - 4)
        (decide (startState.outputFilter = 0)) false startState = some r ∧
      bytesLoop 68 5 (fun _ => 0x14) 1 true 256 ((5 + 1 - 4) % 256)
        (decide (startState.outputFilter = 0)) false startState = some r) ∧
    (∃ m, uptimeMaskLoop 0x90 8 0x01 = some m ∧ uptimeMaskLoop 0x90 256 0x01 = some m) :=
  ⟨(C35_termination.1 startState 0x21 0x12 5 (fun _ => 0x14) 1 4 15 68 true (by decide)
      (by decide) (by decide) (by decide) (by decide)).2.2.2,
   C35_termination.2.2.1 0x90 (by decide)⟩

/-! ## The eight bits of a byte -/

set_option maxRecDepth 100000 in
/-- The eight values of `FN_flag8`, weighted by the powers of two, add up to the
byte. -/
theorem FN_flag8_sum :
    ∀ b, b < 256 →
      ((List.range 8).map (fun n => (if FN_flag8 b n = true then 1 else 0) * 2 ^ n)).sum = b := by
  decide

/-- C36. Bit extraction round trip. For every byte `b`: `FN_flag8(b, n)`, read as a
number, is 0 or 1 for every `n`; the sum over `n = 0..7` of `FN_flag8(b, n) * 2^n` is
`b`; and a byte with the same eight values is `b`, so the eight values emitted
on bit basis determine the byte. -/
theorem C36_bit_round_trip (b : Nat) (hb : b < 256) :
    (∀ n, (if FN_flag8 b n = true then 1 else 0) = 0 ∨
      (if FN_flag8 b n = true then 1 else 0) = 1) ∧
    ((List.range 8).map (fun n => (if FN_flag8 b n = true then 1 else 0) * 2 ^ n)).sum = b ∧
    (∀ b2, b2 < 256 → (∀ n, n < 8 → FN_flag8 b2 n = FN_flag8 b n) → b2 = b) := by
  refine ⟨fun n => ?_, FN_flag8_sum b hb, fun b2 hb2 hall => ?_⟩
  · cases FN_flag8 b n
    · left; rfl
    · right; rfl
  · rw [← FN_flag8_sum b hb, ← FN_flag8_sum b2 hb2]
    congr 1
    apply List.map_congr_left
    intro n hn
    rw [hall n (List.mem_range.mp hn)]

/-- C36 (witness): the byte 0x94, whose bits 2, 4 and 7 are set. -/
theorem C36_bit_round_trip_witness :
    ((List.range 8).map (fun n => (if FN_flag8 0x94 n = true then 1 else 0) * 2 ^ n)).sum = 0x94 ∧
    (List.range 8).map (fun n => FN_flag8 0x94 n)
      = [false, false, true, false, true, false, false, true] :=
  ⟨(C36_bit_round_trip 0x94 (by decide)).2.1, by decide⟩

/-! ## Slots shared between layouts -/

set_option maxRecDepth 100000 in
/-- Two different entries of the tables, numbered row by row, have disjoint
ranges of `nr_bytes` slots from `bytestart` on. -/
theorem layouts_disjoint :
    ∀ p, p < 26 → ∀ q, q < 26 →
      p = q ∨
      (bytestart (p / 13) (p % 13)).getD 0 + (nr_bytes (p / 13) (p % 13)).getD 0
        ≤ (bytestart (q / 13) (q % 13)).getD 0 ∨
      (bytestart (q / 13) (q % 13)).getD 0 + (nr_bytes (q / 13) (q % 13)).getD 0
        ≤ (bytestart (p / 13) (p % 13)).getD 0 := by
  decide

/-- An entry of the tables lies in one of the 2 rows and 13 columns. -/
theorem tables_index (pts pti nb : Nat) (hnb : nr_bytes pts pti = some nb) :
    pts < 2 ∧ pti < 13 := by
  constructor
  · by_contra hc
    obtain ⟨p, rfl⟩ : ∃ p, pts = p + 2 := ⟨pts - 2, by omega⟩
    simp [nr_bytes, tableRead, nr_bytes_rows] at hnb
  · by_contra hc
    obtain ⟨p, rfl⟩ : ∃ p, pti = p + 13 := ⟨pti - 13, by omega⟩
    have hpts : pts < 2 := by
      by_contra hc2
      obtain ⟨q, rfl⟩ : ∃ q, pts = q + 2 := ⟨pts - 2, by omega⟩
      simp [nr_bytes, tableRead, nr_bytes_rows] at hnb
    interval_cases pts <;> simp [nr_bytes, tableRead, nr_bytes_rows] at hnb

/-- On the indices below `nr_bytes[pts][pti]` the address map is injective. -/
theorem slots_injective_below (pts pti i nb bs pts2 pti2 i2 nb2 bs2 : Nat)
    (hnb : nr_bytes pts pti = some nb) (hbs : bytestart pts pti = some bs) (hi : i < nb)
    (hnb2 : nr_bytes pts2 pti2 = some nb2) (hbs2 : bytestart pts2 pti2 = some bs2)
    (hi2 : i2 < nb2) (hslot : bs + i = bs2 + i2) : pts = pts2 ∧ pti = pti2 ∧ i = i2 := by
  obtain ⟨h1, h2⟩ := tables_index pts pti nb hnb
  obtain ⟨h3, h4⟩ := tables_index pts2 pti2 nb2 hnb2
  have hd := layouts_disjoint (13 * pts + pti) (by omega) (13 * pts2 + pti2) (by omega)
  have d1 : (13 * pts + pti) / 13 = pts := by omega
  have d2 : (13 * pts + pti) % 13 = pti := by omega
  have d3 : (13 * pts2 + pti2) / 13 = pts2 := by omega
  have d4 : (13 * pts2 + pti2) % 13 = pti2 := by omega
  rw [d1, d2, d3, d4, hnb, hbs, hnb2, hbs2] at hd
  simp only [Option.getD_some] at hd
  rcases hd with e | hd | hd
  · have e1 : pts = pts2 := by omega
    have e2 : pti = pti2 := by omega
    subst e1 e2
    rw [hbs] at hbs2
    simp only [Option.some.injEq] at hbs2
    exact ⟨rfl, rfl, by omega⟩
  · omega
  · omega

/-- C31 (evaluation at the failing inputs). The triples `(pts, pti, index)` =
(0, 5, 20) of source 0x00, type 0x0D and (0, 6, 0) of source 0x00, type 0x0E are
both accepted and differ, yet both have the slot index 20; so have (0, 9, 15) of
source 0x21, type 0x12 and (0, 10, 0) of source 0x41, type 0x18 the slot index 83.
On the cache at process start with `outputFilter = 1`, after index 20 of type
0x0D has been observed with the byte 7, the first observation of index 0 of
type 0x0E with the byte 7 returns false and publishes nothing, and its
observation with the byte 9 overwrites the value stored for the other
field. -/
theorem C31_slots_shared :
    bytesPti 0x0D ≠ 0xFF ∧ bytesPti 0x0E ≠ 0xFF ∧
    nr_bytes (bytesPts 0x00) (bytesPti 0x0D) = some 20 ∧
    bytestart (bytesPts 0x00) (bytesPti 0x0D) = some 0 ∧
    nr_bytes (bytesPts 0x00) (bytesPti 0x0E) = some 20 ∧
    bytestart (bytesPts 0x00) (bytesPti 0x0E) = some 20 ∧
    (bytesPts 0x00, bytesPti 0x0D, 20) ≠ (bytesPts 0x00, bytesPti 0x0E, 0) ∧
    (0 : Nat) + 20 = 20 + 0 ∧
    nr_bytes (bytesPts 0x21) (bytesPti 0x12) = some 15 ∧
    bytestart (bytesPts 0x21) (bytesPti 0x12) = some 68 ∧
    nr_bytes (bytesPts 0x41) (bytesPti 0x18) = some 21 ∧
    bytestart (bytesPts 0x41) (bytesPti 0x18) = some 83 ∧
    (bytesPts 0x21, bytesPti 0x12, 0x0F) ≠ (bytesPts 0x41, bytesPti 0x18, 0x00) ∧
    (68 : Nat) + 0x0F = 83 + 0x00 ∧
    (newPayloadBytesVal startState 0x00 0x0D 20 (fun _ => 7) 1 1 true).bind
      (fun o1 => (newPayloadBytesVal o1.st 0x00 0x0E 0 (fun _ => 7) 1 1 true).map
        (fun o2 => (o1.ret, o1.published, o1.st.payloadByteVal 20, o2.ret, o2.published)))
      = some (true, true, 7, false, false) ∧
    (newPayloadBytesVal startState 0x00 0x0D 20 (fun _ => 7) 1 1 true).bind
      (fun o1 => (newPayloadBytesVal o1.st 0x00 0x0E 0 (fun _ => 9) 1 1 true).map
        (fun o2 => (o1.st.payloadByteVal 20, o2.st.payloadByteVal 20)))
      = some (7, 9) := by
  decide

/-! ## The address on the two paths -/

/-- For a source up to 0x40 and a type in 0x0C..0x0F the two paths compute the same
class pair. -/
theorem paths_agree (packetSrc packetType : Nat) (hsrc : packetSrc ≤ 0x40)
    (htype : 0x0C ≤ packetType ∧ packetType ≤ 0x0F) :
    bytesPts packetSrc = bitPts packetSrc ∧ bytesPti packetType = bitPti packetType := by
  constructor
  · unfold bytesPts bitPts
    rw [Nat.shiftRight_eq_div_pow]
    by_cases h40 : packetSrc = 0x40
    · subst h40; decide
    · have hlt : packetSrc < 64 := by omega
      have hdiv : packetSrc / 2 ^ 6 = 0 := Nat.div_eq_of_lt (by omega)
      rw [hdiv]
      split_ifs <;> rfl
  · unfold bytesPti bitPti
    rw [if_pos htype, if_neg (by omega)]
    simp only [PCKTP_START]
    omega

/-- C32 (evaluation at the failing inputs). Source 0x00, type 0x0B, index 0: the
byte path computes the class pair (0, 8) and slot 60, the bit path the pair
(0, 3) and slot 0, and both accept the index. Source 0x41, type 0x0D, index 0: the
byte path computes the pair (0, 5) and slot 0, the bit path the pair (1, 5) and
slot 242. From the cache at process start, the eight observations on bit
basis of the byte 0xFF at source 0x00, type 0x0B, index 0 leave slot 0 seen and
slot 60 unseen, and the check on byte basis without `saveSeen` of the same byte
at the same address still reports it as new. -/
theorem C32_paths_disagree :
    (bytesPts 0x00, bytesPti 0x0B) = (0, 8) ∧ (bitPts 0x00, bitPti 0x0B) = (0, 3) ∧
    nr_bytes 0 8 = some 8 ∧ bytestart 0 8 = some 60 ∧
    nr_bytes 0 3 = some 0 ∧ bytestart 0 3 = some 0 ∧ bitSlot 0 0 = 0 ∧
    (bytesPts 0x41, bytesPti 0x0D) = (0, 5) ∧ (bitPts 0x41, bitPti 0x0D) = (1, 5) ∧
    nr_bytes 0 5 = some 20 ∧ bytestart 0 5 = some 0 ∧
    nr_bytes 1 5 = some 20 ∧ bytestart 1 5 = some 242 ∧ bitSlot 242 0 = 242 ∧
    (newPayloadBytesVal startState 0x00 0x0B 0 (fun _ => 0xFF) 1 1 false).map (fun o => o.ret)
      = some true ∧
    (afterCalls ((List.range 8).map (fun n => CacheCall.bit 0x00 0x0B 0 (fun _ => 0xFF) 1 n))
      startState).bind
      (fun t => (newPayloadBytesVal t 0x00 0x0B 0 (fun _ => 0xFF) 1 1 false).map
        (fun o => (t.payloadByteSeen 0, t.payloadByteVal 0, t.payloadByteSeen 60, o.ret)))
      = some (0xFF, 0xFF, 0, true) := by
  decide

/-! ## The leaves of the dispatch -/

/-- The leaf that a call for source 0x89 and type 0x2D ends in. -/
theorem leaf_case_89_2D (a : Args) (c : Ctx) (s : State) (value : List Char)
    (hc : c.entered s value) :
    ∃ c2 e, case_89_2D a c = e ∧
      (((a.payloadIndex ≠ 0x21 ∧ a.payloadIndex ≠ 0x22) ∧ e = RETURN0 c2) ∨
       ((a.payloadIndex ≠ 0x21 ∧ a.payloadIndex ≠ 0x22) ∧
         (e = VALUE_u8 a c2 ∨ e = VALUE_s8 a c2 ∨ e = UNKNOWN_BYTE a c2)) ∨
       ((a.bitNr = 8 ∧ (a.payloadIndex = 0x21 ∨ a.payloadIndex = 0x22)) ∧ e = BITBASIS a c2) ∨
       (((a.payloadIndex = 0x21 ∨ a.payloadIndex = 0x22) ∧ a.bitNr ≤ 7) ∧ e = VALUE_flag8 a c2) ∨
       (((a.payloadIndex = 0x21 ∨ a.payloadIndex = 0x22) ∧ 8 < a.bitNr) ∧ e = UNKNOWN_BIT a c2)) ∧
      c2.entered s value := by
  unfold case_89_2D
  split
  all_goals first
    | (with_reducible (show ∃ c2 e, RETURN0 _ = e ∧ _)
       exact ⟨_, _, rfl, Or.inl ⟨by omega, rfl⟩, hc⟩)
    | (with_reducible (show ∃ c2 e, VALUE_u8 _ _ = e ∧ _)
       exact ⟨_, _, rfl, Or.inr (Or.inl ⟨by omega, Or.inl rfl⟩), hc⟩)
    | (with_reducible (show ∃ c2 e, VALUE_s8 _ _ = e ∧ _)
       exact ⟨_, _, rfl, Or.inr (Or.inl ⟨by omega, Or.inr (Or.inl rfl)⟩), hc⟩)
    | (with_reducible (show ∃ c2 e, UNKNOWN_BYTE _ _ = e ∧ _)
       simp only [imp_false] at *
       exact ⟨_, _, rfl, Or.inr (Or.inl ⟨by omega, Or.inr (Or.inr rfl)⟩), hc⟩)
    | (split <;> first
        | (with_reducible (show ∃ c2 e, BITBASIS _ _ = e ∧ _)
           exact ⟨_, _, rfl, Or.inr (Or.inr (Or.inl ⟨by omega, rfl⟩)), hc⟩)
        | (with_reducible (show ∃ c2 e, VALUE_flag8 _ _ = e ∧ _)
           exact ⟨_, _, rfl, Or.inr (Or.inr (Or.inr (Or.inl ⟨by omega, rfl⟩))), hc⟩)
        | (with_reducible (show ∃ c2 e, UNKNOWN_BIT _ _ = e ∧ _)
           simp only [imp_false] at *
           exact ⟨_, _, rfl, Or.inr (Or.inr (Or.inr (Or.inr ⟨by omega, rfl⟩))), hc⟩))

/-- The leaf that a call for source 0x89 and type 0x27 ends in. -/
theorem leaf_case_89_27 (a : Args) (c : Ctx) (s : State) (value : List Char)
    (hc : c.entered s value) :
    ∃ c2 e, case_89_27 a c = e ∧
      (((a.payloadIndex ≠ 0x07 ∧ a.payloadIndex ≠ 0x08 ∧ a.payloadIndex ≠ 0x1C) ∧ e = RETURN0 c2) ∨
       ((a.payloadIndex ≠ 0x07 ∧ a.payloadIndex ≠ 0x08 ∧ a.payloadIndex ≠ 0x1C) ∧
         (e = VALUE_u8 a c2 ∨ e = VALUE_s8 a c2 ∨ e = UNKNOWN_BYTE a c2)) ∨
       ((a.bitNr = 8 ∧ (a.payloadIndex = 0x07 ∨ a.payloadIndex = 0x08 ∨ a.payloadIndex = 0x1C)) ∧ e = BITBASIS a c2) ∨
       (((a.payloadIndex = 0x07 ∨ a.payloadIndex = 0x08 ∨ a.payloadIndex = 0x1C) ∧ a.bitNr ≤ 7) ∧ e = VALUE_flag8 a c2) ∨
       (((a.payloadIndex = 0x07 ∨ a.payloadIndex = 0x08 ∨ a.payloadIndex = 0x1C) ∧ 8 < a.bitNr) ∧ e = UNKNOWN_BIT a c2)) ∧
      c2.entered s value := by
  unfold case_89_27
  split
  all_goals first
    | (with_reducible (show ∃ c2 e, RETURN0 _ = e ∧ _)
       exact ⟨_, _, rfl, Or.inl ⟨by omega, rfl⟩, hc⟩)
    | (with_reducible (show ∃ c2 e, VALUE_u8 _ _ = e ∧ _)
       exact ⟨_, _, rfl, Or.inr (Or.inl ⟨by omega, Or.inl rfl⟩), hc⟩)
    | (with_reducible (show ∃ c2 e, UNKNOWN_BYTE _ _ = e ∧ _)
       simp only [imp_false] at *
       exact ⟨_, _, rfl, Or.inr (Or.inl ⟨by omega, Or.inr (Or.inr rfl)⟩), hc⟩)
    | (split <;> first
        | (with_reducible (show ∃ c2 e, BITBASIS _ _ = e ∧ _)
           exact ⟨_, _, rfl, Or.inr (Or.inr (Or.inl ⟨by omega, rfl⟩)), hc⟩)
        | (with_reducible (show ∃ c2 e, VALUE_flag8 _ _ = e ∧ _)
           exact ⟨_, _, rfl, Or.inr (Or.inr (Or.inr (Or.inl ⟨by omega, rfl⟩))), hc⟩)
        | (with_reducible (show ∃ c2 e, UNKNOWN_BIT _ _ = e ∧ _)
           simp only [imp_false] at *
           exact ⟨_, _, rfl, Or.inr (Or.inr (Or.inr (Or.inr ⟨by omega, rfl⟩))), hc⟩))

/-- The leaf that a call for source 0x21 and type 0x12 ends in. -/
theorem leaf_case_21_12 (a : Args) (c : Ctx) (s : State) (value : List Char)
    (hc : c.entered s value) :
    ∃ c2 e, case_21_12 a c = e ∧
      (((a.payloadIndex ≠ 0x07 ∧ a.payloadIndex ≠ 0x08) ∧ e = RETURN0 c2) ∨
       ((a.payloadIndex ≠ 0x07 ∧ a.payloadIndex ≠ 0x08) ∧
         (e = VALUE_u8 a c2 ∨ e = VALUE_s8 a c2 ∨ e = UNKNOWN_BYTE a c2)) ∨
       ((a.bitNr = 8 ∧ (a.payloadIndex = 0x07 ∨ a.payloadIndex = 0x08)) ∧ e = BITBASIS a c2) ∨
       (((a.payloadIndex = 0x07 ∧ a.bitNr ≤ 7) ∨ (a.payloadIndex = 0x08 ∧ 1 ≤ a.bitNr ∧ a.bitNr ≤ 3)) ∧ e = VALUE_flag8 a c2) ∨
       (((a.payloadIndex = 0x07 ∧ 8 < a.bitNr) ∨ (a.payloadIndex = 0x08 ∧ (a.bitNr = 0 ∨ 4 ≤ a.bitNr) ∧ a.bitNr ≠ 8)) ∧ e = UNKNOWN_BIT a c2)) ∧
      c2.entered s value := by
  unfold case_21_12
  split
  all_goals first
    | (with_reducible (show ∃ c2 e, RETURN0 _ = e ∧ _)
       exact ⟨_, _, rfl, Or.inl ⟨by omega, rfl⟩, hc⟩)
    | (with_reducible (show ∃ c2 e, VALUE_u8 _ _ = e ∧ _)
       exact ⟨_, _, rfl, Or.inr (Or.inl ⟨by omega, Or.inl rfl⟩), hc⟩)
    | (with_reducible (show ∃ c2 e, UNKNOWN_BYTE _ _ = e ∧ _)
       simp only [imp_false] at *
       exact ⟨_, _, rfl, Or.inr (Or.inl ⟨by omega, Or.inr (Or.inr rfl)⟩), hc⟩)
    | (split <;> first
        | (with_reducible (show ∃ c2 e, BITBASIS _ _ = e ∧ _)
           exact ⟨_, _, rfl, Or.inr (Or.inr (Or.inl ⟨by omega, rfl⟩)), hc⟩)
        | (with_reducible (show ∃ c2 e, VALUE_flag8 _ _ = e ∧ _)
           exact ⟨_, _, rfl, Or.inr (Or.inr (Or.inr (Or.inl ⟨by omega, rfl⟩))), hc⟩)
        | (with_reducible (show ∃ c2 e, UNKNOWN_BIT _ _ = e ∧ _)
           simp only [imp_false] at *
           exact ⟨_, _, rfl, Or.inr (Or.inr (Or.inr (Or.inr ⟨by omega, rfl⟩))), hc⟩))

/-- The leaf that a call for source 0x41 and type 0x18 ends in. -/
theorem leaf_case_41_18 (a : Args) (c : Ctx) (s : State) (value : List Char)
    (hc : c.entered s value) :
    ∃ c2 e, case_41_18 a c = e ∧
      (((a.payloadIndex ≠ 0x07 ∧ a.payloadIndex ≠ 0x08) ∧ e = RETURN0 c2) ∨
       ((a.payloadIndex ≠ 0x07 ∧ a.payloadIndex ≠ 0x08) ∧
         (e = VALUE_u8 a c2 ∨ e = VALUE_s8 a c2 ∨ e = UNKNOWN_BYTE a c2)) ∨
       ((a.bitNr = 8 ∧ (a.payloadIndex = 0x07 ∨ a.payloadIndex = 0x08)) ∧ e = BITBASIS a c2) ∨
       (((a.payloadIndex = 0x07 ∧ a.bitNr ≤ 7) ∨ (a.payloadIndex = 0x08 ∧ 1 ≤ a.bitNr ∧ a.bitNr ≤ 3)) ∧ e = VALUE_flag8 a c2) ∨
       (((a.payloadIndex = 0x07 ∧ 8 < a.bitNr) ∨ (a.payloadIndex = 0x08 ∧ (a.bitNr = 0 ∨ 4 ≤ a.bitNr) ∧ a.bitNr ≠ 8)) ∧ e = UNKNOWN_BIT a c2)) ∧
      c2.entered s value := by
  unfold case_41_18
  split
  all_goals first
    | (with_reducible (show ∃ c2 e, RETURN0 _ = e ∧ _)
       exact ⟨_, _, rfl, Or.inl ⟨by omega, rfl⟩, hc⟩)
    | (with_reducible (show ∃ c2 e, VALUE_u8 _ _ = e ∧ _)
       exact ⟨_, _, rfl, Or.inr (Or.inl ⟨by omega, Or.inl rfl⟩), hc⟩)
    | (with_reducible (show ∃ c2 e, UNKNOWN_BYTE _ _ = e ∧ _)
       simp only [imp_false] at *
       exact ⟨_, _, rfl, Or.inr (Or.inl ⟨by omega, Or.inr (Or.inr rfl)⟩), hc⟩)
    | (split <;> first
        | (with_reducible (show ∃ c2 e, BITBASIS _ _ = e ∧ _)
           exact ⟨_, _, rfl, Or.inr (Or.inr (Or.inl ⟨by omega, rfl⟩)), hc⟩)
        | (with_reducible (show ∃ c2 e, VALUE_flag8 _ _ = e ∧ _)
           exact ⟨_, _, rfl, Or.inr (Or.inr (Or.inr (Or.inl ⟨by omega, rfl⟩))), hc⟩)
        | (with_reducible (show ∃ c2 e, UNKNOWN_BIT _ _ = e ∧ _)
           simp only [imp_false] at *
           exact ⟨_, _, rfl, Or.inr (Or.inr (Or.inr (Or.inr ⟨by omega, rfl⟩))), hc⟩))

theorem namedBit_89_2D (idx bitNr : Nat) :
    namedBit 0x89 0x2D idx bitNr = true ↔ (idx = 0x21 ∨ idx = 0x22) ∧ bitNr ≤ 7 := by
  simp [namedBit, bitBasisPositions]

theorem namedBit_89_27 (idx bitNr : Nat) :
    namedBit 0x89 0x27 idx bitNr = true ↔
      (idx = 0x07 ∨ idx = 0x08 ∨ idx = 0x1C) ∧ bitNr ≤ 7 := by
  simp [namedBit, bitBasisPositions]

theorem namedBit_21_12 (idx bitNr : Nat) :
    namedBit 0x21 0x12 idx bitNr = true ↔
      (idx = 0x07 ∧ bitNr ≤ 7) ∨ (idx = 0x08 ∧ 1 ≤ bitNr ∧ bitNr ≤ 3) := by
  by_cases h8 : idx = 0x08
  · subst h8; simp [namedBit]
  · simp [namedBit, bitBasisPositions, h8]

theorem namedBit_41_18 (idx bitNr : Nat) :
    namedBit 0x41 0x18 idx bitNr = true ↔
      (idx = 0x07 ∧ bitNr ≤ 7) ∨ (idx = 0x08 ∧ 1 ≤ bitNr ∧ bitNr ≤ 3) := by
  by_cases h8 : idx = 0x08
  · subst h8; simp [namedBit]
  · simp [namedBit, bitBasisPositions, h8]

/-- From the conditions of a case function to the leaf of the position. -/
theorem leafAt_of_case (a : Args) (c2 : Ctx) (e : Option Outcome)
    (byteCond bbCond flagCond unkCond : Prop)
    (hpair : (a.packetSrc, a.packetType) ∈ dispatchPairs)
    (hbyte : byteCond → (a.packetSrc, a.packetType, a.payloadIndex) ∉ bitBasisPositions)
    (hbb : bbCond → (a.packetSrc, a.packetType, a.payloadIndex) ∈ bitBasisPositions)
    (hflag : flagCond ↔ namedBit a.packetSrc a.packetType a.payloadIndex a.bitNr = true)
    (hflagpos : flagCond → (a.packetSrc, a.packetType, a.payloadIndex) ∈ bitBasisPositions)
    (hunk : unkCond → (a.packetSrc, a.packetType, a.payloadIndex) ∈ bitBasisPositions ∧
      ¬ flagCond ∧ a.bitNr ≠ 8)
    (hl : (byteCond ∧ e = RETURN0 c2) ∨
      (byteCond ∧ (e = VALUE_u8 a c2 ∨ e = VALUE_s8 a c2 ∨ e = UNKNOWN_BYTE a c2)) ∨
      ((a.bitNr = 8 ∧ bbCond) ∧ e = BITBASIS a c2) ∨
      (flagCond ∧ e = VALUE_flag8 a c2) ∨
      (unkCond ∧ e = UNKNOWN_BIT a c2)) : leafAt a c2 e := by
  unfold leafAt
  rcases hl with h | ⟨h1, h2⟩ | ⟨⟨h1, h2⟩, h3⟩ | ⟨h1, h2⟩ | ⟨h1, h2⟩
  · exact Or.inl ⟨hbyte h.1, h.2⟩
  · exact Or.inr ⟨hpair, Or.inl ⟨hbyte h1, h2⟩⟩
  · exact Or.inr ⟨hpair, Or.inr ⟨hbb h2, Or.inl ⟨h1, h3⟩⟩⟩
  · exact Or.inr ⟨hpair, Or.inr ⟨hflagpos h1, Or.inr (Or.inl ⟨hflag.mp h1, h2⟩)⟩⟩
  · obtain ⟨p1, p2, p3⟩ := hunk h1
    refine Or.inr ⟨hpair, Or.inr ⟨p1, Or.inr (Or.inr ⟨?_, p3, h2⟩)⟩⟩
    cases hn : namedBit a.packetSrc a.packetType a.payloadIndex a.bitNr
    · rfl
    · exact absurd (hflag.mpr hn) p2

theorem entered_preamble (s : State) (key : Key) (value : List Char) (packetSrc : Nat) :
    (preamble s key value packetSrc).entered s value ∧
    (CAT_MEASUREMENT (preamble s key value packetSrc)).entered s value ∧
    (CAT_SETTING (preamble s key value packetSrc)).entered s value :=
  ⟨⟨rfl, rfl, rfl, rfl, rfl, rfl, rfl, rfl, rfl⟩, ⟨rfl, rfl, rfl, rfl, rfl, rfl, rfl, rfl, rfl⟩,
   ⟨rfl, rfl, rfl, rfl, rfl, rfl, rfl, rfl, rfl⟩⟩

/-- The leaf that a call for one of the three sources of the dispatch table ends
in. -/
theorem leaf_bytesbits2keyvalue (pseudo : PseudoSwitch) (s : State) (key : Key)
    (value : List Char) (a : Args)
    (hsrc : a.packetSrc = 0x89 ∨ a.packetSrc = 0x21 ∨ a.packetSrc = 0x41) :
    ∃ c2 e, bytesbits2keyvalue pseudo s key value a = e ∧ c2.entered s value ∧
      leafAt a c2 e := by
  obtain ⟨hp0, hpM, hpS⟩ := entered_preamble s key value a.packetSrc
  have hret : (a.packetSrc, a.packetType, a.payloadIndex) ∉ bitBasisPositions →
      ∃ c2 e, RETURN0 (preamble s key value a.packetSrc) = e ∧ c2.entered s value ∧
        leafAt a c2 e := fun hn => ⟨_, _, rfl, hp0, Or.inl ⟨hn, rfl⟩⟩
  rcases hsrc with h1 | h1 | h1
  · by_cases h2 : a.packetType = 0x2D
    · simp only [bytesbits2keyvalue, if_pos h1, if_pos h2]
      obtain ⟨c2, e, he, hl, hent⟩ := leaf_case_89_2D a _ s value hpM
      refine ⟨c2, e, he, hent, leafAt_of_case a c2 e _ _ _ _ ?_ ?_ ?_ ?_ ?_ ?_ hl⟩
      · rw [h1, h2]; decide
      · intro hb hm
        simp only [bitBasisPositions, List.mem_cons, Prod.mk.injEq, List.mem_singleton,
          List.not_mem_nil, or_false] at hm
        omega
      · intro hb; rcases hb with h3 | h3 <;> rw [h1, h2, h3] <;> decide
      · rw [h1, h2]; exact (namedBit_89_2D _ _).symm
      · intro hb; rcases hb.1 with h3 | h3 <;> rw [h1, h2, h3] <;> decide
      · intro hb
        refine ⟨?_, by omega, by omega⟩
        rcases hb.1 with h3 | h3 <;> rw [h1, h2, h3] <;> decide
    · by_cases h3 : a.packetType = 0x27
      · simp only [bytesbits2keyvalue, if_pos h1, if_neg h2, if_pos h3]
        obtain ⟨c2, e, he, hl, hent⟩ := leaf_case_89_27 a _ s value hpM
        refine ⟨c2, e, he, hent, leafAt_of_case a c2 e _ _ _ _ ?_ ?_ ?_ ?_ ?_ ?_ hl⟩
        · rw [h1, h3]; decide
        · intro hb hm
          simp only [bitBasisPositions, List.mem_cons, Prod.mk.injEq, List.mem_singleton,
            List.not_mem_nil, or_false] at hm
          omega
        · intro hb; rcases hb with h4 | h4 | h4 <;> rw [h1, h3, h4] <;> decide
        · rw [h1, h3]; exact (namedBit_89_27 _ _).symm
        · intro hb; rcases hb.1 with h4 | h4 | h4 <;> rw [h1, h3, h4] <;> decide
        · intro hb
          refine ⟨?_, by omega, by omega⟩
          rcases hb.1 with h4 | h4 | h4 <;> rw [h1, h3, h4] <;> decide
      · simp only [bytesbits2keyvalue, if_pos h1, if_neg h2, if_neg h3]
        refine hret ?_
        intro hm
        simp only [bitBasisPositions, List.mem_cons, Prod.mk.injEq, List.mem_singleton,
          List.not_mem_nil, or_false] at hm
        omega
  · have n1 : a.packetSrc ≠ 0x89 := by rw [h1]; decide
    by_cases h2 : a.packetType = 0x12
    · simp only [bytesbits2keyvalue, if_neg n1, if_pos h1, if_pos h2]
      obtain ⟨c2, e, he, hl, hent⟩ := leaf_case_21_12 a _ s value hpS
      refine ⟨c2, e, he, hent, leafAt_of_case a c2 e _ _ _ _ ?_ ?_ ?_ ?_ ?_ ?_ hl⟩
      · rw [h1, h2]; decide
      · intro hb hm
        simp only [bitBasisPositions, List.mem_cons, Prod.mk.injEq, List.mem_singleton,
          List.not_mem_nil, or_false] at hm
        omega
      · intro hb; rcases hb with h3 | h3 <;> rw [h1, h2, h3] <;> decide
      · rw [h1, h2]; exact (namedBit_21_12 _ _).symm
      · intro hb; rcases hb with ⟨h3, _⟩ | ⟨h3, _⟩ <;> rw [h1, h2, h3] <;> decide
      · intro hb
        refine ⟨?_, by omega, by omega⟩
        rcases hb with ⟨h3, _⟩ | ⟨h3, _⟩ <;> rw [h1, h2, h3] <;> decide
    · simp only [bytesbits2keyvalue, if_neg n1, if_pos h1, if_neg h2]
      refine hret ?_
      intro hm
      simp only [bitBasisPositions, List.mem_cons, Prod.mk.injEq, List.mem_singleton,
        List.not_mem_nil, or_false] at hm
      omega
  · have n1 : a.packetSrc ≠ 0x89 := by rw [h1]; decide
    have n2 : a.packetSrc ≠ 0x21 := by rw [h1]; decide
    by_cases h2 : a.packetType = 0x18
    · simp only [bytesbits2keyvalue, if_neg n1, if_neg n2, if_pos h1, if_pos h2]
      obtain ⟨c2, e, he, hl, hent⟩ := leaf_case_41_18 a _ s value hpS
      refine ⟨c2, e, he, hent, leafAt_of_case a c2 e _ _ _ _ ?_ ?_ ?_ ?_ ?_ ?_ hl⟩
      · rw [h1, h2]; decide
      · intro hb hm
        simp only [bitBasisPositions, List.mem_cons, Prod.mk.injEq, List.mem_singleton,
          List.not_mem_nil, or_false] at hm
        omega
      · intro hb; rcases hb with h3 | h3 <;> rw [h1, h2, h3] <;> decide
      · rw [h1, h2]; exact (namedBit_41_18 _ _).symm
      · intro hb; rcases hb with ⟨h3, _⟩ | ⟨h3, _⟩ <;> rw [h1, h2, h3] <;> decide
      · intro hb
        refine ⟨?_, by omega, by omega⟩
        rcases hb with ⟨h3, _⟩ | ⟨h3, _⟩ <;> rw [h1, h2, h3] <;> decide
    · simp only [bytesbits2keyvalue, if_neg n1, if_neg n2, if_pos h1, if_neg h2]
      refine hret ?_
      intro hm
      simp only [bitBasisPositions, List.mem_cons, Prod.mk.injEq, List.mem_singleton,
        List.not_mem_nil, or_false] at hm
      omega

/-! ## The slots of the bit-basis positions -/

/-- The pairs with a layout are mapped to row 0 by the byte path and lie beyond
the types that the bit path caches. -/
theorem dispatchPairs_classes (packetSrc packetType : Nat)
    (h : (packetSrc, packetType) ∈ dispatchPairs) :
    bytesPts packetSrc = 0 ∧ bytesPti packetType ≠ 0xFF ∧ PCKTP_END < packetType ∧
      packetType ≠ 0x31 := by
  simp only [dispatchPairs, List.mem_cons, Prod.mk.injEq, List.mem_singleton,
    List.not_mem_nil, or_false] at h
  rcases h with ⟨h1, h2⟩ | ⟨h1, h2⟩ | ⟨h1, h2⟩ | ⟨h1, h2⟩ <;> subst h1 h2 <;> decide

/-- A bit-basis position is accepted by the byte path, with its slot inside
the arrays. -/
theorem bitBasis_in_range (p : Nat × Nat × Nat) (h : p ∈ bitBasisPositions) :
    (p.1, p.2.1) ∈ dispatchPairs ∧
    ∃ nb bs, nr_bytes (bytesPts p.1) (bytesPti p.2.1) = some nb ∧
      bytestart (bytesPts p.1) (bytesPti p.2.1) = some bs ∧ p.2.2 ≤ nb ∧
      bs + p.2.2 < sizeValSeen := by
  simp only [bitBasisPositions, List.mem_cons, List.mem_singleton, List.not_mem_nil,
    or_false] at h
  rcases h with h | h | h | h | h | h | h | h | h <;> subst h <;>
    exact ⟨by decide, _, _, rfl, rfl, by decide, by decide⟩

/-- A slot of a bit-basis position belongs to no other accepted position of
the pairs with a layout. -/
theorem bitBasis_slot_owner (packetSrc packetType payloadIndex nb bs : Nat)
    (ps pt pi bs2 : Nat)
    (hpair : (packetSrc, packetType) ∈ dispatchPairs)
    (hnb : nr_bytes (bytesPts packetSrc) (bytesPti packetType) = some nb)
    (hbs : bytestart (bytesPts packetSrc) (bytesPti packetType) = some bs)
    (hidx : payloadIndex ≤ nb) (hp : (ps, pt, pi) ∈ bitBasisPositions)
    (hbs2 : bytestart (bytesPts ps) (bytesPti pt) = some bs2)
    (hslot : bs2 + pi = bs + payloadIndex) :
    (packetSrc, packetType, payloadIndex) ∈ bitBasisPositions := by
  simp only [dispatchPairs, List.mem_cons, Prod.mk.injEq, List.mem_singleton,
    List.not_mem_nil, or_false] at hpair
  simp only [bitBasisPositions, List.mem_cons, Prod.mk.injEq, List.mem_singleton,
    List.not_mem_nil, or_false] at hp
  rcases hpair with ⟨h1, h2⟩ | ⟨h1, h2⟩ | ⟨h1, h2⟩ | ⟨h1, h2⟩ <;> subst h1 h2 <;>
    rcases hp with ⟨h3, h4, h5⟩ | ⟨h3, h4, h5⟩ | ⟨h3, h4, h5⟩ | ⟨h3, h4, h5⟩ | ⟨h3, h4, h5⟩ |
      ⟨h3, h4, h5⟩ | ⟨h3, h4, h5⟩ | ⟨h3, h4, h5⟩ | ⟨h3, h4, h5⟩ <;> subst h3 h4 h5 <;>
    simp [nr_bytes, bytestart, tableRead, nr_bytes_rows, bytestart_rows, bytesPts, bytesPti,
      PCKTP_START] at hnb hbs hbs2 <;>
    subst hnb hbs hbs2 <;>
    first
      | omega
      | (have hi : payloadIndex = 0x21 := by omega
         subst hi; decide)
      | (have hi : payloadIndex = 0x22 := by omega
         subst hi; decide)
      | (have hi : payloadIndex = 0x07 := by omega
         subst hi; decide)
      | (have hi : payloadIndex = 0x08 := by omega
         subst hi; decide)
      | (have hi : payloadIndex = 0x1C := by omega
         subst hi; decide)

/-- A call of the byte path for one byte of a source of row 0 leaves the seen
mask of every slot but the one of an accepted index as it is. -/
theorem newPayloadBytesVal_one_frame (s : State) (packetSrc packetType payloadIndex : Nat)
    (payload : Nat → Nat) (haConfig : Nat) (saveSeen : Bool) (r : Observed)
    (hpts : bytesPts packetSrc = 0)
    (h : newPayloadBytesVal s packetSrc packetType payloadIndex payload haConfig 1 saveSeen
      = some r) (k : Nat) :
    r.st.payloadByteSeen k = s.payloadByteSeen k ∨
    ∃ nb bs, nr_bytes (bytesPts packetSrc) (bytesPti packetType) = some nb ∧
      bytestart (bytesPts packetSrc) (bytesPti packetType) = some bs ∧ payloadIndex ≤ nb ∧
      k = bs + payloadIndex := by
  by_cases hpti : bytesPti packetType = 0xFF
  · left
    unfold newPayloadBytesVal at h
    simp only [hpti, if_true, Option.some.injEq] at h
    subst h; rfl
  · obtain ⟨nb, bs, hnb, hbs⟩ := bytes_tables_defined packetSrc packetType hpti
    by_cases hidx : payloadIndex > nb
    · left
      unfold newPayloadBytesVal at h
      simp only [hpti, if_false, hnb, hbs, hidx, if_true, Option.some.injEq] at h
      subst h; rfl
    · have hb := (tables_bound _ _ _ _ hnb hbs).2.1 hpts
      have hin : bs + payloadIndex < sizeValSeen := by simp only [sizeValSeen]; omega
      by_cases hk : k = bs + payloadIndex
      · exact Or.inr ⟨nb, bs, hnb, hbs, by omega, hk⟩
      · left
        rw [newPayloadBytesVal_one s packetSrc packetType payloadIndex payload haConfig nb bs
          saveSeen hpti hnb hbs (by omega) hin] at h
        split_ifs at h <;> simp only [Option.some.injEq] at h <;> subst h <;>
          first | rfl | exact arrSet_other _ _ _ _ hk

/-- The globals that a byte decoder of the dispatch leaves are those it found
or those that the byte path left. -/
theorem byteLeaf_state (a : Args) (c : Ctx) (e : Option Outcome)
    (he : e = VALUE_u8 a c ∨ e = VALUE_s8 a c ∨ e = UNKNOWN_BYTE a c) :
    ∃ o, e = some o ∧
      (o.st = c.st ∨
       ∃ r, newPayloadBytesVal c.st a.packetSrc a.packetType a.payloadIndex a.payload
           c.haConfig 1 true = some r ∧ o.st = r.st) := by
  obtain ⟨r, hr⟩ := newPayloadBytesVal_total c.st a.packetSrc a.packetType a.payloadIndex
    a.payload c.haConfig 1 true
  have hdec : ∀ t, ∃ o, decodeWith c a.packetSrc a.packetType a.payloadIndex a.payload 1
      (some t) = some o ∧ o.st = r.st := by
    intro t
    unfold decodeWith
    rw [hr]
    simp only
    by_cases h : r.ret = false
    · rw [if_pos h]; exact ⟨_, rfl, rfl⟩
    · rw [if_neg h]; exact ⟨_, rfl, rfl⟩
  rcases he with he | he | he
  · obtain ⟨o, ho, hst⟩ := hdec (fmt_u (a.payload a.payloadIndex))
    exact ⟨o, he.trans ho, Or.inr ⟨r, hr, hst⟩⟩
  · obtain ⟨o, ho, hst⟩ := hdec (fmt_i (int8 (a.payload a.payloadIndex)))
    exact ⟨o, he.trans ho, Or.inr ⟨r, hr, hst⟩⟩
  · subst he
    unfold UNKNOWN_BYTE unknownByte
    by_cases h0 : (CAT_UNKNOWN c).st.outputUnknown = false
    · rw [if_pos h0]; exact ⟨_, rfl, Or.inl rfl⟩
    · rw [if_neg h0]
      have hr2 : newPayloadBytesVal (CAT_UNKNOWN c).st a.packetSrc a.packetType a.payloadIndex
          a.payload (CAT_UNKNOWN c).haConfig 1 true = some r := hr
      rw [hr2]
      simp only
      by_cases h : r.ret = false
      · rw [if_pos h]; exact ⟨_, rfl, Or.inr ⟨r, hr, rfl⟩⟩
      · rw [if_neg h]; exact ⟨_, rfl, Or.inr ⟨r, hr, rfl⟩⟩

/-- The leaf `VALUE_flag8` of a pair with a layout, with `haConfig` set: it returns 1
with the bit as value and leaves the globals as they are. -/
theorem flagLeaf (a : Args) (c : Ctx) (hT : PCKTP_END < a.packetType)
    (h31 : a.packetType ≠ 0x31) (hha : c.haConfig = 1) :
    VALUE_flag8 a c = some (c.leave 1
      (snprintf c.value c.st.MQTT_VALUE_LEN (fmt_flag (FN_flag8 (a.payload a.payloadIndex) a.bitNr)))
      c.st false) := by
  unfold VALUE_flag8 value_flag8
  rw [newPayloadBitVal_beyond _ _ _ _ _ _ _ hT h31]
  have hrep : reportable c.st c.haConfig true = true :=
    reportable_haConfig _ _ _ (by rw [hha]; decide)
  simp only [hrep, Bool.true_eq_false, if_false]

/-- The leaf `UNKNOWN_BIT` of a pair with a layout returns and leaves the globals
as they are. -/
theorem unknownBitLeaf (a : Args) (c : Ctx) (hT : PCKTP_END < a.packetType)
    (h31 : a.packetType ≠ 0x31) :
    ∃ o, UNKNOWN_BIT a c = some o ∧ o.st = c.st := by
  unfold UNKNOWN_BIT unknownBit
  by_cases h0 : (CAT_UNKNOWN c).st.outputUnknown = false
  · rw [if_pos h0]; exact ⟨_, rfl, rfl⟩
  · rw [if_neg h0, newPayloadBitVal_beyond _ _ _ _ _ _ _ hT h31]
    simp only
    by_cases hr : reportable (CAT_UNKNOWN c).st (CAT_UNKNOWN c).haConfig true = false
    · rw [if_pos hr]; exact ⟨_, rfl, rfl⟩
    · rw [if_neg hr]; exact ⟨_, rfl, rfl⟩

/-! ## Bit-basis fields of the dispatch table -/

theorem bitBasisUnseen_of_seen (s t : State) (h : t.payloadByteSeen = s.payloadByteSeen)
    (hinv : bitBasisUnseen s) : bitBasisUnseen t := by
  intro p hp bs hbs
  rw [h]
  exact hinv p hp bs hbs

/-- One call of `bytesbits2keyvalue` for one of the three sources, on globals in
which no slot of a bit-basis position is seen. -/
theorem dispatch_step (pseudo : PseudoSwitch) (s : State) (key : Key) (value : List Char)
    (a : Args) (hsrc : a.packetSrc = 0x89 ∨ a.packetSrc = 0x21 ∨ a.packetSrc = 0x41)
    (hinv : bitBasisUnseen s) :
    ∃ o, bytesbits2keyvalue pseudo s key value a = some o ∧ bitBasisUnseen o.st ∧
      o.st.MQTT_VALUE_LEN = s.MQTT_VALUE_LEN ∧
      ((a.packetSrc, a.packetType, a.payloadIndex) ∈ bitBasisPositions →
        (a.bitNr = 8 → o.status = 8) ∧
        (namedBit a.packetSrc a.packetType a.payloadIndex a.bitNr = true →
          o.status = 1 ∧
          o.value = snprintf value s.MQTT_VALUE_LEN
            (fmt_flag (FN_flag8 (a.payload a.payloadIndex) a.bitNr)))) := by
  obtain ⟨c2, e, he, hent, hleaf⟩ := leaf_bytesbits2keyvalue pseudo s key value a hsrc
  obtain ⟨e1, e2, e3, e4, e5, e6, e7, e8, e9⟩ := hent
  have hinv2 : bitBasisUnseen c2.st := bitBasisUnseen_of_seen s c2.st e1 hinv
  rw [he]
  unfold leafAt at hleaf
  rcases hleaf with ⟨hpos, hl⟩ | ⟨hpair, ⟨hpos, hl⟩ | ⟨hpos, hl⟩⟩
  · subst hl
    exact ⟨_, rfl, hinv2, e7, fun hp => absurd hp hpos⟩
  · obtain ⟨o, ho, hst⟩ := byteLeaf_state a c2 e hl
    obtain ⟨hpts, hpti, hT, h31⟩ := dispatchPairs_classes _ _ hpair
    refine ⟨o, ho, ?_, ?_, fun hp => absurd hp hpos⟩
    · rcases hst with hst | ⟨r, hr, hst⟩
      · rw [hst]; exact hinv2
      · rw [hst]
        intro p hp bs2 hbs2
        rcases newPayloadBytesVal_one_frame c2.st a.packetSrc a.packetType a.payloadIndex
          a.payload c2.haConfig true r hpts hr (bs2 + p.2.2) with hk | ⟨nb, bs, hnb, hbs, hidx, hk⟩
        · rw [hk]; exact hinv2 p hp bs2 hbs2
        · exact absurd (bitBasis_slot_owner a.packetSrc a.packetType a.payloadIndex nb bs
            p.1 p.2.1 p.2.2 bs2 hpair hnb hbs hidx hp hbs2 hk) hpos
    · rcases hst with hst | ⟨r, hr, hst⟩
      · rw [hst]; exact e7
      · rw [hst, (newPayloadBytesVal_settings _ _ _ _ _ _ _ _ _ hr).2.2.2.2.2.2.2.2]
        exact e7
  · obtain ⟨hpts, hpti, hT, h31⟩ := dispatchPairs_classes _ _ hpair
    rcases hl with ⟨hb8, hl⟩ | ⟨hnamed, hl⟩ | ⟨hnamed, hb8, hl⟩
    · obtain ⟨_, nb, bs, hnb, hbs, hidx, hin⟩ := bitBasis_in_range _ hpos
      have hone := BITBASIS_one a c2 nb bs hpti hnb hbs hidx hin (by rw [e9]; decide)
      have hunseen : c2.st.payloadByteSeen (bs + a.payloadIndex) = 0 := hinv2 _ hpos bs hbs
      rw [if_neg (fun hc => hc hunseen)] at hone
      subst hl
      refine ⟨_, hone, hinv2, e7, fun _ => ⟨fun _ => rfl, fun hn => ?_⟩⟩
      exfalso
      have hle : a.bitNr ≤ 7 := by
        unfold namedBit at hn
        split_ifs at hn
        · have := of_decide_eq_true hn; omega
        · have := of_decide_eq_true hn; omega
      omega
    · subst hl
      refine ⟨_, flagLeaf a c2 hT h31 e9, hinv2, e7, fun _ => ⟨fun h8 => ?_, fun _ => ⟨rfl, ?_⟩⟩⟩
      · exfalso
        have hle : a.bitNr ≤ 7 := by
          unfold namedBit at hnamed
          split_ifs at hnamed
          · have := of_decide_eq_true hnamed; omega
          · have := of_decide_eq_true hnamed; omega
        omega
      · show snprintf c2.value c2.st.MQTT_VALUE_LEN _ = _
        rw [e8, e7]
    · subst hl
      obtain ⟨o, ho, hst⟩ := unknownBitLeaf a c2 hT h31
      refine ⟨o, ho, by rw [hst]; exact hinv2, by rw [hst]; exact e7,
        fun _ => ⟨fun h8 => absurd h8 hb8, fun hn => ?_⟩⟩
      rw [hnamed] at hn
      cases hn

/-- A sequence of calls for the three sources, from globals in which no slot
of a bit-basis position is seen. -/
theorem dispatchRun_bitBasis (pseudo : PseudoSwitch) (len : Nat) (qs : List Request) :
    ∀ (s : State), bitBasisUnseen s → s.MQTT_VALUE_LEN = len →
      (∀ q ∈ qs, q.args.packetSrc = 0x89 ∨ q.args.packetSrc = 0x21 ∨ q.args.packetSrc = 0x41) →
      ∃ tr, dispatchRun pseudo qs s = some tr ∧ tr.map Prod.fst = qs ∧
        ∀ q o, (q, o) ∈ tr →
          (q.args.packetSrc, q.args.packetType, q.args.payloadIndex) ∈ bitBasisPositions →
          (q.args.bitNr = 8 → o.status = 8) ∧
          (namedBit q.args.packetSrc q.args.packetType q.args.payloadIndex q.args.bitNr = true →
            o.status = 1 ∧
            o.value = snprintf q.value len
              (fmt_flag (FN_flag8 (q.args.payload q.args.payloadIndex) q.args.bitNr))) := by
  induction qs with
  | nil =>
    intro s _ _ _
    exact ⟨[], rfl, rfl, fun q o hm => absurd hm (List.not_mem_nil _)⟩
  | cons q rest ih =>
    intro s hinv hlen hsrc
    have hinv1 : bitBasisUnseen { s with outputFilter := q.outputFilter } :=
      bitBasisUnseen_of_seen s _ rfl hinv
    obtain ⟨o, ho, hinv2, hlen2, hpos⟩ := dispatch_step pseudo
      { s with outputFilter := q.outputFilter } q.key q.value q.args
      (hsrc q (List.mem_cons_self _ _)) hinv1
    obtain ⟨tr, htr, hmap, hall⟩ := ih o.st hinv2 (hlen2.trans hlen)
      (fun q2 hq2 => hsrc q2 (List.mem_cons_of_mem _ hq2))
    refine ⟨(q, o) :: tr, ?_, ?_, ?_⟩
    · simp only [dispatchRun, ho, htr]
    · simp only [List.map_cons, hmap]
    · intro q2 o2 hm
      rcases List.mem_cons.mp hm with hm | hm
      · simp only [Prod.mk.injEq] at hm
        obtain ⟨hq, hoo⟩ := hm
        subst hq hoo
        intro hp
        have hlen1 : ({ s with outputFilter := q2.outputFilter } : State).MQTT_VALUE_LEN = len :=
          hlen
        rw [← hlen1]
        exact hpos hp
      · exact hall q2 o2 hm

/-- C33. Bit-basis fields of the dispatch table are never cached. Over every
sequence of calls of `bytesbits2keyvalue` with sources out of 0x89, 0x21 and
0x41, from a cache in which nothing is seen, whatever `outputFilter` the caller
has set for each call and whatever the other settings, the payloads and the
second switch are: the sequence runs to its end; every call at a bit-basis
position ((0x89, 0x2D, 0x21/0x22), (0x89, 0x27, 0x07/0x08/0x1C), (0x21, 0x12, 0x07/0x08),
(0x41, 0x18, 0x07/0x08)) with `bitNr = 8` returns 8; and every call there for a
named bit returns 1 with the bit of the incoming byte as value (`0` or `1`, in
a value buffer of at least 2 characters). -/
theorem C33_bit_basis_never_cached (pseudo : PseudoSwitch) (qs : List Request) (s : State)
    (hempty : ∀ k, s.payloadByteSeen k = 0)
    (hsrc : ∀ q ∈ qs,
      q.args.packetSrc = 0x89 ∨ q.args.packetSrc = 0x21 ∨ q.args.packetSrc = 0x41) :
    ∃ tr, dispatchRun pseudo qs s = some tr ∧ tr.map Prod.fst = qs ∧
      ∀ q o, (q, o) ∈ tr →
        (q.args.packetSrc, q.args.packetType, q.args.payloadIndex) ∈ bitBasisPositions →
        (q.args.bitNr = 8 → o.status = 8) ∧
        (namedBit q.args.packetSrc q.args.packetType q.args.payloadIndex q.args.bitNr = true →
          o.status = 1 ∧
          (2 ≤ s.MQTT_VALUE_LEN →
            o.value = if (q.args.payload q.args.payloadIndex).testBit q.args.bitNr = true
              then ['1'] else ['0'])) := by
  obtain ⟨tr, htr, hmap, hall⟩ := dispatchRun_bitBasis pseudo s.MQTT_VALUE_LEN qs s
    (fun p _ bs _ => hempty _) rfl hsrc
  refine ⟨tr, htr, hmap, fun q o hm hp => ⟨(hall q o hm hp).1, fun hn => ?_⟩⟩
  obtain ⟨h1, h2⟩ := (hall q o hm hp).2 hn
  refine ⟨h1, fun hlen => ?_⟩
  rw [h2, unknownBit_text]
  apply snprintf_fits
  split_ifs <;> (simp only [List.length_cons, List.length_nil]; omega)

/-- C33 (witness): from the globals at process start, index 0x21 of source 0x89 and
type 0x2D with the byte 0x08 is called for the byte and for bits 3 and 1, then
again for the byte and for bit 3 with `outputFilter = 9`, with index 0x10 of the
same packet in between. -/
theorem C33_bit_basis_never_cached_witness :
    (dispatchRun noPseudo
      [⟨plainPrefix, [], ⟨0x89, 0x2D, 0x21, fun _ => 0x08, 8⟩, 1⟩,
       ⟨plainPrefix, [], ⟨0x89, 0x2D, 0x21, fun _ => 0x08, 3⟩, 1⟩,
       ⟨plainPrefix, [], ⟨0x89, 0x2D, 0x21, fun _ => 0x08, 1⟩, 1⟩,
       ⟨plainPrefix, [], ⟨0x89, 0x2D, 0x10, fun _ => 0x08, 8⟩, 1⟩,
       ⟨plainPrefix, [], ⟨0x89, 0x2D, 0x21, fun _ => 0x08, 8⟩, 9⟩,
       ⟨plainPrefix, [], ⟨0x89, 0x2D, 0x21, fun _ => 0x08, 3⟩, 9⟩] startState).map
      (fun tr => tr.map (fun x => (x.2.status, x.2.value)))
      = some [(8, []), (1, ['1']), (1, ['0']), (1, ['8']), (8, []), (1, ['1'])] ∧
    ∃ tr, dispatchRun noPseudo
      [⟨plainPrefix, [], ⟨0x89, 0x2D, 0x21, fun _ => 0x08, 8⟩, 1⟩,
       ⟨plainPrefix, [], ⟨0x89, 0x2D, 0x21, fun _ => 0x08, 3⟩, 9⟩] startState = some tr ∧
      tr.map Prod.fst
        = [⟨plainPrefix, [], ⟨0x89, 0x2D, 0x21, fun _ => 0x08, 8⟩, 1⟩,
           ⟨plainPrefix, [], ⟨0x89, 0x2D, 0x21, fun _ => 0x08, 3⟩, 9⟩] := by
  refine ⟨by decide, ?_⟩
  obtain ⟨tr, h1, h2, _⟩ := C33_bit_basis_never_cached noPseudo
    [⟨plainPrefix, [], ⟨0x89, 0x2D, 0x21, fun _ => 0x08, 8⟩, 1⟩,
     ⟨plainPrefix, [], ⟨0x89, 0x2D, 0x21, fun _ => 0x08, 3⟩, 9⟩] startState
    (fun _ => rfl) (by decide)
  exact ⟨tr, h1, h2⟩

/-! ## The ceiling and the category letter of the key -/

theorem keep_decodeWith (c : Ctx) (packetSrc packetType payloadIndex : Nat)
    (payload : Nat → Nat) (width : Nat) (text : Option (List Char)) (o : Outcome)
    (h : decodeWith c packetSrc packetType payloadIndex payload width text = some o) :
    o.st.maxOutputFilter = c.st.maxOutputFilter ∧ o.key.cat = c.key.cat := by
  unfold decodeWith at h
  cases hn : newPayloadBytesVal c.st packetSrc packetType payloadIndex payload c.haConfig width
      true with
  | none => rw [hn] at h; cases h
  | some r =>
    rw [hn] at h
    have hs := (newPayloadBytesVal_settings _ _ _ _ _ _ _ _ _ hn).1
    simp only at h
    by_cases hr : r.ret = false
    · rw [if_pos hr] at h; cases h; exact ⟨hs, rfl⟩
    · rw [if_neg hr] at h
      cases text with
      | none => cases h
      | some t => cases h; exact ⟨hs, rfl⟩

theorem keep_VALUE_u8 (a : Args) (c : Ctx) (o : Outcome) (h : VALUE_u8 a c = some o) :
    o.st.maxOutputFilter = c.st.maxOutputFilter ∧ o.key.cat = c.key.cat := by
  unfold VALUE_u8 value_u8 at h
  exact keep_decodeWith _ _ _ _ _ _ _ _ h

theorem keep_VALUE_s8 (a : Args) (c : Ctx) (o : Outcome) (h : VALUE_s8 a c = some o) :
    o.st.maxOutputFilter = c.st.maxOutputFilter ∧ o.key.cat = c.key.cat := by
  unfold VALUE_s8 value_s8 at h
  exact keep_decodeWith _ _ _ _ _ _ _ _ h

theorem keep_RETURN0 (c : Ctx) (o : Outcome) (h : RETURN0 c = some o) :
    o.st.maxOutputFilter = c.st.maxOutputFilter ∧ o.key.cat = c.key.cat := by
  cases h; exact ⟨rfl, rfl⟩

theorem keep_BITBASIS (a : Args) (c : Ctx) (o : Outcome) (h : BITBASIS a c = some o) :
    o.st.maxOutputFilter = c.st.maxOutputFilter ∧ o.key.cat = c.key.cat := by
  unfold BITBASIS at h
  cases hn : newPayloadBytesVal c.st a.packetSrc a.packetType a.payloadIndex a.payload c.haConfig
      1 false with
  | none => rw [hn] at h; cases h
  | some r =>
    rw [hn] at h
    cases h
    exact ⟨(newPayloadBytesVal_settings _ _ _ _ _ _ _ _ _ hn).1, rfl⟩

theorem keep_VALUE_flag8 (a : Args) (c : Ctx) (o : Outcome) (h : VALUE_flag8 a c = some o) :
    o.st.maxOutputFilter = c.st.maxOutputFilter ∧ o.key.cat = c.key.cat := by
  unfold VALUE_flag8 value_flag8 at h
  cases hn : newPayloadBitVal c.st a.packetSrc a.packetType a.payloadIndex a.payload c.haConfig
      a.bitNr with
  | none => rw [hn] at h; cases h
  | some r =>
    rw [hn] at h
    have hs := (newPayloadBitVal_settings _ _ _ _ _ _ _ _ hn).1
    simp only at h
    by_cases hr : r.ret = false
    · rw [if_pos hr] at h; cases h; exact ⟨hs, rfl⟩
    · rw [if_neg hr] at h; cases h; exact ⟨hs, rfl⟩

/-- The macro `UNKNOWN_BIT` leaves the letter `U` and the ceiling it found. -/
theorem keep_UNKNOWN_BIT (a : Args) (c : Ctx) (o : Outcome) (h : UNKNOWN_BIT a c = some o) :
    o.st.maxOutputFilter = c.st.maxOutputFilter ∧ o.key.cat = 'U' := by
  unfold UNKNOWN_BIT unknownBit at h
  by_cases h0 : (CAT_UNKNOWN c).st.outputUnknown = false
  · rw [if_pos h0] at h; cases h; exact ⟨rfl, rfl⟩
  · rw [if_neg h0] at h
    cases hn : newPayloadBitVal (CAT_UNKNOWN c).st a.packetSrc a.packetType a.payloadIndex
        a.payload (CAT_UNKNOWN c).haConfig a.bitNr with
    | none => rw [hn] at h; cases h
    | some r =>
      rw [hn] at h
      have hs : r.st.maxOutputFilter = c.st.maxOutputFilter :=
        (newPayloadBitVal_settings _ _ _ _ _ _ _ _ hn).1
      simp only at h
      by_cases hr : r.ret = false
      · rw [if_pos hr] at h; cases h; exact ⟨hs, rfl⟩
      · rw [if_neg hr] at h; cases h; exact ⟨hs, rfl⟩

/-- The macro `UNKNOWN_BYTE` leaves the letter `U` and the ceiling it found. -/
theorem keep_UNKNOWN_BYTE (a : Args) (c : Ctx) (o : Outcome) (h : UNKNOWN_BYTE a c = some o) :
    o.st.maxOutputFilter = c.st.maxOutputFilter ∧ o.key.cat = 'U' := by
  unfold UNKNOWN_BYTE unknownByte at h
  by_cases h0 : (CAT_UNKNOWN c).st.outputUnknown = false
  · rw [if_pos h0] at h; cases h; exact ⟨rfl, rfl⟩
  · rw [if_neg h0] at h
    cases hn : newPayloadBytesVal (CAT_UNKNOWN c).st a.packetSrc a.packetType a.payloadIndex
        a.payload (CAT_UNKNOWN c).haConfig 1 true with
    | none => rw [hn] at h; cases h
    | some r =>
      rw [hn] at h
      have hs : r.st.maxOutputFilter = c.st.maxOutputFilter :=
        (newPayloadBytesVal_settings _ _ _ _ _ _ _ _ _ hn).1
      simp only at h
      by_cases hr : r.ret = false
      · rw [if_pos hr] at h; cases h; exact ⟨hs, rfl⟩
      · rw [if_neg hr] at h; cases h; exact ⟨hs, rfl⟩

/-- A decoder called behind `CAT_TEMP`. -/
theorem tag_temp (c c2 : Ctx) (o : Outcome)
    (hk : o.st.maxOutputFilter = c2.st.maxOutputFilter ∧ o.key.cat = c2.key.cat)
    (h1 : c2.st.maxOutputFilter = 1) (h2 : c2.key.cat = 'T') : tagKept c o :=
  Or.inl ⟨hk.1.trans h1, Or.inl (hk.2.trans h2)⟩

/-- A decoder called behind `CAT_MEASUREMENT`. -/
theorem tag_measurement (c c2 : Ctx) (o : Outcome)
    (hk : o.st.maxOutputFilter = c2.st.maxOutputFilter ∧ o.key.cat = c2.key.cat)
    (h1 : c2.st.maxOutputFilter = 1) (h2 : c2.key.cat = 'M') : tagKept c o :=
  Or.inl ⟨hk.1.trans h1, Or.inr (hk.2.trans h2)⟩

/-- A leaf that runs no category macro. -/
theorem tag_plain (c c2 : Ctx) (o : Outcome)
    (hk : o.st.maxOutputFilter = c2.st.maxOutputFilter ∧ o.key.cat = c2.key.cat)
    (h1 : c2.st.maxOutputFilter = c.st.maxOutputFilter) (h2 : c2.key.cat = c.key.cat) :
    tagKept c o :=
  Or.inr ⟨hk.1.trans h1, Or.inl (hk.2.trans h2)⟩

/-- A leaf that runs `CAT_UNKNOWN`. -/
theorem tag_unknown (c : Ctx) (o : Outcome)
    (hk : o.st.maxOutputFilter = c.st.maxOutputFilter ∧ o.key.cat = 'U') : tagKept c o :=
  Or.inr ⟨hk.1, Or.inr hk.2⟩

theorem tag_case_89_2D (a : Args) (c : Ctx) (o : Outcome) :
    case_89_2D a c = some o → tagKept c o := by
  unfold case_89_2D
  split
  all_goals first
    | ((with_reducible show VALUE_s8 _ _ = _ → _)
       exact fun h => tag_temp _ _ _ (keep_VALUE_s8 _ _ _ h) rfl rfl)
    | ((with_reducible show VALUE_u8 _ _ = _ → _)
       exact fun h => tag_measurement _ _ _ (keep_VALUE_u8 _ _ _ h) rfl rfl)
    | ((with_reducible show RETURN0 _ = _ → _)
       exact fun h => tag_plain _ _ _ (keep_RETURN0 _ _ h) rfl rfl)
    | ((with_reducible show UNKNOWN_BYTE _ _ = _ → _)
       exact fun h => tag_unknown _ _ (keep_UNKNOWN_BYTE _ _ _ h))
    | (split <;> first
        | ((with_reducible show BITBASIS _ _ = _ → _)
           exact fun h => tag_plain _ _ _ (keep_BITBASIS _ _ _ h) rfl rfl)
        | ((with_reducible show VALUE_flag8 _ _ = _ → _)
           exact fun h => tag_plain _ _ _ (keep_VALUE_flag8 _ _ _ h) rfl rfl)
        | ((with_reducible show UNKNOWN_BIT _ _ = _ → _)
           exact fun h => tag_unknown _ _ (keep_UNKNOWN_BIT _ _ _ h)))

theorem tag_case_89_27 (a : Args) (c : Ctx) (o : Outcome) :
    case_89_27 a c = some o → tagKept c o := by
  unfold case_89_27
  split
  all_goals first
    | ((with_reducible show VALUE_u8 _ _ = _ → _)
       first
         | exact fun h => tag_temp _ _ _ (keep_VALUE_u8 _ _ _ h) rfl rfl
         | exact fun h => tag_plain _ _ _ (keep_VALUE_u8 _ _ _ h) rfl rfl)
    | ((with_reducible show RETURN0 _ = _ → _)
       exact fun h => tag_plain _ _ _ (keep_RETURN0 _ _ h) rfl rfl)
    | ((with_reducible show UNKNOWN_BYTE _ _ = _ → _)
       exact fun h => tag_unknown _ _ (keep_UNKNOWN_BYTE _ _ _ h))
    | (split <;> first
        | ((with_reducible show BITBASIS _ _ = _ → _)
           exact fun h => tag_plain _ _ _ (keep_BITBASIS _ _ _ h) rfl rfl)
        | ((with_reducible show VALUE_flag8 _ _ = _ → _)
           exact fun h => tag_plain _ _ _ (keep_VALUE_flag8 _ _ _ h) rfl rfl)
        | ((with_reducible show UNKNOWN_BIT _ _ = _ → _)
           exact fun h => tag_unknown _ _ (keep_UNKNOWN_BIT _ _ _ h)))

theorem tag_case_21_12 (a : Args) (c : Ctx) (o : Outcome) :
    case_21_12 a c = some o → tagKept c o := by
  unfold case_21_12
  split
  all_goals first
    | ((with_reducible show VALUE_u8 _ _ = _ → _)
       first
         | exact fun h => tag_temp _ _ _ (keep_VALUE_u8 _ _ _ h) rfl rfl
         | exact fun h => tag_plain _ _ _ (keep_VALUE_u8 _ _ _ h) rfl rfl)
    | ((with_reducible show RETURN0 _ = _ → _)
       exact fun h => tag_plain _ _ _ (keep_RETURN0 _ _ h) rfl rfl)
    | ((with_reducible show UNKNOWN_BYTE _ _ = _ → _)
       exact fun h => tag_unknown _ _ (keep_UNKNOWN_BYTE _ _ _ h))
    | (split <;> first
        | ((with_reducible show BITBASIS _ _ = _ → _)
           exact fun h => tag_plain _ _ _ (keep_BITBASIS _ _ _ h) rfl rfl)
        | ((with_reducible show VALUE_flag8 _ _ = _ → _)
           exact fun h => tag_plain _ _ _ (keep_VALUE_flag8 _ _ _ h) rfl rfl)
        | ((with_reducible show UNKNOWN_BIT _ _ = _ → _)
           exact fun h => tag_unknown _ _ (keep_UNKNOWN_BIT _ _ _ h)))

theorem tag_case_41_18 (a : Args) (c : Ctx) (o : Outcome) :
    case_41_18 a c = some o → tagKept c o := by
  unfold case_41_18
  split
  all_goals first
    | ((with_reducible show VALUE_u8 _ _ = _ → _)
       first
         | exact fun h => tag_temp _ _ _ (keep_VALUE_u8 _ _ _ h) rfl rfl
         | exact fun h => tag_plain _ _ _ (keep_VALUE_u8 _ _ _ h) rfl rfl)
    | ((with_reducible show RETURN0 _ = _ → _)
       exact fun h => tag_plain _ _ _ (keep_RETURN0 _ _ h) rfl rfl)
    | ((with_reducible show UNKNOWN_BYTE _ _ = _ → _)
       exact fun h => tag_unknown _ _ (keep_UNKNOWN_BYTE _ _ _ h))
    | (split <;> first
        | ((with_reducible show BITBASIS _ _ = _ → _)
           exact fun h => tag_plain _ _ _ (keep_BITBASIS _ _ _ h) rfl rfl)
        | ((with_reducible show VALUE_flag8 _ _ = _ → _)
           exact fun h => tag_plain _ _ _ (keep_VALUE_flag8 _ _ _ h) rfl rfl)
        | ((with_reducible show UNKNOWN_BIT _ _ = _ → _)
           exact fun h => tag_unknown _ _ (keep_UNKNOWN_BIT _ _ _ h)))

/-- A case entered behind `CAT_MEASUREMENT` leaves the ceiling 1, whatever the
letter of the key. -/
theorem tag_entered_measurement (c : Ctx) (o : Outcome) (h : tagKept (CAT_MEASUREMENT c) o) :
    o.st.maxOutputFilter = 1 := by
  rcases h with ⟨h1, _⟩ | ⟨h1, _⟩
  · exact h1
  · exact h1

/-- A case entered behind `CAT_SETTING` with the ceiling 9 leaves the ceiling 1
with the letter `T` or `M`, or the ceiling 9 with the letter `S` or `U`. -/
theorem tag_entered_setting (c : Ctx) (o : Outcome) (h9 : c.st.maxOutputFilter = 9)
    (h : tagKept (CAT_SETTING c) o) :
    (o.st.maxOutputFilter = 1 ∧ (o.key.cat = 'T' ∨ o.key.cat = 'M')) ∨
    (o.st.maxOutputFilter = 9 ∧ (o.key.cat = 'S' ∨ o.key.cat = 'U')) := by
  rcases h with h1 | ⟨h1, h2⟩
  · exact Or.inl h1
  · exact Or.inr ⟨h1.trans h9, h2⟩

/-- The ceiling that a call for one of the three sources of the dispatch table
leaves, in terms of the category letter of the returned key and of the pair
(source, type). -/
theorem tag_bytesbits2keyvalue (pseudo : PseudoSwitch) (s : State) (key : Key)
    (value : List Char) (a : Args) (o : Outcome)
    (hsrc : a.packetSrc = 0x89 ∨ a.packetSrc = 0x21 ∨ a.packetSrc = 0x41)
    (h : bytesbits2keyvalue pseudo s key value a = some o) :
    (o.st.maxOutputFilter = 1 ∧
      (o.key.cat = 'T' ∨ o.key.cat = 'M' ∨ (a.packetSrc, a.packetType) ∈ measurementPairs)) ∨
    (o.st.maxOutputFilter = 9 ∧ (o.key.cat = 'S' ∨ o.key.cat = 'U') ∧
      (a.packetSrc, a.packetType) ∉ measurementPairs) := by
  have h9 : (preamble s key value a.packetSrc).st.maxOutputFilter = 9 := rfl
  have hU : (preamble s key value a.packetSrc).key.cat = 'U' := rfl
  have hret : RETURN0 (preamble s key value a.packetSrc) = some o →
      o.st.maxOutputFilter = 9 ∧ (o.key.cat = 'S' ∨ o.key.cat = 'U') := fun hr =>
    ⟨(keep_RETURN0 _ _ hr).1.trans h9, Or.inr ((keep_RETURN0 _ _ hr).2.trans hU)⟩
  unfold bytesbits2keyvalue at h
  simp only at h
  rcases hsrc with h1 | h1 | h1
  · rw [if_pos h1] at h
    by_cases h2 : a.packetType = 0x2D
    · rw [if_pos h2] at h
      refine Or.inl ⟨tag_entered_measurement _ _ (tag_case_89_2D _ _ _ h), Or.inr (Or.inr ?_)⟩
      rw [h1, h2]; decide
    · rw [if_neg h2] at h
      by_cases h3 : a.packetType = 0x27
      · rw [if_pos h3] at h
        refine Or.inl ⟨tag_entered_measurement _ _ (tag_case_89_27 _ _ _ h), Or.inr (Or.inr ?_)⟩
        rw [h1, h3]; decide
      · rw [if_neg h3] at h
        refine Or.inr ⟨(hret h).1, (hret h).2, ?_⟩
        simp only [measurementPairs, List.mem_cons, Prod.mk.injEq, List.mem_nil_iff, or_false,
          not_or, not_and]
        exact ⟨fun _ => h2, fun _ => h3⟩
  · have n1 : a.packetSrc ≠ 0x89 := by rw [h1]; decide
    have nm : (a.packetSrc, a.packetType) ∉ measurementPairs := by
      simp only [measurementPairs, List.mem_cons, Prod.mk.injEq, List.mem_nil_iff, or_false,
        not_or, not_and]
      exact ⟨fun h => absurd h n1, fun h => absurd h n1⟩
    rw [if_neg n1, if_pos h1] at h
    by_cases h2 : a.packetType = 0x12
    · rw [if_pos h2] at h
      rcases tag_entered_setting _ _ h9 (tag_case_21_12 _ _ _ h) with ⟨h3, h4⟩ | ⟨h3, h4⟩
      · rcases h4 with h4 | h4
        · exact Or.inl ⟨h3, Or.inl h4⟩
        · exact Or.inl ⟨h3, Or.inr (Or.inl h4)⟩
      · exact Or.inr ⟨h3, h4, nm⟩
    · rw [if_neg h2] at h
      exact Or.inr ⟨(hret h).1, (hret h).2, nm⟩
  · have n1 : a.packetSrc ≠ 0x89 := by rw [h1]; decide
    have n2 : a.packetSrc ≠ 0x21 := by rw [h1]; decide
    have nm : (a.packetSrc, a.packetType) ∉ measurementPairs := by
      simp only [measurementPairs, List.mem_cons, Prod.mk.injEq, List.mem_nil_iff, or_false,
        not_or, not_and]
      exact ⟨fun h => absurd h n1, fun h => absurd h n1⟩
    rw [if_neg n1, if_neg n2, if_pos h1] at h
    by_cases h2 : a.packetType = 0x18
    · rw [if_pos h2] at h
      rcases tag_entered_setting _ _ h9 (tag_case_41_18 _ _ _ h) with ⟨h3, h4⟩ | ⟨h3, h4⟩
      · rcases h4 with h4 | h4
        · exact Or.inl ⟨h3, Or.inl h4⟩
        · exact Or.inl ⟨h3, Or.inr (Or.inl h4)⟩
      · exact Or.inr ⟨h3, h4, nm⟩
    · rw [if_neg h2] at h
      exact Or.inr ⟨(hret h).1, (hret h).2, nm⟩

set_option maxRecDepth 100000 in
/-- C8 (counterexample). The ceiling is not 9 for every field whose key is not
tagged `T` or `M`: at source 0x89, type 0x2D, index 6, with `outputUnknown` set, the
call on the empty cache returns 1 with the category letter `U` of `CAT_UNKNOWN` in
the key, and the ceiling in force is the 1 that `CAT_MEASUREMENT` set at the head
of the case. With `outputFilter = 2` a changed value of that byte is therefore
stored but not reported (status 0), where a ceiling of 9 would report it; with
`outputFilter = 1` it is reported. -/
theorem C8_unknown_byte_keeps_ceiling :
    (bytesbits2keyvalue noPseudo unknownState plainPrefix []
        ⟨0x89, 0x2D, 6, payloadOf [0, 0, 0, 0, 0, 0, 0x55], 8⟩).map
      (fun o => (o.status, o.key.cat, o.st.maxOutputFilter)) = some (1, 'U', 1) ∧
    bytestart (bytesPts 0x89) (bytesPti 0x2D) = some 140 ∧
    (bytesbits2keyvalue noPseudo unknownSeenState plainPrefix []
        ⟨0x89, 0x2D, 6, payloadOf [0, 0, 0, 0, 0, 0, 0x55], 8⟩).map
      (fun o => (o.status, o.key.cat, o.st.maxOutputFilter, o.st.payloadByteVal 146))
      = some (0, 'U', 1, 0x55) ∧
    (bytesbits2keyvalue noPseudo { unknownSeenState with outputFilter := 1 } plainPrefix []
        ⟨0x89, 0x2D, 6, payloadOf [0, 0, 0, 0, 0, 0, 0x55], 8⟩).map
      (fun o => (o.status, o.key.cat, o.st.maxOutputFilter, o.st.payloadByteVal 146))
      = some (1, 'U', 1, 0x55) := by
  refine ⟨?_, ?_, ?_, ?_⟩ <;> decide

/-- C8. The per-field ceiling does not leak. For every call of
`bytesbits2keyvalue`, a run that differs only in the value `maxOutputFilter` had
before the call gives the same result: the same status, buffers, cache and
globals, and with them the same `maxOutputFilter` in force when the cache is
consulted (the cache functions leave it alone, `newPayloadBytesVal_settings`
and `newPayloadBitVal_settings`). For the three sources whose cases are in the
file the call returns, and the ceiling it leaves is 1 or 9: it is 1 when the
returned key has the category letter `T` or `M`, and also for every field of a
pair (source, type) whose case begins with `CAT_MEASUREMENT`, the unknown bytes
and bits with the letter `U` included; in every other case it is 9, and the
letter is `S` or `U`. -/
theorem C8_ceiling_does_not_leak (pseudo : PseudoSwitch) (s : State) (key : Key)
    (value : List Char) (a : Args) (m : Nat) :
    bytesbits2keyvalue pseudo { s with maxOutputFilter := m } key value a
      = bytesbits2keyvalue pseudo s key value a ∧
    (a.packetSrc = 0x89 ∨ a.packetSrc = 0x21 ∨ a.packetSrc = 0x41 →
      ∃ o, bytesbits2keyvalue pseudo s key value a = some o ∧
        (o.st.maxOutputFilter = 1 ∨ o.st.maxOutputFilter = 9) ∧
        (o.key.cat = 'T' ∨ o.key.cat = 'M' → o.st.maxOutputFilter = 1) ∧
        (o.st.maxOutputFilter = 1 ↔
          o.key.cat = 'T' ∨ o.key.cat = 'M' ∨
            (a.packetSrc, a.packetType) ∈ measurementPairs) ∧
        (o.st.maxOutputFilter = 9 ↔
          ¬ (o.key.cat = 'T' ∨ o.key.cat = 'M' ∨
            (a.packetSrc, a.packetType) ∈ measurementPairs)) ∧
        (o.st.maxOutputFilter = 9 → o.key.cat = 'S' ∨ o.key.cat = 'U')) := by
  refine ⟨rfl, fun hsrc => ?_⟩
  obtain ⟨o, h, _⟩ := status_bytesbits2keyvalue pseudo s key value a hsrc
  have n19 : (1 : Nat) ≠ 9 := by decide
  have nST : ('S' : Char) ≠ 'T' := by decide
  have nSM : ('S' : Char) ≠ 'M' := by decide
  have nUT : ('U' : Char) ≠ 'T' := by decide
  have nUM : ('U' : Char) ≠ 'M' := by decide
  have hno : ∀ x : Char, x = 'S' ∨ x = 'U' → ¬ (x = 'T' ∨ x = 'M') := by
    intro x hx hy
    rcases hx with hx | hx <;> rcases hy with hy | hy <;> rw [hx] at hy
    · exact nST hy
    · exact nSM hy
    · exact nUT hy
    · exact nUM hy
  refine ⟨o, h, ?_⟩
  rcases tag_bytesbits2keyvalue pseudo s key value a o hsrc h with ⟨h1, h2⟩ | ⟨h1, h2, h3⟩
  · refine ⟨Or.inl h1, fun _ => h1, ⟨fun _ => h2, fun _ => h1⟩, ⟨fun h9 => ?_, fun hn => ?_⟩,
      fun h9 => ?_⟩
    · rw [h1] at h9; exact absurd h9 n19
    · exact absurd h2 hn
    · rw [h1] at h9; exact absurd h9 n19
  · have hn : ¬ (o.key.cat = 'T' ∨ o.key.cat = 'M' ∨
        (a.packetSrc, a.packetType) ∈ measurementPairs) := by
      intro hy
      rcases hy with hy | hy | hy
      · exact hno _ h2 (Or.inl hy)
      · exact hno _ h2 (Or.inr hy)
      · exact h3 hy
    refine ⟨Or.inr h1, fun hy => ?_, ⟨fun h9 => ?_, fun hy => absurd hy hn⟩,
      ⟨fun _ => hn, fun _ => h1⟩, fun _ => h2⟩
    · exact absurd hy (hno _ h2)
    · rw [h1] at h9; exact absurd h9.symm n19

set_option maxRecDepth 100000 in
/-- C8 (witness): the unknown byte at source 0x89, type 0x2D, index 6, with an
incoming ceiling of 5: the two runs agree, the call returns, and its ceiling is
the 1 of the pair (0x89, 0x2D). -/
theorem C8_ceiling_does_not_leak_witness :
    bytesbits2keyvalue noPseudo
        { unknownState with maxOutputFilter := 5 }
        plainPrefix [] ⟨0x89, 0x2D, 6, payloadOf [0, 0, 0, 0, 0, 0, 0x55], 8⟩
      = bytesbits2keyvalue noPseudo unknownState plainPrefix []
        ⟨0x89, 0x2D, 6, payloadOf [0, 0, 0, 0, 0, 0, 0x55], 8⟩ ∧
    ∃ o, bytesbits2keyvalue noPseudo unknownState plainPrefix []
        ⟨0x89, 0x2D, 6, payloadOf [0, 0, 0, 0, 0, 0, 0x55], 8⟩ = some o ∧
      (o.st.maxOutputFilter = 1 ∨ o.st.maxOutputFilter = 9) ∧
      (o.key.cat = 'T' ∨ o.key.cat = 'M' → o.st.maxOutputFilter = 1) ∧
      (o.st.maxOutputFilter = 1 ↔
        o.key.cat = 'T' ∨ o.key.cat = 'M' ∨ ((0x89, 0x2D) : Nat × Nat) ∈ measurementPairs) ∧
      (o.st.maxOutputFilter = 9 ↔
        ¬ (o.key.cat = 'T' ∨ o.key.cat = 'M' ∨
          ((0x89, 0x2D) : Nat × Nat) ∈ measurementPairs)) ∧
      (o.st.maxOutputFilter = 9 → o.key.cat = 'S' ∨ o.key.cat = 'U') :=
  ⟨(C8_ceiling_does_not_leak noPseudo unknownState plainPrefix []
      ⟨0x89, 0x2D, 6, payloadOf [0, 0, 0, 0, 0, 0, 0x55], 8⟩ 5).1,
   (C8_ceiling_does_not_leak noPseudo unknownState plainPrefix []
      ⟨0x89, 0x2D, 6, payloadOf [0, 0, 0, 0, 0, 0, 0x55], 8⟩ 5).2 (Or.inl rfl)⟩

end P1P2
